import Mathlib

/-!
# Order fulfilment over the in-memory store

A shallow embedding of the order core of the repository:

* `internal/domain/entities.go`, `internal/domain/ports.go`: the entities and the repository
  interfaces;
* `internal/service/order_service.go`, `internal/service/product_service.go`: the services;
* `code/tests/memory_repository.go`: the in-memory implementation of all four interfaces.

Stateful Go code is embedded as explicit state passing.  A method call on a world `σ` is a
function `σ → Option (result × σ)`; the value `none` stands for a call that never returns
(a goroutine blocked on a mutex that nobody releases).  Go's `(value, error)` results are kept
as pairs of options, because the language allows both components to be nil or non-nil.
-/

namespace StockPilot

/-! ## Go primitives -/

/-- Go `int` on a 64-bit platform: the representative of `x` in `[-2^63, 2^63)`. -/
def wrapInt (x : Int) : Int := (x + 2 ^ 63) % 2 ^ 64 - 2 ^ 63

/-- The values a Go `int` can hold. -/
def isInt (x : Int) : Prop := -(2 ^ 63) ≤ x ∧ x < 2 ^ 63

instance (x : Int) : Decidable (isInt x) := by unfold isInt; infer_instance

/-- A package-level error variable of the repository: the sentinel `ErrNotFound` of
`pkg/gonerve/errors`. -/
inductive errors.Var where
  | ErrNotFound
deriving DecidableEq, Repr

/-- A Go `error` value: its message (what `Error()` returns) and the package-level error
variables met along its `Unwrap` chain, the value itself included.  A value allocated by a call
(`errors.New`, `fmt.Errorf`) is no such variable, so the chain of a value of `errors.New` is
empty and `fmt.Errorf` with `%w` keeps the chain of its cause. -/
structure GoError where
  msg : String
  chain : List errors.Var
deriving DecidableEq, Repr

/-- The function `errors.New` of `pkg/gonerve/errors`. -/
def errors.New (msg : String) : GoError := ⟨msg, []⟩

/-- The sentinel `errors.ErrNotFound` of `pkg/gonerve/errors`. -/
def errors.ErrNotFound : GoError := ⟨"not found", [errors.Var.ErrNotFound]⟩

/-- The function `errors.Wrap` of `pkg/gonerve/errors`: nil for a nil error, otherwise the
value of `fmt.Errorf("%s: %w", msg, err)`, whose message is `msg: err` and which unwraps to
`err`. -/
def errors.Wrap (err : Option GoError) (msg : String) : Option GoError :=
  err.map (fun e => ⟨msg ++ ": " ++ e.msg, e.chain⟩)

/-- The function `errors.Is` of `pkg/gonerve/errors`, for a target that is a package-level
variable, as in every call of the repository: whether the variable is met along the `Unwrap`
chain of `err`.  A fresh error with the message of the sentinel does not match; a wrapped
sentinel does. -/
def errors.Is (err : GoError) (target : errors.Var) : Bool := err.chain.contains target

/-- A `time.Time`; `0` is the zero time (`IsZero`). -/
abbrev Time := Nat

/-- Lookup `m[k]` in a Go map, kept as an association list. -/
def mapGet {V : Type} : List (String × V) → String → Option V
  | [], _ => none
  | (k', v) :: t, k => if k' = k then some v else mapGet t k

/-- Assignment `m[k] = v` in a Go map: the entry of `k` is replaced, or a new one is added. -/
def mapSet {V : Type} : List (String × V) → String → V → List (String × V)
  | [], k, v => [(k, v)]
  | (k', v') :: t, k, v => if k' = k then (k, v) :: t else (k', v') :: mapSet t k v

/-! ## Unicode case folding (`unicode`, `strings`) -/

/-- The simple case folding of Unicode 14.0 (`CaseFolding.txt`, statuses C and S), from which
the tables of the package `unicode` are generated, in runs `(lo, hi, step, delta)` listed in
increasing order: a code point `c` with `lo ≤ c ≤ hi` and `c - lo` a multiple of `step` folds to
`c + delta`; every other code point folds to itself. -/
def unicode.caseFoldingRuns : List (Nat × Nat × Nat × Int) :=
  [(65, 90, 1, 32), (181, 181, 1, 775), (192, 214, 1, 32), (216, 222, 1, 32), (256, 302, 2, 1),
    (306, 310, 2, 1), (313, 327, 2, 1), (330, 374, 2, 1), (376, 376, 1, -121), (377, 381, 2, 1),
    (383, 383, 1, -268), (385, 385, 1, 210), (386, 388, 2, 1), (390, 390, 1, 206),
    (391, 391, 1, 1), (393, 394, 1, 205), (395, 395, 1, 1), (398, 398, 1, 79), (399, 399, 1, 202),
    (400, 400, 1, 203), (401, 401, 1, 1), (403, 403, 1, 205), (404, 404, 1, 207),
    (406, 406, 1, 211), (407, 407, 1, 209), (408, 408, 1, 1), (412, 412, 1, 211),
    (413, 413, 1, 213), (415, 415, 1, 214), (416, 420, 2, 1), (422, 422, 1, 218), (423, 423, 1, 1),
    (425, 425, 1, 218), (428, 428, 1, 1), (430, 430, 1, 218), (431, 431, 1, 1), (433, 434, 1, 217),
    (435, 437, 2, 1), (439, 439, 1, 219), (440, 440, 1, 1), (444, 444, 1, 1), (452, 452, 1, 2),
    (453, 453, 1, 1), (455, 455, 1, 2), (456, 456, 1, 1), (458, 458, 1, 2), (459, 475, 2, 1),
    (478, 494, 2, 1), (497, 497, 1, 2), (498, 500, 2, 1), (502, 502, 1, -97), (503, 503, 1, -56),
    (504, 542, 2, 1), (544, 544, 1, -130), (546, 562, 2, 1), (570, 570, 1, 10795),
    (571, 571, 1, 1), (573, 573, 1, -163), (574, 574, 1, 10792), (577, 577, 1, 1),
    (579, 579, 1, -195), (580, 580, 1, 69), (581, 581, 1, 71), (582, 590, 2, 1),
    (837, 837, 1, 116), (880, 882, 2, 1), (886, 886, 1, 1), (895, 895, 1, 116), (902, 902, 1, 38),
    (904, 906, 1, 37), (908, 908, 1, 64), (910, 911, 1, 63), (913, 929, 1, 32), (931, 939, 1, 32),
    (962, 962, 1, 1), (975, 975, 1, 8), (976, 976, 1, -30), (977, 977, 1, -25), (981, 981, 1, -15),
    (982, 982, 1, -22), (984, 1006, 2, 1), (1008, 1008, 1, -54), (1009, 1009, 1, -48),
    (1012, 1012, 1, -60), (1013, 1013, 1, -64), (1015, 1015, 1, 1), (1017, 1017, 1, -7),
    (1018, 1018, 1, 1), (1021, 1023, 1, -130), (1024, 1039, 1, 80), (1040, 1071, 1, 32),
    (1120, 1152, 2, 1), (1162, 1214, 2, 1), (1216, 1216, 1, 15), (1217, 1229, 2, 1),
    (1232, 1326, 2, 1), (1329, 1366, 1, 48), (4256, 4293, 1, 7264), (4295, 4295, 1, 7264),
    (4301, 4301, 1, 7264), (5112, 5117, 1, -8), (7296, 7296, 1, -6222), (7297, 7297, 1, -6221),
    (7298, 7298, 1, -6212), (7299, 7300, 1, -6210), (7301, 7301, 1, -6211), (7302, 7302, 1, -6204),
    (7303, 7303, 1, -6180), (7304, 7304, 1, 35267), (7312, 7354, 1, -3008), (7357, 7359, 1, -3008),
    (7680, 7828, 2, 1), (7835, 7835, 1, -58), (7838, 7838, 1, -7615), (7840, 7934, 2, 1),
    (7944, 7951, 1, -8), (7960, 7965, 1, -8), (7976, 7983, 1, -8), (7992, 7999, 1, -8),
    (8008, 8013, 1, -8), (8025, 8031, 2, -8), (8040, 8047, 1, -8), (8072, 8079, 1, -8),
    (8088, 8095, 1, -8), (8104, 8111, 1, -8), (8120, 8121, 1, -8), (8122, 8123, 1, -74),
    (8124, 8124, 1, -9), (8126, 8126, 1, -7173), (8136, 8139, 1, -86), (8140, 8140, 1, -9),
    (8152, 8153, 1, -8), (8154, 8155, 1, -100), (8168, 8169, 1, -8), (8170, 8171, 1, -112),
    (8172, 8172, 1, -7), (8184, 8185, 1, -128), (8186, 8187, 1, -126), (8188, 8188, 1, -9),
    (8486, 8486, 1, -7517), (8490, 8490, 1, -8383), (8491, 8491, 1, -8262), (8498, 8498, 1, 28),
    (8544, 8559, 1, 16), (8579, 8579, 1, 1), (9398, 9423, 1, 26), (11264, 11311, 1, 48),
    (11360, 11360, 1, 1), (11362, 11362, 1, -10743), (11363, 11363, 1, -3814),
    (11364, 11364, 1, -10727), (11367, 11371, 2, 1), (11373, 11373, 1, -10780),
    (11374, 11374, 1, -10749), (11375, 11375, 1, -10783), (11376, 11376, 1, -10782),
    (11378, 11378, 1, 1), (11381, 11381, 1, 1), (11390, 11391, 1, -10815), (11392, 11490, 2, 1),
    (11499, 11501, 2, 1), (11506, 11506, 1, 1), (42560, 42604, 2, 1), (42624, 42650, 2, 1),
    (42786, 42798, 2, 1), (42802, 42862, 2, 1), (42873, 42875, 2, 1), (42877, 42877, 1, -35332),
    (42878, 42886, 2, 1), (42891, 42891, 1, 1), (42893, 42893, 1, -42280), (42896, 42898, 2, 1),
    (42902, 42920, 2, 1), (42922, 42922, 1, -42308), (42923, 42923, 1, -42319),
    (42924, 42924, 1, -42315), (42925, 42925, 1, -42305), (42926, 42926, 1, -42308),
    (42928, 42928, 1, -42258), (42929, 42929, 1, -42282), (42930, 42930, 1, -42261),
    (42931, 42931, 1, 928), (42932, 42946, 2, 1), (42948, 42948, 1, -48),
    (42949, 42949, 1, -42307), (42950, 42950, 1, -35384), (42951, 42953, 2, 1),
    (42960, 42960, 1, 1), (42966, 42968, 2, 1), (42997, 42997, 1, 1), (43888, 43967, 1, -38864),
    (65313, 65338, 1, 32), (66560, 66599, 1, 40), (66736, 66771, 1, 40), (66928, 66938, 1, 39),
    (66940, 66954, 1, 39), (66956, 66962, 1, 39), (66964, 66965, 1, 39), (68736, 68786, 1, 64),
    (71840, 71871, 1, 32), (93760, 93791, 1, 32), (125184, 125217, 1, 34)]

/-- The folding of the code point `c` by a list of runs in increasing order. -/
def unicode.foldBy : List (Nat × Nat × Nat × Int) → Nat → Nat
  | [], c => c
  | (lo, hi, step, delta) :: rest, c =>
    if c < lo then c
    else if c ≤ hi ∧ (c - lo) % step = 0 then ((c : Int) + delta).toNat
    else unicode.foldBy rest c

/-- The simple case folding of a rune: the representative of the runes that
`unicode.SimpleFold` cycles through from it. -/
def unicode.simpleCaseFolding (c : Char) : Char :=
  Char.ofNat (unicode.foldBy unicode.caseFoldingRuns c.toNat)

/-- The function `strings.EqualFold`: whether the two strings are equal under simple Unicode
case folding, rune by rune. -/
def EqualFold (s t : String) : Bool :=
  decide (s.data.map unicode.simpleCaseFolding = t.data.map unicode.simpleCaseFolding)

/-! ## Decimals (`github.com/shopspring/decimal`) -/

/-- A `decimal.Decimal`: the number `value * 10 ^ exp`, with an unbounded coefficient. -/
structure Decimal where
  value : Int
  exp : Int
deriving DecidableEq, Repr

namespace Decimal

/-- The constant `decimal.Zero`, which the library defines as `New(0, 1)`. -/
def Zero : Decimal := ⟨0, 1⟩

/-- The constructor `decimal.NewFromInt`. -/
def NewFromInt (v : Int) : Decimal := ⟨v, 0⟩

/-- The method `rescale`: the same number with exponent `e`, truncating when `e` is larger. -/
def rescale (d : Decimal) (e : Int) : Decimal :=
  if d.exp = e then d
  else if e > d.exp then ⟨Int.tdiv d.value (10 ^ (e - d.exp).toNat), e⟩
  else ⟨d.value * 10 ^ (d.exp - e).toNat, e⟩

/-- The function `RescalePair`: both numbers at the smaller of the two exponents. -/
def RescalePair (d1 d2 : Decimal) : Decimal × Decimal :=
  if d1.exp < d2.exp then (d1, d2.rescale d1.exp)
  else if d1.exp > d2.exp then (d1.rescale d2.exp, d2)
  else (d1, d2)

/-- The method `Add`. -/
def Add (d d2 : Decimal) : Decimal :=
  let p := RescalePair d d2
  ⟨p.1.value + p.2.value, p.1.exp⟩

/-- The method `Mul`. -/
def Mul (d d2 : Decimal) : Decimal := ⟨d.value * d2.value, d.exp + d2.exp⟩

/-- The method `LessThanOrEqual` (`Cmp` on the rescaled pair). -/
def LessThanOrEqual (d d2 : Decimal) : Bool :=
  let p := RescalePair d d2
  decide (p.1.value ≤ p.2.value)

/-- The method `Rat`: the exact rational value `value * 10 ^ exp`. -/
def toRat (d : Decimal) : ℚ := (d.value : ℚ) * (10 : ℚ) ^ d.exp

/-- The method `Round`: the number rounded to `places` decimal places, halves away from zero.
The library rescales to one more place, adds or subtracts five, and divides by ten with
`big.Int.DivMod` (Euclidean), correcting a negative quotient upwards. -/
def Round (d : Decimal) (places : Int) : Decimal :=
  if d.exp = -places then d
  else
    let ret := d.rescale (-places - 1)
    let v := if ret.value < 0 then ret.value - 5 else ret.value + 5
    let q := Int.ediv v 10
    let m := Int.emod v 10
    ⟨if q < 0 ∧ m ≠ 0 then q + 1 else q, ret.exp + 1⟩

/-- The method `string(false)`: the digits of the coefficient with the decimal point placed
`-exp` digits from the right, zero padded, trailing zeros kept. -/
def string (d : Decimal) : String :=
  if 0 ≤ d.exp then toString (d.rescale 0).value
  else
    let str := (toString d.value.natAbs).data
    let n := (-d.exp).toNat
    let intPart := if str.length > n then str.take (str.length - n) else ['0']
    let fractionalPart :=
      if str.length > n then str.drop (str.length - n)
      else List.replicate (n - str.length) '0' ++ str
    let number := if fractionalPart.length > 0 then intPart ++ '.' :: fractionalPart else intPart
    String.mk (if d.value < 0 then '-' :: number else number)

/-- The method `StringFixed`: `d.Round(places).string(false)`. -/
def StringFixed (d : Decimal) (places : Int) : String := (d.Round places).string

/-- The digits of a base ten numeral, read from the left onto `n`. -/
def parseDigits : List Char → Nat → Option Nat
  | [], n => some n
  | c :: cs, n => if c.isDigit then parseDigits cs (10 * n + (c.toNat - 48)) else none

/-- The integer parse that `NewFromString` runs on the digits (`strconv.ParseInt` or
`big.Int.SetString`, base ten): an optional sign and at least one digit. -/
def parseInt (s : List Char) : Option Int :=
  match s with
  | [] => none
  | c :: cs =>
    if c = '-' then
      if cs = [] then none else (parseDigits cs 0).map (fun (n : Nat) => -(n : Int))
    else if c = '+' then
      if cs = [] then none else (parseDigits cs 0).map (fun (n : Nat) => (n : Int))
    else (parseDigits (c :: cs) 0).map (fun (n : Nat) => (n : Int))

/-- The scan of `NewFromString` for the decimal point: the characters before the first point
and, if there is a point, the characters after it. -/
def splitPoint : List Char → List Char × Option (List Char)
  | [] => ([], none)
  | c :: cs => if c = '.' then ([], some cs) else ((splitPoint cs).1.cons c, (splitPoint cs).2)

/-- The scan `strings.IndexAny(value, "Ee")` of `NewFromString`: the characters before the
first `e` or `E` and, if there is one, the characters after it. -/
def splitExponent : List Char → List Char × Option (List Char)
  | [] => ([], none)
  | c :: cs =>
    if c = 'e' ∨ c = 'E' then ([], some cs)
    else ((splitExponent cs).1.cons c, (splitExponent cs).2)

/-- The call `strconv.ParseInt(s, 10, 32)` that `NewFromString` runs on the exponent part: the
integer parse, an error when the value does not fit 32 bits. -/
def parseInt32 (s : List Char) : Option Int :=
  match parseInt s with
  | none => none
  | some v => if -2147483648 ≤ v ∧ v ≤ 2147483647 then some v else none

/-- The end of `NewFromString`: the coefficient is parsed from the digits, and an exponent
outside 32 bits is an error. -/
def fromParts (intString : List Char) (exp : Int) : Option Decimal :=
  match parseInt intString with
  | none => none
  | some v => if exp < -2147483648 ∨ exp > 2147483647 then none else some ⟨v, exp⟩

/-- The function `decimal.NewFromString`, `none` standing for its error.  An exponent part, from
the first `e` or `E` on, is parsed as a 32-bit integer; in what stands before it a second
decimal point is an error; the coefficient is that text without its decimal point, and the
exponent is the exponent part minus the number of characters after the point. -/
def NewFromString (value : String) : Option Decimal :=
  match (match (splitExponent value.data).2 with
    | none => some 0
    | some expString => parseInt32 expString) with
  | none => none
  | some exp =>
    match splitPoint (splitExponent value.data).1 with
    | (intString, none) => fromParts intString exp
    | (before, some after) =>
      if '.' ∈ after then none else fromParts (before ++ after) (exp - (after.length : Int))

end Decimal

/-! ## Entities (`internal/domain/entities.go`) -/

/-- The struct `domain.User`. -/
structure User where
  ID : String
  Email : String
  FirstName : String
  LastName : String
  Age : Int
  IsMarried : Bool
  PasswordHash : String
  CreatedAt : Time
deriving DecidableEq, Repr

/-- The struct `domain.Product`. -/
structure Product where
  ID : String
  Description : String
  Tags : List String
  Quantity : Int
  Price : Decimal
  CreatedAt : Time
  UpdatedAt : Time
deriving DecidableEq, Repr

/-- The struct `domain.OrderItem`. -/
structure OrderItem where
  ID : String
  OrderID : String
  ProductID : String
  Quantity : Int
  Price : Decimal
deriving DecidableEq, Repr

/-- The struct `domain.Order`. -/
structure Order where
  ID : String
  UserID : String
  CreatedAt : Time
  TotalPrice : Decimal
  Items : List OrderItem
deriving DecidableEq, Repr

/-- The struct `service.OrderItemInput`. -/
structure OrderItemInput where
  ProductID : String
  Quantity : Int
deriving DecidableEq, Repr

/-- The struct `service.CreateProductInput`. -/
structure CreateProductInput where
  Description : String
  Tags : List String
  Quantity : Int
  Price : Decimal
deriving DecidableEq, Repr

/-- The method `User.FullName`. -/
def User.FullName (u : User) : String :=
  if u.FirstName = "" ∧ u.LastName = "" then ""
  else if u.FirstName = "" then u.LastName
  else if u.LastName = "" then u.FirstName
  else u.FirstName ++ " " ++ u.LastName

/-! ## Repository interfaces (`internal/domain/ports.go`) -/

/-- A `pgx.Tx` interface value, as far as the repositories distinguish them: the nil interface,
a `*memoryTx` (with the answer to `mt.repo == r` for the repository it is handed to), a
transaction begun on a PostgreSQL connection (with the handle that names it), or any other
implementation. -/
inductive Tx where
  | nil
  | memoryTx (sameRepo : Bool)
  | other
  | pgx (handle : Nat)
deriving DecidableEq, Repr

/-- A method call on the world `σ`; `none` when the call never returns. -/
abbrev Method (σ α : Type) := σ → Option (α × σ)

/-- The interface `domain.UserRepository`. -/
structure UserRepository (σ : Type) where
  CreateUser : User → Method σ (Option User × Option GoError)
  GetByEmail : String → Method σ (Option User × Option GoError)
  GetByID : String → Method σ (Option User × Option GoError)

/-- The interface `domain.ProductRepository`. -/
structure ProductRepository (σ : Type) where
  CreateProduct : Product → Method σ (Option Product × Option GoError)
  GetProductByID : String → Method σ (Option Product × Option GoError)
  GetByIDsForUpdate : Tx → List String → Method σ (List Product × Option GoError)
  UpdateQuantity : Tx → String → Int → Method σ (Option GoError)

/-- The interface `domain.OrderRepository`. -/
structure OrderRepository (σ : Type) where
  CreateOrder : Tx → Order → List OrderItem → Method σ (Option Order × Option GoError)

/-- The interface `domain.TxManager`.  The callback is a Go closure: besides the world it may
read and write variables of its caller, which the manager cannot see; they are the state `κ`. -/
structure TxManager (σ : Type) where
  WithTx : {κ : Type} → (Tx → κ → Method σ (Option GoError × κ)) → κ → Method σ (Option GoError × κ)

/-! ## The order service (`internal/service/order_service.go`) -/

/-- The struct `service.OrderService`. -/
structure OrderService (σ : Type) where
  products : ProductRepository σ
  orders : OrderRepository σ
  users : UserRepository σ
  tx : TxManager σ

/-- The validation loop of `Create` (lines 41-48): the error of the first offending item. -/
def validateItems : List OrderItemInput → Option GoError
  | [] => none
  | item :: rest =>
    if item.ProductID = "" then some (errors.New "product id is required")
    else if item.Quantity ≤ 0 then some (errors.New "quantity must be positive")
    else validateItems rest

/-- The deduplication loop of `Create` (lines 58-65), from the state `(unique, ids)`. -/
def collectIDs : List OrderItemInput → List (String × Unit) → List String → List String
  | [], _, ids => ids
  | item :: rest, unique, ids =>
    match mapGet unique item.ProductID with
    | some _ => collectIDs rest unique ids
    | none => collectIDs rest (mapSet unique item.ProductID ()) (ids ++ [item.ProductID])

/-- The loop that fills `productMap` (lines 73-76). -/
def buildProductMap : List Product → List (String × Product) → List (String × Product)
  | [], m => m
  | p :: rest, m => buildProductMap rest (mapSet m p.ID p)

/-- The item loop of `Create` (lines 79-97), from the state `(total, orderItems)`: the error it
returns with, or the final total and order items. -/
def itemLoop {σ : Type} (products : ProductRepository σ) (tx : Tx)
    (productMap : List (String × Product)) :
    List OrderItemInput → Decimal → List OrderItem → Method σ (Option GoError × Decimal × List OrderItem)
  | [], total, orderItems, w => some ((none, total, orderItems), w)
  | item :: rest, total, orderItems, w =>
    match mapGet productMap item.ProductID with
    | none => some ((some (errors.New "product not found"), total, orderItems), w)
    | some product =>
      if product.Quantity < item.Quantity then
        some ((some (errors.New "insufficient stock"), total, orderItems), w)
      else
        match products.UpdateQuantity tx product.ID (wrapInt (-item.Quantity)) w with
        | none => none
        | some (some err, w1) => some ((some err, total, orderItems), w1)
        | some (none, w1) =>
          let linePrice := product.Price.Mul (Decimal.NewFromInt item.Quantity)
          itemLoop products tx productMap rest (total.Add linePrice)
            (orderItems ++ [⟨"", "", product.ID, item.Quantity, product.Price⟩]) w1

/-- The closure that `Create` hands to `WithTx` (lines 57-105); `created` is the variable of
`Create` that the closure assigns. -/
def OrderService.createTx {σ : Type} (s : OrderService σ) (userID : String)
    (items : List OrderItemInput) (tx : Tx) (created : Option Order) :
    Method σ (Option GoError × Option Order) := fun w =>
  let ids := collectIDs items [] []
  match s.products.GetByIDsForUpdate tx ids w with
  | none => none
  | some ((_, some err), w1) => some ((some err, created), w1)
  | some ((products, none), w1) =>
    if products.length ≠ ids.length then
      some ((some (errors.New "product not found"), created), w1)
    else
      match itemLoop s.products tx (buildProductMap products []) items Decimal.Zero [] w1 with
      | none => none
      | some ((some err, _), w2) => some ((some err, created), w2)
      | some ((none, total, orderItems), w2) =>
        match s.orders.CreateOrder tx ⟨"", userID, 0, total, orderItems⟩ orderItems w2 with
        | none => none
        | some ((order, err), w3) => some ((err, order), w3)

/-- The method `OrderService.Create`. -/
def OrderService.Create {σ : Type} (s : OrderService σ) (userID : String)
    (items : List OrderItemInput) : Method σ (Option Order × Option GoError) := fun w =>
  if userID = "" then some ((none, some (errors.New "user id is required")), w)
  else if items.length = 0 then some ((none, some (errors.New "order items are required")), w)
  else
    match validateItems items with
    | some err => some ((none, some err), w)
    | none =>
      match s.users.GetByID userID w with
      | none => none
      | some ((_, some err), w1) => some ((none, some err), w1)
      | some ((none, none), w1) => some ((none, some (errors.New "user not found")), w1)
      | some ((some _, none), w1) =>
        match s.tx.WithTx (s.createTx userID items) none w1 with
        | none => none
        | some ((err, created), w2) => some ((created, err), w2)

/-! ## Goroutines that call `Create` -/

/-- A goroutine that runs `OrderService.Create`, at a point where it is inside no repository
call: at the entry of `Create`; between the return of `GetByID`, which found the user, and the
call of `WithTx` (line 56); or after `Create` has returned. -/
inductive Goroutine where
  | entry (userID : String) (items : List OrderItemInput)
  | beforeTx (userID : String) (items : List OrderItemInput)
  | returned (order : Option Order) (err : Option GoError)
deriving DecidableEq, Repr

/-- The stretch of `Create` that a goroutine runs next: from the entry through the validation
and the call of `GetByID` (lines 35-55), or the call of `WithTx` with the closure and the return
(lines 56-107).  Each stretch makes one call on the repositories, and over `MemoryRepository`
that call holds the mutex from its first access to the store to its last, so that a run of
several goroutines is an interleaving of their stretches.  A goroutine that has returned stays
as it is. -/
def Goroutine.step {σ : Type} (s : OrderService σ) : Goroutine → σ → Option (Goroutine × σ)
  | Goroutine.entry userID items, w =>
    if userID = "" then
      some (Goroutine.returned none (some (errors.New "user id is required")), w)
    else if items.length = 0 then
      some (Goroutine.returned none (some (errors.New "order items are required")), w)
    else
      match validateItems items with
      | some err => some (Goroutine.returned none (some err), w)
      | none =>
        match s.users.GetByID userID w with
        | none => none
        | some ((_, some err), w1) => some (Goroutine.returned none (some err), w1)
        | some ((none, none), w1) =>
          some (Goroutine.returned none (some (errors.New "user not found")), w1)
        | some ((some _, none), w1) => some (Goroutine.beforeTx userID items, w1)
  | Goroutine.beforeTx userID items, w =>
    match s.tx.WithTx (s.createTx userID items) none w with
    | none => none
    | some ((err, created), w2) => some (Goroutine.returned created err, w2)
  | Goroutine.returned order err, w => some (Goroutine.returned order err, w)

/-- A goroutine run on its own until it has returned: at most two stretches. -/
def Goroutine.runAlone {σ : Type} (s : OrderService σ) (g : Goroutine) :
    Method σ (Option Order × Option GoError) := fun w =>
  match g.step s w with
  | none => none
  | some (Goroutine.returned order err, w1) => some ((order, err), w1)
  | some (g1, w1) =>
    match g1.step s w1 with
    | some (Goroutine.returned order err, w2) => some ((order, err), w2)
    | _ => none

/-- A run of several goroutines under a schedule, which names, stretch by stretch, the
goroutine that runs next; a number that names no goroutine is skipped. -/
def runSchedule {σ : Type} (s : OrderService σ) :
    List Nat → List Goroutine → σ → Option (List Goroutine × σ)
  | [], gs, w => some (gs, w)
  | i :: rest, gs, w =>
    match gs[i]? with
    | none => runSchedule s rest gs w
    | some g =>
      match g.step s w with
      | none => none
      | some (g1, w1) => runSchedule s rest (gs.set i g1) w1

/-! ## The product service (`internal/service/product_service.go`) -/

/-- The struct `service.ProductService`. -/
structure ProductService (σ : Type) where
  products : ProductRepository σ

/-- The method `ProductService.Create`. -/
def ProductService.Create {σ : Type} (s : ProductService σ) (input : CreateProductInput) :
    Method σ (Option Product × Option GoError) := fun w =>
  if input.Description = "" then some ((none, some (errors.New "description is required")), w)
  else if input.Quantity < 0 then some ((none, some (errors.New "quantity cannot be negative")), w)
  else if input.Price.LessThanOrEqual Decimal.Zero then
    some ((none, some (errors.New "price must be positive")), w)
  else
    match s.products.CreateProduct ⟨"", input.Description, input.Tags, input.Quantity, input.Price, 0, 0⟩ w with
    | none => none
    | some ((_, some err), w1) => some ((none, some err), w1)
    | some ((created, none), w1) => some ((created, none), w1)

/-! ## The user service (`internal/service/user_service.go`) -/

/-- The struct `service.RegisterInput`. -/
structure RegisterInput where
  Email : String
  FirstName : String
  LastName : String
  Password : String
  Age : Int
  IsMarried : Bool
deriving DecidableEq, Repr

/-- The struct `service.UserService`. -/
structure UserService (σ : Type) where
  users : UserRepository σ

/-- The method `UserService.Register`.  `GenerateFromPassword` stands for
`bcrypt.GenerateFromPassword` at the default cost: the hash it returns for a password, or its
error.  Go's `len` of a string is its length in bytes. -/
def UserService.Register {σ : Type} (s : UserService σ)
    (GenerateFromPassword : String → String × Option GoError) (input : RegisterInput) :
    Method σ (Option User × Option GoError) := fun w =>
  if input.Age < 18 then some ((none, some (errors.New "user must be at least 18")), w)
  else if input.Password.utf8ByteSize < 8 then
    some ((none, some (errors.New "password must be at least 8 characters")), w)
  else if input.Email = "" then some ((none, some (errors.New "email is required")), w)
  else
    match s.users.GetByEmail input.Email w with
    | none => none
    | some ((_, some err), w1) => some ((none, some err), w1)
    | some ((some _, none), w1) => some ((none, some (errors.New "user already exists")), w1)
    | some ((none, none), w1) =>
      match GenerateFromPassword input.Password with
      | (_, some err) => some ((none, errors.Wrap (some err) "hash password"), w1)
      | (hash, none) =>
        match s.users.CreateUser
          ⟨"", input.Email, input.FirstName, input.LastName, input.Age, input.IsMarried, hash, 0⟩
          w1 with
        | none => none
        | some ((_, some err), w2) => some ((none, some err), w2)
        | some ((created, none), w2) => some ((created, none), w2)

/-! ## The in-memory repository (`code/tests/memory_repository.go`) -/

/-- One invocation of a method of `MemoryRepository`, with its arguments. -/
inductive Invocation where
  | WithTx
  | CreateUser (user : User)
  | GetByEmail (email : String)
  | GetByID (id : String)
  | CreateProduct (product : Product)
  | GetProductByID (id : String)
  | GetByIDsForUpdate (tx : Tx) (ids : List String)
  | UpdateQuantity (tx : Tx) (id : String) (delta : Int)
  | CreateOrder (tx : Tx) (order : Order) (items : List OrderItem)
deriving DecidableEq, Repr

/-- The struct `MemoryRepository` together with the environment its methods read.
`mu` is the mutex (`true` while held).  `ug` is the id generator: the `n`-th call of `V4`
returns `ug n`, and `ugCalls` counts the calls made.  `clock` and `clockCalls` do the same for
`time.Now`.  `calls` is a ghost field, absent from the source: every method appends its own
invocation to it on entry, and nothing reads it. -/
structure MemoryRepository where
  mu : Bool
  users : List (String × User)
  products : List (String × Product)
  orders : List (String × Order)
  ug : Nat → String
  ugCalls : Nat
  clock : Nat → Time
  clockCalls : Nat
  calls : List Invocation

/-- The constructor `NewMemoryRepository`, given the id generator and the clock. -/
def NewMemoryRepository (ug : Nat → String) (clock : Nat → Time) : MemoryRepository :=
  ⟨false, [], [], [], ug, 0, clock, 0, []⟩

namespace MemoryRepository

/-- Ghost: append an invocation to the log. -/
def record (r : MemoryRepository) (c : Invocation) : MemoryRepository :=
  { r with calls := r.calls ++ [c] }

/-- The method `lock`: nothing to do for a `*memoryTx` of this repository; otherwise
`r.mu.Lock()`, which never returns while the mutex is held.  The Boolean tells whether the
returned function is `r.mu.Unlock`. -/
def lock (r : MemoryRepository) (tx : Tx) : Option (Bool × MemoryRepository) :=
  match tx with
  | Tx.memoryTx true => some (false, r)
  | _ => if r.mu then none else some (true, { r with mu := true })

/-- Running the function that `lock` returned. -/
def unlock (r : MemoryRepository) (held : Bool) : MemoryRepository :=
  if held then { r with mu := false } else r

/-- The method `nextID`. -/
def nextID (r : MemoryRepository) : String × MemoryRepository :=
  (r.ug r.ugCalls, { r with ugCalls := r.ugCalls + 1 })

/-- The call `time.Now().UTC()`. -/
def timeNow (r : MemoryRepository) : Time × MemoryRepository :=
  (r.clock r.clockCalls, { r with clockCalls := r.clockCalls + 1 })

/-- The method `WithTx`. -/
def WithTx {κ : Type} (f : Tx → κ → Method MemoryRepository (Option GoError × κ)) (k : κ) :
    Method MemoryRepository (Option GoError × κ) := fun r0 =>
  let r := r0.record Invocation.WithTx
  if r.mu then none
  else
    match f (Tx.memoryTx true) k { r with mu := true } with
    | none => none
    | some (res, r1) => some (res, { r1 with mu := false })

/-- The method `CreateUser`. -/
def CreateUser (user : User) : Method MemoryRepository (Option User × Option GoError) := fun r0 =>
  match (r0.record (Invocation.CreateUser user)).lock Tx.nil with
  | none => none
  | some (held, r) =>
    if r.users.any (fun e => EqualFold e.2.Email user.Email) then
      some ((none, some (errors.New "user already exists")), r.unlock held)
    else
      let (id, r1) := if user.ID = "" then r.nextID else (user.ID, r)
      let (createdAt, r2) := if user.CreatedAt = 0 then r1.timeNow else (user.CreatedAt, r1)
      let clone : User := { user with ID := id, CreatedAt := createdAt }
      some ((some clone, none), ({ r2 with users := mapSet r2.users id clone }).unlock held)

/-- The method `GetByEmail`. -/
def GetByEmail (email : String) : Method MemoryRepository (Option User × Option GoError) :=
  fun r0 =>
  match (r0.record (Invocation.GetByEmail email)).lock Tx.nil with
  | none => none
  | some (held, r) =>
    some (((r.users.find? (fun e => EqualFold e.2.Email email)).map Prod.snd, none), r.unlock held)

/-- The method `GetByID`. -/
def GetByID (id : String) : Method MemoryRepository (Option User × Option GoError) := fun r0 =>
  match (r0.record (Invocation.GetByID id)).lock Tx.nil with
  | none => none
  | some (held, r) => some ((mapGet r.users id, none), r.unlock held)

/-- The method `CreateProduct`. -/
def CreateProduct (product : Product) : Method MemoryRepository (Option Product × Option GoError) :=
  fun r0 =>
  match (r0.record (Invocation.CreateProduct product)).lock Tx.nil with
  | none => none
  | some (held, r) =>
    let (id, r1) := if product.ID = "" then r.nextID else (product.ID, r)
    let (now, r2) := r1.timeNow
    let clone : Product :=
      { product with
        ID := id
        CreatedAt := if product.CreatedAt = 0 then now else product.CreatedAt
        UpdatedAt := if product.UpdatedAt = 0 then now else product.UpdatedAt }
    some ((some clone, none), ({ r2 with products := mapSet r2.products id clone }).unlock held)

/-- The method `GetProductByID`. -/
def GetProductByID (id : String) : Method MemoryRepository (Option Product × Option GoError) :=
  fun r0 =>
  match (r0.record (Invocation.GetProductByID id)).lock Tx.nil with
  | none => none
  | some (held, r) => some ((mapGet r.products id, none), r.unlock held)

/-- The method `GetByIDsForUpdate`. -/
def GetByIDsForUpdate (tx : Tx) (ids : List String) :
    Method MemoryRepository (List Product × Option GoError) := fun r0 =>
  match (r0.record (Invocation.GetByIDsForUpdate tx ids)).lock tx with
  | none => none
  | some (held, r) => some ((ids.filterMap (mapGet r.products), none), r.unlock held)

/-- The method `UpdateQuantity`. -/
def UpdateQuantity (tx : Tx) (id : String) (delta : Int) : Method MemoryRepository (Option GoError) :=
  fun r0 =>
  match (r0.record (Invocation.UpdateQuantity tx id delta)).lock tx with
  | none => none
  | some (held, r) =>
    match mapGet r.products id with
    | none => some (some (errors.New "product not found"), r.unlock held)
    | some p =>
      if wrapInt (p.Quantity + delta) < 0 then
        some (some (errors.New "insufficient stock"), r.unlock held)
      else
        let (now, r1) := r.timeNow
        let p1 : Product := { p with Quantity := wrapInt (p.Quantity + delta), UpdatedAt := now }
        some (none, ({ r1 with products := mapSet r1.products id p1 }).unlock held)

/-- The loop of `CreateOrder` over `order.Items` (lines 175-180). -/
def stampItems (orderID : String) : List OrderItem → MemoryRepository → List OrderItem × MemoryRepository
  | [], r => ([], r)
  | item :: rest, r =>
    let (id, r1) := if item.ID = "" then r.nextID else (item.ID, r)
    let (rest1, r2) := stampItems orderID rest r1
    ({ item with ID := id, OrderID := orderID } :: rest1, r2)

/-- The method `CreateOrder`. -/
def CreateOrder (tx : Tx) (order : Order) (items : List OrderItem) :
    Method MemoryRepository (Option Order × Option GoError) := fun r0 =>
  match (r0.record (Invocation.CreateOrder tx order items)).lock tx with
  | none => none
  | some (held, r) =>
    let (id, r1) := if order.ID = "" then r.nextID else (order.ID, r)
    let (createdAt, r2) := if order.CreatedAt = 0 then r1.timeNow else (order.CreatedAt, r1)
    let (stamped, r3) := stampItems id items r2
    let clone : Order := { order with ID := id, CreatedAt := createdAt, Items := stamped }
    some ((some clone, none), ({ r3 with orders := mapSet r3.orders id clone }).unlock held)

end MemoryRepository

/-- The repository as `domain.UserRepository`. -/
def memoryUsers : UserRepository MemoryRepository :=
  ⟨MemoryRepository.CreateUser, MemoryRepository.GetByEmail, MemoryRepository.GetByID⟩

/-- The repository as `domain.ProductRepository`. -/
def memoryProducts : ProductRepository MemoryRepository :=
  ⟨MemoryRepository.CreateProduct, MemoryRepository.GetProductByID,
    MemoryRepository.GetByIDsForUpdate, MemoryRepository.UpdateQuantity⟩

/-- The repository as `domain.OrderRepository`. -/
def memoryOrders : OrderRepository MemoryRepository := ⟨MemoryRepository.CreateOrder⟩

/-- The repository as `domain.TxManager`. -/
def memoryTxManager : TxManager MemoryRepository := ⟨MemoryRepository.WithTx⟩

/-- The order service of `CreateUnitTestingSuite`: `NewOrderService(repo, repo, repo, repo)`. -/
def memoryOrderService : OrderService MemoryRepository :=
  ⟨memoryProducts, memoryOrders, memoryUsers, memoryTxManager⟩

/-- The product service of `CreateUnitTestingSuite`: `NewProductService(repo)`. -/
def memoryProductService : ProductService MemoryRepository := ⟨memoryProducts⟩

/-! ## The PostgreSQL transaction manager (`pkg/gonerve/postgresql`) -/

namespace postgresql

/-- The interface `postgresql.Connection`, and the `pgx.Tx` that it begins, as far as `WithTx`
calls them: `Begin` returns `(pgx.Tx, error)`; `Commit` and `Rollback` are the methods of the
transaction. -/
structure Connection (σ : Type) where
  Begin : Method σ (Tx × Option GoError)
  Commit : Tx → Method σ (Option GoError)
  Rollback : Tx → Method σ (Option GoError)

/-- The struct `postgresql.Repository`; `isLocked` reads its atomic flag from the world. -/
structure Repository (σ : Type) where
  Conn : Connection σ
  isLocked : σ → Bool

/-- The method `Locked`: `CompareAndSwap(false, false)` fails exactly when the flag is set, and
never changes it. -/
def Repository.Locked {σ : Type} (r : Repository σ) (w : σ) : Option GoError :=
  if r.isLocked w then some (errors.New "db is locked") else none

/-- The method `WithTx` (`transaction.go`).  The named result `err` is set by `return f(ctx, tx)`
and then rewritten by the deferred function; a failing `Rollback` is only logged. -/
def Repository.WithTx {σ : Type} (r : Repository σ) {κ : Type}
    (f : Tx → κ → Method σ (Option GoError × κ)) (k : κ) : Method σ (Option GoError × κ) :=
  fun w =>
  match r.Locked w with
  | some err => some ((some err, k), w)
  | none =>
    match r.Conn.Begin w with
    | none => none
    | some ((_, some err), w1) => some ((errors.Wrap (some err) "begin tx", k), w1)
    | some ((tx, none), w1) =>
      match f tx k w1 with
      | none => none
      | some ((ferr, k1), w2) =>
        match (match ferr with
          | none => r.Locked w2
          | some e => some e) with
        | some err =>
          match r.Conn.Rollback tx w2 with
          | none => none
          | some (_, w3) => some ((some err, k1), w3)
        | none =>
          match r.Conn.Commit tx w2 with
          | none => none
          | some (cmErr, w3) => some ((errors.Wrap cmErr "commit tx", k1), w3)

/-- The repository as `domain.TxManager`. -/
def Repository.txManager {σ : Type} (r : Repository σ) : TxManager σ := ⟨r.WithTx⟩

/-- One call that `WithTx` makes: on the connection, on the transaction, or of its callback. -/
inductive Event where
  | Begin
  | Callback (tx : Tx)
  | Commit (tx : Tx)
  | Rollback (tx : Tx)
deriving DecidableEq, Repr

/-- Ghost: the same connection over a world that also holds the log of the calls made; every
method appends its own call when it returns. -/
def Connection.traced {σ : Type} (c : Connection σ) : Connection (σ × List Event) where
  Begin := fun w => (c.Begin w.1).map (fun x => (x.1, (x.2, w.2 ++ [Event.Begin])))
  Commit := fun tx w => (c.Commit tx w.1).map (fun x => (x.1, (x.2, w.2 ++ [Event.Commit tx])))
  Rollback := fun tx w =>
    (c.Rollback tx w.1).map (fun x => (x.1, (x.2, w.2 ++ [Event.Rollback tx])))

/-- Ghost: the same repository over the world with the log. -/
def Repository.traced {σ : Type} (r : Repository σ) : Repository (σ × List Event) :=
  ⟨r.Conn.traced, fun w => r.isLocked w.1⟩

/-- Ghost: the same callback over the world with the log; it appends its own call when it
returns and cannot touch the log otherwise. -/
def tracedCallback {σ κ : Type} (f : Tx → κ → Method σ (Option GoError × κ)) :
    Tx → κ → Method (σ × List Event) (Option GoError × κ) :=
  fun tx k w => (f tx k w.1).map (fun x => (x.1, (x.2, w.2 ++ [Event.Callback tx])))

end postgresql

/-! ## Statements (`pkg/gonerve/postgresql/query`, `internal/repository/postgres`) -/

/-- A statement that the PostgreSQL repository runs through `query.Exec`, with its arguments. -/
inductive Statement where
  | updateQuantity (id : String) (delta : Int) (now : Time)
deriving DecidableEq, Repr

namespace query

/-- The interface `dbConn`, as far as `Exec` calls it: the method `Exec` returns the command tag,
of which only `RowsAffected` is read, and an error. -/
structure dbConn (σ : Type) where
  Exec : Statement → Method σ (Nat × Option GoError)

/-- The function `query.Exec`. -/
def Exec {σ : Type} (c : dbConn σ) (q : Statement) : Method σ (Option GoError) := fun w =>
  match c.Exec q w with
  | none => none
  | some ((_, some err), w1) => some (errors.Wrap (some err) "database query failed", w1)
  | some ((rowsAffected, none), w1) =>
    if rowsAffected = 0 then some (some errors.ErrNotFound, w1) else some (none, w1)

end query

namespace postgres

/-- The method `Repository.UpdateQuantity` of `internal/repository/postgres`; the transaction it
is handed is the `dbConn`, and `now` is what `time.Now().UTC()` returns. -/
def UpdateQuantity {σ : Type} (tx : query.dbConn σ) (now : Time) (id : String) (delta : Int) :
    Method σ (Option GoError) := fun w =>
  match query.Exec tx (Statement.updateQuantity id delta now) w with
  | none => none
  | some (none, w1) => some (none, w1)
  | some (some err, w1) =>
    if errors.Is err errors.Var.ErrNotFound then
      some (some (errors.New "insufficient stock"), w1)
    else some (errors.Wrap (some err) "update quantity", w1)

/-- The statement `updateQuantityQuery` on a `products` table, following its SQL text:
`UPDATE products SET quantity = quantity + $2, updated_at = $3
WHERE id = $1 AND quantity + $2 >= 0`.  The rows affected are the rows that satisfy the `WHERE`
clause; the arithmetic is that of a sum that stays in the column's range. -/
def productsTable : query.dbConn (List Product) where
  Exec := fun q rows =>
    match q with
    | Statement.updateQuantity id delta now =>
      some (((rows.filter (fun row => row.ID = id ∧ row.Quantity + delta ≥ 0)).length, none),
        rows.map (fun row =>
          if row.ID = id ∧ row.Quantity + delta ≥ 0 then
            { row with Quantity := row.Quantity + delta, UpdatedAt := now }
          else row))

end postgres

/-! ## The handler (`internal/handler/handler.go`) -/

/-- The function `unicode.IsSpace`. -/
def unicode.IsSpace (c : Char) : Bool :=
  c = '\t' ∨ c = '\n' ∨ c.toNat = 11 ∨ c.toNat = 12 ∨ c = '\r' ∨ c = ' ' ∨ c.toNat = 0x85 ∨
  c.toNat = 0xA0 ∨ c.toNat = 0x1680 ∨ (0x2000 ≤ c.toNat ∧ c.toNat ≤ 0x200A) ∨
  c.toNat = 0x2028 ∨ c.toNat = 0x2029 ∨ c.toNat = 0x202F ∨ c.toNat = 0x205F ∨ c.toNat = 0x3000

/-- The function `strings.TrimSpace`: the string without its leading and trailing white space. -/
def strings.TrimSpace (s : String) : String :=
  String.mk ((s.data.dropWhile unicode.IsSpace).reverse.dropWhile unicode.IsSpace).reverse

/-- The struct `handler.Handler`. -/
structure Handler (σ : Type) where
  users : UserService σ
  products : ProductService σ
  orders : OrderService σ

/-- The struct `handler.ErrorResponse`. -/
structure ErrorResponse where
  Message : String
deriving DecidableEq, Repr

/-- The struct `handler.CreateProductRequest`. -/
structure CreateProductRequest where
  Description : String
  Tags : List String
  Quantity : Int
  Price : String
deriving DecidableEq, Repr

/-- The struct `handler.ProductResponse`. -/
structure ProductResponse where
  ID : String
  Description : String
  Tags : List String
  Quantity : Int
  Price : String
  CreatedAt : Time
  UpdatedAt : Time
deriving DecidableEq, Repr

/-- The struct `handler.OrderItemResponse`. -/
structure OrderItemResponse where
  ID : String
  ProductID : String
  Quantity : Int
  Price : String
deriving DecidableEq, Repr

/-- The struct `handler.OrderResponse`. -/
structure OrderResponse where
  ID : String
  UserID : String
  CreatedAt : Time
  TotalPrice : String
  Items : List OrderItemResponse
deriving DecidableEq, Repr

/-- The method `Handler.writeError`: the HTTP status and the body it writes for a non-nil
error; for a nil error it writes nothing. -/
def Handler.writeError (err : Option GoError) : Option (Nat × ErrorResponse) :=
  match err with
  | none => none
  | some e =>
    let status : Nat :=
      if e.msg ∈ ["user must be at least 18", "password must be at least 8 characters",
          "email is required", "description is required", "quantity cannot be negative",
          "price must be positive", "id is required", "user id is required",
          "order items are required", "product id is required", "quantity must be positive",
          "user already exists"] then 400
      else if e.msg ∈ ["user not found", "product not found"] then 404
      else if e.msg = "insufficient stock" then 409
      else 500
    some (status, ⟨e.msg⟩)

/-- The function `toProductResponse`. -/
def toProductResponse (p : Product) : ProductResponse :=
  ⟨p.ID, p.Description, p.Tags, p.Quantity, p.Price.StringFixed 2, p.CreatedAt, p.UpdatedAt⟩

/-- The function `toOrderResponse`. -/
def toOrderResponse (o : Order) : OrderResponse :=
  ⟨o.ID, o.UserID, o.CreatedAt, o.TotalPrice.StringFixed 2,
    o.Items.map (fun item => ⟨item.ID, item.ProductID, item.Quantity, item.Price.StringFixed 2⟩)⟩

/-- The method `Handler.CreateProduct`, from the bound request on: the status and the body of
the response.  A nil product with a nil error would make `toProductResponse` dereference nil;
the model has no response for it. -/
def Handler.CreateProduct {σ : Type} (h : Handler σ) (req : CreateProductRequest) :
    Method σ (Nat × (ErrorResponse ⊕ ProductResponse)) := fun w =>
  match Decimal.NewFromString req.Price with
  | none => some ((400, Sum.inl ⟨"invalid price"⟩), w)
  | some price =>
    match h.products.Create
      ⟨strings.TrimSpace req.Description, req.Tags, req.Quantity, price⟩ w with
    | none => none
    | some ((_, some err), w1) =>
      (Handler.writeError (some err)).map (fun res => ((res.1, Sum.inl res.2), w1))
    | some ((some product, none), w1) => some ((201, Sum.inr (toProductResponse product)), w1)
    | some ((none, none), _) => none

/-! ## Vocabulary of the statements -/

/-- The four errors of the validation block of `OrderService.Create` (lines 35-48). -/
def validationErrors : List GoError :=
  [errors.New "user id is required", errors.New "order items are required",
    errors.New "product id is required", errors.New "quantity must be positive"]

/-- A request that passes the validation block of `OrderService.Create`. -/
def Validated (userID : String) (items : List OrderItemInput) : Prop :=
  userID ≠ "" ∧ items ≠ [] ∧ ∀ it ∈ items, it.ProductID ≠ "" ∧ 0 < it.Quantity

/-- The total quantity that the line items of a request ask of product `k`. -/
def demand (items : List OrderItemInput) (k : String) : Int :=
  ((items.filter (fun it => it.ProductID = k)).map (fun it => it.Quantity)).sum

/-- The stored quantity of product `k`, if there is such a product. -/
def MemoryRepository.quantity (r : MemoryRepository) (k : String) : Option Int :=
  (mapGet r.products k).map (fun p => p.Quantity)

/-- The unit price of product `k` in the store, as an exact rational; `0` when no product is
stored under `k`. -/
def MemoryRepository.unitPrice (r : MemoryRepository) (k : String) : ℚ :=
  ((mapGet r.products k).map (fun p => p.Price.toRat)).getD 0

/-- The sum over the line items of a request of line quantity times unit price. -/
def MemoryRepository.lineTotal (r : MemoryRepository) (items : List OrderItemInput) : ℚ :=
  (items.map (fun it => (it.Quantity : ℚ) * r.unitPrice it.ProductID)).sum

/-- The order item that the item loop of `Create` appends for a line whose product it read as
`p` (lines 92-96). -/
def lineItem (it : OrderItemInput) (p : Product) : OrderItem :=
  ⟨"", "", p.ID, it.Quantity, p.Price⟩

/-- Every product is stored under its own id, as `CreateProduct` stores it. -/
def MemoryRepository.KeyedByID (r : MemoryRepository) : Prop :=
  ∀ k p, mapGet r.products k = some p → p.ID = k

/-- The product map is keyed by id and its quantities are Go `int` values. -/
def MemoryRepository.WellFormed (r : MemoryRepository) : Prop :=
  ∀ k p, mapGet r.products k = some p → p.ID = k ∧ isInt p.Quantity

/-- No stored product has a negative quantity. -/
def MemoryRepository.NonNegStock (r : MemoryRepository) : Prop :=
  ∀ k p, mapGet r.products k = some p → 0 ≤ p.Quantity

/-- Whether a logged invocation is a call of `UpdateQuantity`. -/
def Invocation.isUpdateQuantity : Invocation → Bool
  | Invocation.UpdateQuantity _ _ _ => true
  | _ => false

/-- Whether a logged invocation is a call of `CreateOrder`. -/
def Invocation.isCreateOrder : Invocation → Bool
  | Invocation.CreateOrder _ _ _ => true
  | _ => false

/-- What the item loop of `Create` may change in the repository: nothing but the products,
the clock reads and the log, which grows by `UpdateQuantity` calls only; the products keep their
keys and ids. -/
def MemoryRepository.StockFrame (r r' : MemoryRepository) : Prop :=
  r'.mu = r.mu ∧ r'.users = r.users ∧ r'.orders = r.orders ∧ r'.ug = r.ug ∧
  r'.ugCalls = r.ugCalls ∧ r'.clock = r.clock ∧
  (∃ new, r'.calls = r.calls ++ new ∧ ∀ c ∈ new, c.isUpdateQuantity = true) ∧
  ∀ k, (mapGet r'.products k).map (fun p => p.ID) = (mapGet r.products k).map (fun p => p.ID)

/-- A call that a client of the test suite can make on the repository. -/
inductive Op where
  | registerUser (user : User)
  | createProduct (input : CreateProductInput)
  | createOrder (userID : String) (items : List OrderItemInput)
  | updateQuantity (tx : Tx) (id : String) (delta : Int)

/-- The state after one call, whatever it returned; `none` when the call does not return. -/
def Op.run : Op → MemoryRepository → Option MemoryRepository
  | Op.registerUser user, r => (MemoryRepository.CreateUser user r).map Prod.snd
  | Op.createProduct input, r => (memoryProductService.Create input r).map Prod.snd
  | Op.createOrder userID items, r => (memoryOrderService.Create userID items r).map Prod.snd
  | Op.updateQuantity tx id delta, r => (MemoryRepository.UpdateQuantity tx id delta r).map Prod.snd

/-- The arguments of a call are values of their Go types: a quantity handed to
`ProductService.Create` is a Go `int`. -/
def Op.WellTyped : Op → Prop
  | Op.createProduct input => isInt input.Quantity
  | _ => True

/-- The state after a sequence of calls made one after another. -/
def runOps : List Op → MemoryRepository → Option MemoryRepository
  | [], r => some r
  | op :: rest, r =>
    match op.run r with
    | none => none
    | some r1 => runOps rest r1

/-- The same `Create` request issued `n` times, one call after another: the result of each call
paired with the state it left. -/
def createMany {σ : Type} (s : OrderService σ) (userID : String) (items : List OrderItemInput) :
    Nat → σ → Option (List ((Option Order × Option GoError) × σ))
  | 0, _ => some []
  | n + 1, w =>
    match s.Create userID items w with
    | none => none
    | some (res, w1) =>
      match createMany s userID items n w1 with
      | none => none
      | some trace => some ((res, w1) :: trace)

/-- Two runes that are the same up to letter case: they have the same simple case folding, as
`A` and `a` do. -/
def sameLetter (a b : Char) : Prop :=
  unicode.simpleCaseFolding a = unicode.simpleCaseFolding b

/-- Two strings that are equal ignoring letter case: they have the same number of runes and, at
every position, the same rune up to letter case. -/
def EqualIgnoringCase (s t : String) : Prop := List.Forall₂ sameLetter s.data t.data

/-- Every key of the user map holds one user, and no two stored users have emails that are
equal ignoring letter case. -/
def MemoryRepository.EmailsUnique (r : MemoryRepository) : Prop :=
  (r.users.map Prod.fst).Nodup ∧
  r.users.Pairwise (fun a b => ¬ EqualIgnoringCase a.2.Email b.2.Email)

/-- The elements of a list in the order of their first occurrence, every later occurrence
dropped. -/
def firstOccurrences : List String → List String
  | [] => []
  | x :: xs => x :: (firstOccurrences xs).filter (fun y => decide (y ≠ x))

/-- Whether a logged invocation is a call of `GetByIDsForUpdate`. -/
def Invocation.isGetByIDsForUpdate : Invocation → Bool
  | Invocation.GetByIDsForUpdate _ _ => true
  | _ => false

/-- The value that a decimal string denotes, as `decimal.NewFromString` reads it. -/
def denotes (s : String) : Option ℚ := (Decimal.NewFromString s).map Decimal.toRat

/-- Whether the goroutine has returned from `Create`. -/
def Goroutine.isReturned : Goroutine → Bool
  | Goroutine.returned _ _ => true
  | _ => false

/-- The id of the order that the goroutine received, if its `Create` call succeeded. -/
def Goroutine.orderID : Goroutine → Option String
  | Goroutine.returned (some order) none => some order.ID
  | _ => none

/-- Whether the goroutine's `Create` call failed with 'insufficient stock'. -/
def Goroutine.isConflict (g : Goroutine) : Bool :=
  decide (g = Goroutine.returned none (some (errors.New "insufficient stock")))

/-- The number of stretches that the goroutine has yet to run before it has returned, when the
user is found. -/
def Goroutine.remaining : Goroutine → Nat
  | Goroutine.entry _ _ => 2
  | Goroutine.beforeTx _ _ => 1
  | Goroutine.returned _ _ => 0

/-- What holds at every point of a run of goroutines that each order one unit of the product
`pid` for the user `userID`, when the product started with the quantity `Q` and `ug` generates
the ids: the mutex is free and the store well formed, the user is stored, every goroutine is at
the entry, before the transaction, has received an order whose id was generated, or has failed
with 'insufficient stock'; the orders received have different ids; the quantity left and the
number of orders received add up to `Q`; and the quantity is zero once a goroutine has failed. -/
def RaceInvariant (userID pid : String) (ug : Nat → String) (u : User) (Q : Nat)
    (gs : List Goroutine) (r : MemoryRepository) : Prop :=
  r.mu = false ∧ r.WellFormed ∧ mapGet r.users userID = some u ∧ r.ug = ug ∧
  (∀ g ∈ gs, g = Goroutine.entry userID [⟨pid, 1⟩] ∨ g = Goroutine.beforeTx userID [⟨pid, 1⟩] ∨
    (∃ o k, g = Goroutine.returned (some o) none ∧ o.ID = ug k ∧ k < r.ugCalls) ∨
    g = Goroutine.returned none (some (errors.New "insufficient stock"))) ∧
  (gs.filterMap Goroutine.orderID).Nodup ∧
  ∃ p, mapGet r.products pid = some p ∧ 0 ≤ p.Quantity ∧
    p.Quantity + ((gs.filterMap Goroutine.orderID).length : Int) = (Q : Int) ∧
    ((∃ g ∈ gs, g.isConflict = true) → p.Quantity = 0)

/-! ## Sample data -/

/-- A registered user. -/
def sampleUser : User := ⟨"u1", "ann@example.com", "Ann", "Lee", 30, false, "hash", 1⟩

/-- A product priced 12.50 with the given id and quantity. -/
def sampleProduct (id : String) (quantity : Int) : Product :=
  ⟨id, "widget", ["tools"], quantity, ⟨1250, -2⟩, 1, 1⟩

/-- A store with one user and the products `p1` (quantity 5) and `p2` (quantity 1). -/
def sampleStore : MemoryRepository :=
  { NewMemoryRepository (fun n => "id-" ++ toString n) (fun n => 100 + n) with
    users := [("u1", sampleUser)]
    products := [("p1", sampleProduct "p1" 5), ("p2", sampleProduct "p2" 1)] }

/-- A store with one user and the product `p1` with quantity 3. -/
def smallStore : MemoryRepository :=
  { NewMemoryRepository (fun n => "id-" ++ toString n) (fun n => 100 + n) with
    users := [("u1", sampleUser)]
    products := [("p1", sampleProduct "p1" 3)] }

/-- A store whose product `p1` holds the largest quantity a Go `int` can hold. -/
def fullStore : MemoryRepository :=
  { NewMemoryRepository (fun n => "id-" ++ toString n) (fun n => 100 + n) with
    users := [("u1", sampleUser)]
    products := [("p1", sampleProduct "p1" 9223372036854775807)] }

/-- The store of `TestOrderCreateSuccess`: one user and the product `p1` with quantity 5 and
price 15. -/
def testStore : MemoryRepository :=
  { NewMemoryRepository (fun n => "id-" ++ toString n) (fun n => 100 + n) with
    users := [("u1", sampleUser)]
    products := [("p1", ⟨"p1", "", [], 5, Decimal.NewFromInt 15, 1, 1⟩)] }

/-- The store that the order of two units of `p1` leaves when placed in `sampleStore`. -/
def storeAfterOrder : MemoryRepository :=
  match memoryOrderService.Create "u1" [⟨"p1", 2⟩] sampleStore with
  | some (_, r) => r
  | none => sampleStore

/-- A PostgreSQL connection whose calls all succeed; the world counts the transactions begun,
and the `n`-th transaction has the handle `n`. -/
def sampleConnection : postgresql.Connection Nat :=
  ⟨fun n => some ((Tx.pgx n, none), n + 1), fun _ n => some (none, n), fun _ n => some (none, n)⟩

/-- A PostgreSQL connection on which `Begin` fails. -/
def downConnection : postgresql.Connection Nat :=
  ⟨fun n => some ((Tx.nil, some (errors.New "connection refused")), n),
    fun _ n => some (none, n), fun _ n => some (none, n)⟩

/-- A PostgreSQL repository, never locked, on the given connection. -/
def sampleRepository (c : postgresql.Connection Nat) : postgresql.Repository Nat :=
  ⟨c, fun _ => false⟩

/-- An empty store with the id generator and the clock of the sample stores. -/
def emptyStore : MemoryRepository :=
  NewMemoryRepository (fun n => "id-" ++ toString n) (fun n => 100 + n)

/-- A handler over the in-memory repository. -/
def memoryHandler : Handler MemoryRepository :=
  ⟨⟨memoryUsers⟩, memoryProductService, memoryOrderService⟩

/-- A hash function that never fails, standing for `bcrypt.GenerateFromPassword`. -/
def sampleHash (password : String) : String × Option GoError := ("$2a$10$" ++ password, none)

/-- The registration of `TestRegisterRejectsWeakPassword`: the password `short`. -/
def weakPasswordInput : RegisterInput := ⟨"user@example.com", "", "", "short", 20, false⟩

/-- A registration whose password has five characters, each two bytes long in UTF-8. -/
def multibytePasswordInput : RegisterInput :=
  ⟨"zoe@example.com", "Zoe", "Roy", "ééééé", 20, false⟩

/-- A PostgreSQL connection over the in-memory store on which `Begin` and `Rollback` succeed
and `Commit` fails. -/
def brokenCommitConnection : postgresql.Connection MemoryRepository :=
  ⟨fun r => some ((Tx.pgx 0, none), r),
    fun _ r => some (some (errors.New "connection reset"), r), fun _ r => some (none, r)⟩

/-- An order service on the in-memory repositories whose transaction manager is the PostgreSQL
`Repository.WithTx` on `brokenCommitConnection`. -/
def brokenCommitService : OrderService MemoryRepository :=
  ⟨memoryProducts, memoryOrders, memoryUsers,
    (postgresql.Repository.mk brokenCommitConnection (fun _ => false)).txManager⟩

/-- A method of a storage that fails: over a counter of the calls made, the call made when the
counter stands at `failAt` returns `bad`, every other call returns `ok`. -/
def faulty {α : Type} (failAt : Nat) (ok bad : α) : Method Nat α :=
  fun n => some (if n = failAt then bad else ok, n + 1)

/-- An order service on a storage whose call number `failAt` fails with 'storage down'; the
calls that succeed find the user, return every product asked for with quantity 5, and store the
order under the id `o1`.  Its transaction manager runs the closure and returns its error. -/
def faultyService (failAt : Nat) : OrderService Nat where
  products :=
    ⟨fun p => faulty failAt (some p, none) (none, some (errors.New "storage down")),
      fun _ => faulty failAt (none, none) (none, some (errors.New "storage down")),
      fun _ ids => faulty failAt (ids.map (fun id => sampleProduct id 5), none)
        ([], some (errors.New "storage down")),
      fun _ _ _ => faulty failAt none (some (errors.New "storage down"))⟩
  orders :=
    ⟨fun _ order items => faulty failAt (some { order with ID := "o1", Items := items }, none)
      (none, some (errors.New "storage down"))⟩
  users :=
    ⟨fun u => faulty failAt (some u, none) (none, some (errors.New "storage down")),
      fun _ => faulty failAt (none, none) (none, some (errors.New "storage down")),
      fun _ => faulty failAt (some sampleUser, none) (none, some (errors.New "storage down"))⟩
  tx := ⟨fun f k w => f Tx.other k w⟩

/-! ## Go maps -/

theorem mapGet_mapSet_self {V : Type} (m : List (String × V)) (k : String) (v : V) :
    mapGet (mapSet m k v) k = some v := by
  induction m with
  | nil => simp [mapSet, mapGet]
  | cons e t ih =>
    obtain ⟨k', v'⟩ := e
    by_cases h : k' = k
    · simp [mapSet, mapGet, h]
    · simp [mapSet, mapGet, h, ih]

theorem mapGet_mapSet_ne {V : Type} (m : List (String × V)) (k k' : String) (v : V)
    (h : k' ≠ k) : mapGet (mapSet m k v) k' = mapGet m k' := by
  induction m with
  | nil => simp [mapSet, mapGet, Ne.symm h]
  | cons e t ih =>
    obtain ⟨k0, v0⟩ := e
    by_cases h0 : k0 = k
    · subst h0
      simp [mapSet, mapGet, Ne.symm h]
    · by_cases h1 : k0 = k'
      · subst h1
        simp [mapSet, mapGet, h0]
      · simp [mapSet, mapGet, h0, h1, ih]

theorem mapGet_mapSet {V : Type} (m : List (String × V)) (k k' : String) (v : V) :
    mapGet (mapSet m k v) k' = if k' = k then some v else mapGet m k' := by
  by_cases h : k' = k
  · subst h
    simp [mapGet_mapSet_self]
  · simp [h, mapGet_mapSet_ne]

/-! ## Go integers -/

theorem wrapInt_of_isInt {x : Int} (h : isInt x) : wrapInt x = x := by
  unfold wrapInt
  unfold isInt at h
  omega

theorem isInt_wrapInt (x : Int) : isInt (wrapInt x) := by
  unfold wrapInt isInt
  omega

/-! ## The methods of the in-memory repository -/

namespace MemoryRepository

theorem UpdateQuantity_total (tx : Tx) (id : String) (delta : Int) (r : MemoryRepository)
    (h : r.mu = false ∨ tx = Tx.memoryTx true) :
    ∃ e r', UpdateQuantity tx id delta r = some (e, r') := by
  have hl : ∃ held r1, (r.record (Invocation.UpdateQuantity tx id delta)).lock tx = some (held, r1) := by
    rcases h with h | h
    · cases tx with
      | memoryTx b => cases b <;> simp [lock, record, h]
      | _ => simp [lock, record, h]
    · subst h
      simp [lock]
  obtain ⟨held, r1, hl⟩ := hl
  unfold UpdateQuantity
  rw [hl]
  simp only
  split
  · exact ⟨_, _, rfl⟩
  · split <;> exact ⟨_, _, rfl⟩

theorem lock_cases (r : MemoryRepository) (tx : Tx) (held : Bool) (r1 : MemoryRepository)
    (h : r.lock tx = some (held, r1)) :
    (held = false ∧ r1 = r) ∨ (held = true ∧ r.mu = false ∧ r1 = { r with mu := true }) := by
  unfold lock at h
  split at h
  · cases h
    exact Or.inl ⟨rfl, rfl⟩
  · split at h
    · cases h
    · rename_i hmu
      cases h
      exact Or.inr ⟨rfl, by simpa using hmu, rfl⟩

theorem UpdateQuantity_spec (tx : Tx) (id : String) (delta : Int) (r : MemoryRepository)
    (e : Option GoError) (r' : MemoryRepository)
    (h : UpdateQuantity tx id delta r = some (e, r')) :
    (r'.mu = r.mu ∧ r'.users = r.users ∧ r'.orders = r.orders ∧ r'.ug = r.ug ∧
      r'.ugCalls = r.ugCalls ∧ r'.clock = r.clock ∧
      r'.calls = r.calls ++ [Invocation.UpdateQuantity tx id delta]) ∧
    ((e = some (errors.New "product not found") ∧ mapGet r.products id = none ∧
        r'.products = r.products ∧ r'.clockCalls = r.clockCalls) ∨
     (e = some (errors.New "insufficient stock") ∧
        (∃ p, mapGet r.products id = some p ∧ wrapInt (p.Quantity + delta) < 0) ∧
        r'.products = r.products ∧ r'.clockCalls = r.clockCalls) ∨
     (e = none ∧ r'.clockCalls = r.clockCalls + 1 ∧
        ∃ p, mapGet r.products id = some p ∧ 0 ≤ wrapInt (p.Quantity + delta) ∧
          r'.products = mapSet r.products id
            { p with Quantity := wrapInt (p.Quantity + delta), UpdatedAt := r.clock r.clockCalls })) := by
  unfold UpdateQuantity at h
  cases hl : (r.record (Invocation.UpdateQuantity tx id delta)).lock tx with
  | none => simp [hl] at h
  | some x =>
    obtain ⟨held, r1⟩ := x
    rw [hl] at h
    have hc := lock_cases _ _ _ _ hl
    obtain ⟨mu, users, products, orders, ug, ugCalls, clock, clockCalls, calls⟩ := r
    rcases hc with ⟨h1, h2⟩ | ⟨h1, h2, h3⟩
    · subst h1 h2
      simp only [record, unlock, timeNow] at h ⊢
      split at h
      · rename_i hg
        cases h
        simp [hg]
      · rename_i p hg
        split at h
        · rename_i hw
          cases h
          simp [hg, hw]
        · rename_i hw
          cases h
          simp [hg, not_lt.mp hw]
    · subst h1 h3
      simp only [record] at h2
      subst h2
      simp only [record, unlock, timeNow] at h ⊢
      split at h
      · rename_i hg
        cases h
        simp [hg]
      · rename_i p hg
        split at h
        · rename_i hw
          cases h
          simp [hg, hw]
        · rename_i hw
          cases h
          simp [hg, not_lt.mp hw]

theorem StockFrame.refl (r : MemoryRepository) : r.StockFrame r :=
  ⟨rfl, rfl, rfl, rfl, rfl, rfl, ⟨[], by simp⟩, fun _ => rfl⟩

theorem StockFrame.trans {r1 r2 r3 : MemoryRepository} (h12 : r1.StockFrame r2)
    (h23 : r2.StockFrame r3) : r1.StockFrame r3 := by
  obtain ⟨a1, a2, a3, a4, a5, a6, ⟨n1, a7, a8⟩, a9⟩ := h12
  obtain ⟨b1, b2, b3, b4, b5, b6, ⟨n2, b7, b8⟩, b9⟩ := h23
  refine ⟨b1.trans a1, b2.trans a2, b3.trans a3, b4.trans a4, b5.trans a5, b6.trans a6,
    ⟨n1 ++ n2, ?_, ?_⟩, fun k => (b9 k).trans (a9 k)⟩
  · rw [b7, a7, List.append_assoc]
  · intro c hc
    rcases List.mem_append.mp hc with hc | hc
    · exact a8 c hc
    · exact b8 c hc

theorem UpdateQuantity_frame (tx : Tx) (id : String) (delta : Int) (r : MemoryRepository)
    (e : Option GoError) (r' : MemoryRepository)
    (h : UpdateQuantity tx id delta r = some (e, r')) :
    r.StockFrame r' ∧ (r.NonNegStock → r'.NonNegStock) := by
  obtain ⟨⟨a1, a2, a3, a4, a5, a6, a7⟩, hc⟩ := UpdateQuantity_spec _ _ _ _ _ _ h
  have hcalls : ∃ new, r'.calls = r.calls ++ new ∧ ∀ c ∈ new, c.isUpdateQuantity = true :=
    ⟨_, a7, by simp [Invocation.isUpdateQuantity]⟩
  rcases hc with ⟨_, _, hp, _⟩ | ⟨_, _, hp, _⟩ | ⟨_, _, p, hg, hw, hp⟩
  · exact ⟨⟨a1, a2, a3, a4, a5, a6, hcalls, fun k => by rw [hp]⟩, fun hn k p hk => hn k p (hp ▸ hk)⟩
  · exact ⟨⟨a1, a2, a3, a4, a5, a6, hcalls, fun k => by rw [hp]⟩, fun hn k p hk => hn k p (hp ▸ hk)⟩
  · refine ⟨⟨a1, a2, a3, a4, a5, a6, hcalls, fun k => ?_⟩, fun hn k q hk => ?_⟩
    · rw [hp, mapGet_mapSet]
      split_ifs with hk
      · subst hk
        simp [hg]
      · rfl
    · rw [hp, mapGet_mapSet] at hk
      split_ifs at hk with hki
      · cases hk
        exact hw
      · exact hn k q hk

theorem stampItems_frame (orderID : String) (items : List OrderItem) (r : MemoryRepository) :
    (stampItems orderID items r).2.mu = r.mu ∧ (stampItems orderID items r).2.users = r.users ∧
    (stampItems orderID items r).2.products = r.products ∧
    (stampItems orderID items r).2.orders = r.orders ∧
    (stampItems orderID items r).2.calls = r.calls := by
  induction items generalizing r with
  | nil => simp [stampItems]
  | cons it rest ih =>
    unfold stampItems
    by_cases h : it.ID = ""
    · simp only [h, if_true]
      have := ih r.nextID.2
      simpa [nextID] using this
    · simp only [h, if_false]
      exact ih r

theorem CreateOrder_tx (order : Order) (items : List OrderItem) (r : MemoryRepository) :
    ∃ o r', CreateOrder (Tx.memoryTx true) order items r = some ((some o, none), r') ∧
      r'.mu = r.mu ∧ r'.users = r.users ∧ r'.products = r.products ∧
      r'.calls = r.calls ++ [Invocation.CreateOrder (Tx.memoryTx true) order items] := by
  unfold CreateOrder
  simp only [lock]
  refine ⟨_, _, rfl, ?_⟩
  simp only [unlock]
  obtain ⟨s1, s2, s3, s4, s5⟩ := stampItems_frame
    (if order.ID = "" then (r.record (Invocation.CreateOrder (Tx.memoryTx true) order items)).nextID
      else (order.ID, r.record (Invocation.CreateOrder (Tx.memoryTx true) order items))).1 items
    (if order.CreatedAt = 0 then
      (if order.ID = "" then (r.record (Invocation.CreateOrder (Tx.memoryTx true) order items)).nextID
        else (order.ID, r.record (Invocation.CreateOrder (Tx.memoryTx true) order items))).2.timeNow
      else (order.CreatedAt,
        (if order.ID = "" then (r.record (Invocation.CreateOrder (Tx.memoryTx true) order items)).nextID
        else (order.ID, r.record (Invocation.CreateOrder (Tx.memoryTx true) order items))).2)).2
  by_cases h1 : order.ID = "" <;> by_cases h2 : order.CreatedAt = 0 <;>
    simp [h1, h2, nextID, timeNow, record] at s1 s2 s3 s4 s5 ⊢ <;>
    exact ⟨s1, s2, s3, s5⟩

end MemoryRepository

theorem UpdateQuantity_wellFormed (tx : Tx) (id : String) (delta : Int) (r : MemoryRepository)
    (e : Option GoError) (r' : MemoryRepository)
    (h : MemoryRepository.UpdateQuantity tx id delta r = some (e, r')) (hwf : r.WellFormed) :
    r'.WellFormed := by
  obtain ⟨_, hc⟩ := MemoryRepository.UpdateQuantity_spec _ _ _ _ _ _ h
  rcases hc with ⟨_, _, hp, _⟩ | ⟨_, _, hp, _⟩ | ⟨_, _, p, hg, _, hp⟩
  · exact fun k q hk => hwf k q (hp ▸ hk)
  · exact fun k q hk => hwf k q (hp ▸ hk)
  · intro k q hk
    rw [hp, mapGet_mapSet] at hk
    split_ifs at hk with hki
    · cases hk
      exact ⟨by rw [hki]; exact (hwf id p hg).1, isInt_wrapInt _⟩
    · exact hwf k q hk

theorem CreateUser_invariant (user : User) (r : MemoryRepository) (hmu : r.mu = false) :
    ∃ res r', MemoryRepository.CreateUser user r = some (res, r') ∧ r'.mu = false ∧
      r'.products = r.products := by
  unfold MemoryRepository.CreateUser
  simp only [MemoryRepository.lock, MemoryRepository.record, hmu]
  simp only [Bool.false_eq_true, if_false]
  split_ifs <;> exact ⟨_, _, rfl, rfl, rfl⟩

/-! ## The loops of `OrderService.Create` -/

theorem validateItems_eq_none {items : List OrderItemInput}
    (h : ∀ it ∈ items, it.ProductID ≠ "" ∧ 0 < it.Quantity) : validateItems items = none := by
  induction items with
  | nil => rfl
  | cons it rest ih =>
    have h1 := h it (List.mem_cons_self _ _)
    have h2 : ¬ it.Quantity ≤ 0 := not_le.mpr h1.2
    simp [validateItems, h1.1, h2]
    exact ih (fun x hx => h x (List.mem_cons_of_mem _ hx))

theorem validateItems_mem {items : List OrderItemInput} {e : GoError}
    (h : validateItems items = some e) : e ∈ validationErrors := by
  induction items with
  | nil => simp [validateItems] at h
  | cons it rest ih =>
    unfold validateItems at h
    split_ifs at h with h1 h2
    · cases h
      simp [validationErrors]
    · cases h
      simp [validationErrors]
    · exact ih h

theorem validateItems_of_invalid {items : List OrderItemInput}
    (h : ∃ it ∈ items, it.ProductID = "" ∨ it.Quantity ≤ 0) : ∃ e, validateItems items = some e := by
  induction items with
  | nil =>
    obtain ⟨it, hit, _⟩ := h
    cases hit
  | cons it rest ih =>
    unfold validateItems
    split_ifs with h1 h2
    · exact ⟨_, rfl⟩
    · exact ⟨_, rfl⟩
    · apply ih
      obtain ⟨x, hx, hbad⟩ := h
      rcases List.mem_cons.mp hx with rfl | hx
      · rcases hbad with hbad | hbad
        · exact absurd hbad h1
        · exact absurd hbad h2
      · exact ⟨x, hx, hbad⟩

theorem validated_of_not_invalid {userID : String} {items : List OrderItemInput}
    (h : ¬ (userID = "" ∨ items = [] ∨ ∃ it ∈ items, it.ProductID = "" ∨ it.Quantity ≤ 0)) :
    Validated userID items := by
  push_neg at h
  obtain ⟨h1, h2, h3⟩ := h
  exact ⟨h1, h2, fun it hit => ⟨(h3 it hit).1, (h3 it hit).2⟩⟩

theorem demand_nil (k : String) : demand [] k = 0 := rfl

theorem demand_cons (it : OrderItemInput) (rest : List OrderItemInput) (k : String) :
    demand (it :: rest) k = (if it.ProductID = k then it.Quantity else 0) + demand rest k := by
  unfold demand
  by_cases h : it.ProductID = k <;> simp [List.filter_cons, h]

theorem mem_collectIDs (items : List OrderItemInput) (unique : List (String × Unit))
    (ids : List String) (hinv : ∀ x, mapGet unique x ≠ none ↔ x ∈ ids) (x : String) :
    x ∈ collectIDs items unique ids ↔ x ∈ ids ∨ ∃ it ∈ items, it.ProductID = x := by
  induction items generalizing unique ids with
  | nil => simp [collectIDs]
  | cons it rest ih =>
    unfold collectIDs
    split
    · rename_i u hu
      rw [ih unique ids hinv]
      have hmem : it.ProductID ∈ ids := (hinv _).mp (by simp [hu])
      constructor
      · rintro (h | ⟨i, hi, rfl⟩)
        · exact Or.inl h
        · exact Or.inr ⟨i, List.mem_cons_of_mem _ hi, rfl⟩
      · rintro (h | ⟨i, hi, rfl⟩)
        · exact Or.inl h
        · rcases List.mem_cons.mp hi with rfl | hi
          · exact Or.inl hmem
          · exact Or.inr ⟨i, hi, rfl⟩
    · rename_i hu
      rw [ih (mapSet unique it.ProductID ()) (ids ++ [it.ProductID])]
      · constructor
        · rintro (h | ⟨i, hi, rfl⟩)
          · rcases List.mem_append.mp h with h | h
            · exact Or.inl h
            · exact Or.inr ⟨it, List.mem_cons_self _ _, (List.mem_singleton.mp h).symm⟩
          · exact Or.inr ⟨i, List.mem_cons_of_mem _ hi, rfl⟩
        · rintro (h | ⟨i, hi, rfl⟩)
          · exact Or.inl (List.mem_append_left _ h)
          · rcases List.mem_cons.mp hi with rfl | hi
            · exact Or.inl (List.mem_append_right _ (List.mem_singleton.mpr rfl))
            · exact Or.inr ⟨i, hi, rfl⟩
      · intro y
        rw [mapGet_mapSet]
        by_cases hy : y = it.ProductID
        · simp [hy]
        · simp [hy, hinv y]

theorem mem_collectIDs_nil (items : List OrderItemInput) (x : String) :
    x ∈ collectIDs items [] [] ↔ ∃ it ∈ items, it.ProductID = x := by
  rw [mem_collectIDs items [] [] (by simp [mapGet])]
  simp

theorem collectIDs_exists_missing {items : List OrderItemInput} {g : String → Option Product} :
    (∃ x ∈ collectIDs items [] [], g x = none) ↔ ∃ it ∈ items, g it.ProductID = none := by
  constructor
  · rintro ⟨x, hx, hg⟩
    obtain ⟨it, hit, rfl⟩ := (mem_collectIDs_nil items x).mp hx
    exact ⟨it, hit, hg⟩
  · rintro ⟨it, hit, hg⟩
    exact ⟨_, (mem_collectIDs_nil items _).mpr ⟨it, hit, rfl⟩, hg⟩

theorem filterMap_length_ne_iff {ids : List String} {g : String → Option Product} :
    (ids.filterMap g).length ≠ ids.length ↔ ∃ x ∈ ids, g x = none := by
  simp

theorem mapGet_buildProductMap (g : String → Option Product)
    (hg : ∀ k p, g k = some p → p.ID = k) (ids : List String) (m : List (String × Product))
    (k : String) :
    mapGet (buildProductMap (ids.filterMap g) m) k =
      if k ∈ ids ∧ g k ≠ none then g k else mapGet m k := by
  induction ids generalizing m with
  | nil => simp [buildProductMap]
  | cons id rest ih =>
    cases hgi : g id with
    | none =>
      rw [List.filterMap_cons_none hgi, ih]
      by_cases hk : k = id
      · subst hk
        simp [hgi]
      · simp [hk]
    | some p =>
      rw [List.filterMap_cons_some hgi]
      unfold buildProductMap
      rw [ih, mapGet_mapSet]
      have hp := hg _ _ hgi
      by_cases hk : k = id
      · subst hk
        simp [hgi, hp]
      · have hk' : k ≠ p.ID := by rw [hp]; exact hk
        simp [hk, hk']

/-- The snapshot `productMap` that `Create` builds when every requested id was found. -/
theorem mapGet_snapshot (items : List OrderItemInput) (r : MemoryRepository)
    (hkey : r.KeyedByID) (k : String) :
    mapGet (buildProductMap ((collectIDs items [] []).filterMap (mapGet r.products)) []) k =
      if (∃ it ∈ items, it.ProductID = k) then mapGet r.products k else none := by
  rw [mapGet_buildProductMap (mapGet r.products) hkey]
  by_cases h : ∃ it ∈ items, it.ProductID = k
  · have hm := (mem_collectIDs_nil items k).mpr h
    cases hg : mapGet r.products k <;> simp [h, hm, hg, mapGet]
  · have hm : k ∉ collectIDs items [] [] := fun hm => h ((mem_collectIDs_nil items k).mp hm)
    simp [h, hm, mapGet]

theorem itemLoop_total (pm : List (String × Product)) (items : List OrderItemInput)
    (total : Decimal) (ois : List OrderItem) (r : MemoryRepository) :
    ∃ res r', itemLoop memoryProducts (Tx.memoryTx true) pm items total ois r = some (res, r') := by
  induction items generalizing total ois r with
  | nil => exact ⟨_, _, rfl⟩
  | cons it rest ih =>
    unfold itemLoop
    split
    · exact ⟨_, _, rfl⟩
    · rename_i product hg
      split_ifs with hq
      · exact ⟨_, _, rfl⟩
      · obtain ⟨e, r1, hu⟩ := MemoryRepository.UpdateQuantity_total (Tx.memoryTx true) product.ID
          (wrapInt (-it.Quantity)) r (Or.inr rfl)
        have hu' : memoryProducts.UpdateQuantity (Tx.memoryTx true) product.ID
            (wrapInt (-it.Quantity)) r = some (e, r1) := hu
        rw [hu']
        cases e with
        | none => exact ih _ _ _
        | some err => exact ⟨_, _, rfl⟩

theorem itemLoop_frame (pm : List (String × Product)) (items : List OrderItemInput)
    (total : Decimal) (ois : List OrderItem) (r : MemoryRepository)
    (res : Option GoError × Decimal × List OrderItem) (r' : MemoryRepository)
    (h : itemLoop memoryProducts (Tx.memoryTx true) pm items total ois r = some (res, r')) :
    r.StockFrame r' ∧ (r.NonNegStock → r'.NonNegStock) ∧
    (res.1 = none ∨ res.1 = some (errors.New "product not found") ∨
      res.1 = some (errors.New "insufficient stock")) := by
  induction items generalizing total ois r with
  | nil =>
    simp only [itemLoop, Option.some.injEq, Prod.mk.injEq] at h
    obtain ⟨h1, h2⟩ := h
    subst h1 h2
    exact ⟨MemoryRepository.StockFrame.refl _, id, Or.inl rfl⟩
  | cons it rest ih =>
    unfold itemLoop at h
    split at h
    · simp only [Option.some.injEq, Prod.mk.injEq] at h
      obtain ⟨h1, h2⟩ := h
      subst h1 h2
      exact ⟨MemoryRepository.StockFrame.refl _, id, Or.inr (Or.inl rfl)⟩
    · rename_i product hg
      split_ifs at h with hq
      · simp only [Option.some.injEq, Prod.mk.injEq] at h
        obtain ⟨h1, h2⟩ := h
        subst h1 h2
        exact ⟨MemoryRepository.StockFrame.refl _, id, Or.inr (Or.inr rfl)⟩
      · obtain ⟨e, r1, hu⟩ := MemoryRepository.UpdateQuantity_total (Tx.memoryTx true) product.ID
          (wrapInt (-it.Quantity)) r (Or.inr rfl)
        have hu' : memoryProducts.UpdateQuantity (Tx.memoryTx true) product.ID
            (wrapInt (-it.Quantity)) r = some (e, r1) := hu
        rw [hu'] at h
        obtain ⟨hf, hn⟩ := MemoryRepository.UpdateQuantity_frame _ _ _ _ _ _ hu
        obtain ⟨_, hc⟩ := MemoryRepository.UpdateQuantity_spec _ _ _ _ _ _ hu
        cases e with
        | none =>
          obtain ⟨f2, n2, e2⟩ := ih _ _ _ h
          exact ⟨hf.trans f2, fun x => n2 (hn x), e2⟩
        | some err =>
          simp only [Option.some.injEq, Prod.mk.injEq] at h
          obtain ⟨h1, h2⟩ := h
          subst h1 h2
          refine ⟨hf, hn, ?_⟩
          rcases hc with ⟨h1, _⟩ | ⟨h1, _⟩ | ⟨h1, _⟩
          · exact Or.inr (Or.inl h1)
          · exact Or.inr (Or.inr h1)
          · cases h1

theorem itemLoop_wellFormed (pm : List (String × Product)) (items : List OrderItemInput)
    (total : Decimal) (ois : List OrderItem) (r : MemoryRepository)
    (res : Option GoError × Decimal × List OrderItem) (r' : MemoryRepository)
    (h : itemLoop memoryProducts (Tx.memoryTx true) pm items total ois r = some (res, r'))
    (hwf : r.WellFormed) : r'.WellFormed := by
  induction items generalizing total ois r with
  | nil =>
    simp only [itemLoop, Option.some.injEq, Prod.mk.injEq] at h
    obtain ⟨_, h2⟩ := h
    subst h2
    exact hwf
  | cons it rest ih =>
    unfold itemLoop at h
    split at h
    · simp only [Option.some.injEq, Prod.mk.injEq] at h
      obtain ⟨_, h2⟩ := h
      subst h2
      exact hwf
    · rename_i product hg
      split_ifs at h with hq
      · simp only [Option.some.injEq, Prod.mk.injEq] at h
        obtain ⟨_, h2⟩ := h
        subst h2
        exact hwf
      · obtain ⟨e, r1, hu⟩ := MemoryRepository.UpdateQuantity_total (Tx.memoryTx true) product.ID
          (wrapInt (-it.Quantity)) r (Or.inr rfl)
        have hu' : memoryProducts.UpdateQuantity (Tx.memoryTx true) product.ID
            (wrapInt (-it.Quantity)) r = some (e, r1) := hu
        rw [hu'] at h
        have hwf1 := UpdateQuantity_wellFormed _ _ _ _ _ _ hu hwf
        cases e with
        | none => exact ih _ _ _ h hwf1
        | some err =>
          simp only [Option.some.injEq, Prod.mk.injEq] at h
          obtain ⟨_, h2⟩ := h
          subst h2
          exact hwf1

theorem itemLoop_found (pm : List (String × Product)) (items : List OrderItemInput)
    (total : Decimal) (ois : List OrderItem) (r : MemoryRepository)
    (res : Option GoError × Decimal × List OrderItem) (r' : MemoryRepository)
    (hitems : ∀ it ∈ items, ∃ p, mapGet pm it.ProductID = some p)
    (hlive : ∀ k p, mapGet pm k = some p → mapGet r.products p.ID ≠ none)
    (h : itemLoop memoryProducts (Tx.memoryTx true) pm items total ois r = some (res, r')) :
    res.1 ≠ some (errors.New "product not found") := by
  induction items generalizing total ois r with
  | nil =>
    simp only [itemLoop, Option.some.injEq, Prod.mk.injEq] at h
    obtain ⟨h1, _⟩ := h
    subst h1
    simp
  | cons it rest ih =>
    unfold itemLoop at h
    obtain ⟨product, hg⟩ := hitems it (List.mem_cons_self _ _)
    rw [hg] at h
    simp only at h
    split_ifs at h with hq
    · simp only [Option.some.injEq, Prod.mk.injEq] at h
      obtain ⟨h1, _⟩ := h
      subst h1
      simp [errors.New]
    · obtain ⟨e, r1, hu⟩ := MemoryRepository.UpdateQuantity_total (Tx.memoryTx true) product.ID
        (wrapInt (-it.Quantity)) r (Or.inr rfl)
      have hu' : memoryProducts.UpdateQuantity (Tx.memoryTx true) product.ID
          (wrapInt (-it.Quantity)) r = some (e, r1) := hu
      rw [hu'] at h
      obtain ⟨hf, _⟩ := MemoryRepository.UpdateQuantity_frame _ _ _ _ _ _ hu
      obtain ⟨_, hc⟩ := MemoryRepository.UpdateQuantity_spec _ _ _ _ _ _ hu
      cases e with
      | none =>
        refine ih _ _ _ (fun x hx => hitems x (List.mem_cons_of_mem _ hx)) ?_ h
        intro k p hk hnone
        have h9 := hf.2.2.2.2.2.2.2 p.ID
        rw [hnone] at h9
        have := hlive k p hk
        cases hm : mapGet r.products p.ID with
        | none => exact this hm
        | some q => simp [hm] at h9
      | some err =>
        simp only [Option.some.injEq, Prod.mk.injEq] at h
        obtain ⟨h1, _⟩ := h
        subst h1
        rcases hc with ⟨_, h2, _⟩ | ⟨h1, _⟩ | ⟨h1, _⟩
        · exact absurd h2 (hlive _ _ hg)
        · simp only at h1 ⊢
          rw [h1]
          simp [errors.New]
        · cases h1

theorem itemLoop_shortfall (pm : List (String × Product)) (items : List OrderItemInput)
    (total : Decimal) (ois : List OrderItem) (r : MemoryRepository)
    (res : Option GoError × Decimal × List OrderItem) (r' : MemoryRepository)
    (hshort : ∃ it ∈ items, ∃ p, mapGet pm it.ProductID = some p ∧ p.Quantity < it.Quantity)
    (h : itemLoop memoryProducts (Tx.memoryTx true) pm items total ois r = some (res, r')) :
    res.1 ≠ none := by
  induction items generalizing total ois r with
  | nil =>
    obtain ⟨it, hit, _⟩ := hshort
    cases hit
  | cons it rest ih =>
    unfold itemLoop at h
    split at h
    · simp only [Option.some.injEq, Prod.mk.injEq] at h
      obtain ⟨h1, _⟩ := h
      subst h1
      simp
    · rename_i product hg
      split_ifs at h with hq
      · simp only [Option.some.injEq, Prod.mk.injEq] at h
        obtain ⟨h1, _⟩ := h
        subst h1
        simp
      · obtain ⟨e, r1, hu⟩ := MemoryRepository.UpdateQuantity_total (Tx.memoryTx true) product.ID
          (wrapInt (-it.Quantity)) r (Or.inr rfl)
        have hu' : memoryProducts.UpdateQuantity (Tx.memoryTx true) product.ID
            (wrapInt (-it.Quantity)) r = some (e, r1) := hu
        rw [hu'] at h
        cases e with
        | none =>
          refine ih _ _ _ ?_ h
          obtain ⟨x, hx, p, hp, hlt⟩ := hshort
          rcases List.mem_cons.mp hx with rfl | hx
          · rw [hg] at hp
            cases hp
            exact absurd hlt hq
          · exact ⟨x, hx, p, hp, hlt⟩
        | some err =>
          simp only [Option.some.injEq, Prod.mk.injEq] at h
          obtain ⟨h1, _⟩ := h
          subst h1
          simp

theorem itemLoop_success (pm : List (String × Product)) (items : List OrderItemInput)
    (total : Decimal) (ois : List OrderItem) (r : MemoryRepository)
    (t : Decimal) (o : List OrderItem) (r' : MemoryRepository)
    (hpm : ∀ k p, mapGet pm k = some p → p.ID = k)
    (hq : ∀ it ∈ items, 0 < it.Quantity ∧ isInt it.Quantity)
    (hinv : ∀ k p p', mapGet pm k = some p → mapGet r.products k = some p' →
      isInt p'.Quantity ∧ (0 ≤ p'.Quantity ∨ p'.Quantity = p.Quantity))
    (h : itemLoop memoryProducts (Tx.memoryTx true) pm items total ois r = some ((none, t, o), r')) :
    (∀ k, r'.quantity k = (r.quantity k).map (fun q => q - demand items k)) ∧
    (∀ k p p', mapGet pm k = some p → mapGet r'.products k = some p' →
      isInt p'.Quantity ∧ (0 ≤ p'.Quantity ∨ p'.Quantity = p.Quantity)) ∧
    (∀ it ∈ items, ∃ p, mapGet pm it.ProductID = some p ∧ it.Quantity ≤ p.Quantity) := by
  induction items generalizing total ois r with
  | nil =>
    simp only [itemLoop, Option.some.injEq, Prod.mk.injEq] at h
    obtain ⟨_, h2⟩ := h
    subst h2
    refine ⟨fun k => ?_, hinv, by simp⟩
    cases hk : r.quantity k <;> simp [demand_nil]
  | cons it rest ih =>
    unfold itemLoop at h
    split at h
    · simp at h
    · rename_i product hg
      split_ifs at h with hlt
      · simp at h
      · obtain ⟨e, r1, hu⟩ := MemoryRepository.UpdateQuantity_total (Tx.memoryTx true) product.ID
          (wrapInt (-it.Quantity)) r (Or.inr rfl)
        have hu' : memoryProducts.UpdateQuantity (Tx.memoryTx true) product.ID
            (wrapInt (-it.Quantity)) r = some (e, r1) := hu
        rw [hu'] at h
        obtain ⟨_, hc⟩ := MemoryRepository.UpdateQuantity_spec _ _ _ _ _ _ hu
        cases e with
        | some err => simp at h
        | none =>
          simp only at h
          rcases hc with ⟨h1, _⟩ | ⟨h1, _⟩ | ⟨_, _, p0, hp0, hw, hprod⟩
          · cases h1
          · cases h1
          · have hid : product.ID = it.ProductID := hpm _ _ hg
            rw [hid] at hp0 hprod
            obtain ⟨hq0, hqi⟩ := hq it (List.mem_cons_self _ _)
            obtain ⟨hi0, hnn⟩ := hinv _ _ _ hg hp0
            have hge : it.Quantity ≤ product.Quantity := not_lt.mp hlt
            have h0 : 0 ≤ p0.Quantity := by
              rcases hnn with h | h
              · exact h
              · rw [h]; omega
            have hneg : wrapInt (-it.Quantity) = -it.Quantity := by
              apply wrapInt_of_isInt
              unfold isInt at hqi ⊢
              omega
            have hsum : wrapInt (p0.Quantity + -it.Quantity) = p0.Quantity - it.Quantity := by
              rw [wrapInt_of_isInt]
              · ring
              · unfold isInt at hqi hi0 ⊢
                omega
            rw [hneg, hsum] at hprod hw
            have hinv1 : ∀ k p p', mapGet pm k = some p → mapGet r1.products k = some p' →
                isInt p'.Quantity ∧ (0 ≤ p'.Quantity ∨ p'.Quantity = p.Quantity) := by
              intro k p p' hk hk'
              rw [hprod, mapGet_mapSet] at hk'
              split_ifs at hk' with hki
              · cases hk'
                refine ⟨?_, Or.inl hw⟩
                unfold isInt at hqi hi0 ⊢
                simp only
                omega
              · exact hinv k p p' hk hk'
            obtain ⟨c1, c2, c3⟩ := ih _ _ _ (fun x hx => hq x (List.mem_cons_of_mem _ hx)) hinv1 h
            refine ⟨fun k => ?_, c2, ?_⟩
            · rw [c1 k, demand_cons]
              unfold MemoryRepository.quantity
              rw [hprod, mapGet_mapSet]
              by_cases hk : k = it.ProductID
              · subst hk
                simp [hp0]
                ring
              · have hk' : ¬ it.ProductID = k := fun h => hk h.symm
                simp [hk, hk']
            · intro x hx
              rcases List.mem_cons.mp hx with rfl | hx
              · exact ⟨product, hg, hge⟩
              · exact c3 x hx

/-! ## `OrderService.Create` over the in-memory repository -/

theorem Create_rejects {σ : Type} (s : OrderService σ) (userID : String)
    (items : List OrderItemInput) (w : σ)
    (h : userID = "" ∨ items = [] ∨ ∃ it ∈ items, it.ProductID = "" ∨ it.Quantity ≤ 0) :
    ∃ e, e ∈ validationErrors ∧ s.Create userID items w = some ((none, some e), w) := by
  unfold OrderService.Create
  by_cases h1 : userID = ""
  · exact ⟨errors.New "user id is required", by simp [validationErrors], by simp [h1]⟩
  · by_cases h2 : items = []
    · exact ⟨errors.New "order items are required", by simp [validationErrors], by simp [h1, h2]⟩
    · have h3 : ∃ it ∈ items, it.ProductID = "" ∨ it.Quantity ≤ 0 := by
        rcases h with h | h | h
        · exact absurd h h1
        · exact absurd h h2
        · exact h
      obtain ⟨e, he⟩ := validateItems_of_invalid h3
      exact ⟨e, validateItems_mem he, by simp [h1, h2, he]⟩

theorem Create_memory (userID : String) (items : List OrderItemInput) (r : MemoryRepository)
    (hmu : r.mu = false) (hv : Validated userID items) (u : User)
    (hu : mapGet r.users userID = some u) :
    memoryOrderService.Create userID items r =
      (if ((collectIDs items [] []).filterMap (mapGet r.products)).length
            ≠ (collectIDs items [] []).length then
        some ((none, some (errors.New "product not found")),
          { r with calls := r.calls ++ [Invocation.GetByID userID, Invocation.WithTx,
              Invocation.GetByIDsForUpdate (Tx.memoryTx true) (collectIDs items [] [])] })
      else
        match itemLoop memoryProducts (Tx.memoryTx true)
            (buildProductMap ((collectIDs items [] []).filterMap (mapGet r.products)) []) items
            Decimal.Zero []
            { r with
              mu := true
              calls := r.calls ++ [Invocation.GetByID userID, Invocation.WithTx,
                Invocation.GetByIDsForUpdate (Tx.memoryTx true) (collectIDs items [] [])] } with
        | none => none
        | some ((some err, _), r2) => some ((none, some err), { r2 with mu := false })
        | some ((none, total, orderItems), r2) =>
          match MemoryRepository.CreateOrder (Tx.memoryTx true) ⟨"", userID, 0, total, orderItems⟩
              orderItems r2 with
          | none => none
          | some ((order, err), r3) => some ((order, err), { r3 with mu := false })) := by
  obtain ⟨h1, h2, h3⟩ := hv
  have hval := validateItems_eq_none h3
  have hlen : items.length ≠ 0 := by simpa using h2
  obtain ⟨mu, users, products, orders, ug, ugCalls, clock, clockCalls, calls⟩ := r
  simp only at hmu hu
  subst hmu
  simp [OrderService.Create, OrderService.createTx, h1, h2, hval, memoryOrderService, memoryUsers, memoryTxManager,
    memoryProducts, memoryOrders,
    MemoryRepository.GetByID, MemoryRepository.WithTx, MemoryRepository.GetByIDsForUpdate,
    MemoryRepository.lock, MemoryRepository.unlock, MemoryRepository.record, hu]
  split_ifs with hc
  · rfl
  · generalize itemLoop _ _ _ _ _ _ _ = L
    rcases L with _ | ⟨⟨_ | e, t, o⟩, r2⟩
    · rfl
    · simp only
      generalize MemoryRepository.CreateOrder _ _ _ _ = C
      rcases C with _ | ⟨⟨order, err⟩, r3⟩ <;> rfl
    · rfl

theorem Create_memory_blocked (userID : String) (items : List OrderItemInput)
    (r : MemoryRepository) (hmu : r.mu = true) (hv : Validated userID items) :
    memoryOrderService.Create userID items r = none := by
  obtain ⟨h1, h2, h3⟩ := hv
  have hval := validateItems_eq_none h3
  simp [OrderService.Create, h1, h2, hval, memoryOrderService, memoryUsers,
    MemoryRepository.GetByID, MemoryRepository.lock, MemoryRepository.record, hmu]

theorem Create_memory_no_user (userID : String) (items : List OrderItemInput)
    (r : MemoryRepository) (hmu : r.mu = false) (hv : Validated userID items)
    (hu : mapGet r.users userID = none) :
    memoryOrderService.Create userID items r =
      some ((none, some (errors.New "user not found")), r.record (Invocation.GetByID userID)) := by
  obtain ⟨h1, h2, h3⟩ := hv
  have hval := validateItems_eq_none h3
  obtain ⟨mu, users, products, orders, ug, ugCalls, clock, clockCalls, calls⟩ := r
  simp only at hmu hu
  subst hmu
  simp [OrderService.Create, h1, h2, hval, memoryOrderService, memoryUsers,
    MemoryRepository.GetByID, MemoryRepository.lock, MemoryRepository.unlock,
    MemoryRepository.record, hu]

/-- `Create` when some requested product is not stored. -/
theorem Create_memory_missing (userID : String) (items : List OrderItemInput)
    (r : MemoryRepository) (hmu : r.mu = false) (hv : Validated userID items) (u : User)
    (hu : mapGet r.users userID = some u)
    (hmiss : ∃ it ∈ items, mapGet r.products it.ProductID = none) :
    memoryOrderService.Create userID items r =
      some ((none, some (errors.New "product not found")),
        { r with calls := r.calls ++ [Invocation.GetByID userID, Invocation.WithTx,
            Invocation.GetByIDsForUpdate (Tx.memoryTx true) (collectIDs items [] [])] }) := by
  rw [Create_memory userID items r hmu hv u hu]
  have hc : ((collectIDs items [] []).filterMap (mapGet r.products)).length
      ≠ (collectIDs items [] []).length := by
    rw [filterMap_length_ne_iff, collectIDs_exists_missing]
    exact hmiss
  rw [if_pos hc]

/-- `Create` when every requested product is stored: the item loop runs on the snapshot, and
`Create` returns its error, or else what `CreateOrder` returns. -/
theorem Create_memory_found (userID : String) (items : List OrderItemInput)
    (r : MemoryRepository) (hmu : r.mu = false) (hv : Validated userID items) (u : User)
    (hu : mapGet r.users userID = some u)
    (hex : ∀ it ∈ items, mapGet r.products it.ProductID ≠ none) :
    ∃ res r2,
      itemLoop memoryProducts (Tx.memoryTx true)
        (buildProductMap ((collectIDs items [] []).filterMap (mapGet r.products)) []) items
        Decimal.Zero []
        { r with
          mu := true
          calls := r.calls ++ [Invocation.GetByID userID, Invocation.WithTx,
            Invocation.GetByIDsForUpdate (Tx.memoryTx true) (collectIDs items [] [])] }
        = some (res, r2) ∧
      ((∃ err, res.1 = some err ∧
          memoryOrderService.Create userID items r =
            some ((none, some err), { r2 with mu := false })) ∨
       (res.1 = none ∧ ∃ o r3,
          memoryOrderService.Create userID items r = some ((some o, none), r3) ∧
          r3.products = r2.products)) := by
  rw [Create_memory userID items r hmu hv u hu]
  have hc : ¬ ((collectIDs items [] []).filterMap (mapGet r.products)).length
      ≠ (collectIDs items [] []).length := by
    rw [filterMap_length_ne_iff, collectIDs_exists_missing]
    rintro ⟨it, hit, hg⟩
    exact hex it hit hg
  rw [if_neg hc]
  obtain ⟨res, r2, hl⟩ := itemLoop_total
    (buildProductMap ((collectIDs items [] []).filterMap (mapGet r.products)) []) items
    Decimal.Zero []
    { r with
      mu := true
      calls := r.calls ++ [Invocation.GetByID userID, Invocation.WithTx,
        Invocation.GetByIDsForUpdate (Tx.memoryTx true) (collectIDs items [] [])] }
  refine ⟨res, r2, hl, ?_⟩
  rw [hl]
  obtain ⟨e, t, ois⟩ := res
  cases e with
  | some err => exact Or.inl ⟨err, rfl, rfl⟩
  | none =>
    obtain ⟨o, r3, hco, g1, g2, g3, g4⟩ := MemoryRepository.CreateOrder_tx
      ⟨"", userID, 0, t, ois⟩ ois r2
    refine Or.inr ⟨rfl, o, { r3 with mu := false }, ?_, g3⟩
    simp only [hco]

/-- What a call of `Create` that got past the user lookup leaves behind. -/
theorem Create_memory_outcome (userID : String) (items : List OrderItemInput)
    (r : MemoryRepository) (hmu : r.mu = false) (hv : Validated userID items) (u : User)
    (hu : mapGet r.users userID = some u) :
    ∃ o e r', memoryOrderService.Create userID items r = some ((o, e), r') ∧
      r'.mu = false ∧ r'.users = r.users ∧ (r.NonNegStock → r'.NonNegStock) ∧
      (e = none ∨ e = some (errors.New "product not found") ∨
        e = some (errors.New "insufficient stock")) ∧
      (e ≠ none → o = none ∧ r'.orders = r.orders ∧
        ∃ new, r'.calls = r.calls ++ new ∧ ∀ c ∈ new, c.isCreateOrder = false) := by
  rw [Create_memory userID items r hmu hv u hu]
  split_ifs with hc
  · refine ⟨_, _, _, rfl, hmu, rfl, id, Or.inr (Or.inl rfl), fun _ => ⟨rfl, rfl, _, rfl, ?_⟩⟩
    simp [Invocation.isCreateOrder]
  · obtain ⟨res, r2, hl⟩ := itemLoop_total
      (buildProductMap ((collectIDs items [] []).filterMap (mapGet r.products)) []) items
      Decimal.Zero []
      { r with
        mu := true
        calls := r.calls ++ [Invocation.GetByID userID, Invocation.WithTx,
          Invocation.GetByIDsForUpdate (Tx.memoryTx true) (collectIDs items [] [])] }
    obtain ⟨⟨f1, f2, f3, f4, f5, f6, ⟨new, f7, f8⟩, f9⟩, hn, he⟩ := itemLoop_frame _ _ _ _ _ _ _ hl
    rw [hl]
    obtain ⟨e, t, ois⟩ := res
    cases e with
    | some err =>
      refine ⟨_, _, _, rfl, rfl, f2, hn, ?_, fun _ => ⟨rfl, f3,
        [Invocation.GetByID userID, Invocation.WithTx,
          Invocation.GetByIDsForUpdate (Tx.memoryTx true) (collectIDs items [] [])] ++ new, ?_, ?_⟩⟩
      · rcases he with he | he | he
        · cases he
        · exact Or.inr (Or.inl he)
        · exact Or.inr (Or.inr he)
      · simp only [f7]
        rw [List.append_assoc]
      · intro c hc
        rcases List.mem_append.mp hc with hc | hc
        · simp at hc
          rcases hc with rfl | rfl | rfl <;> rfl
        · have := f8 c hc
          cases c <;> simp_all [Invocation.isUpdateQuantity, Invocation.isCreateOrder]
    | none =>
      simp only
      obtain ⟨o, r3, hco, g1, g2, g3, g4⟩ := MemoryRepository.CreateOrder_tx
        ⟨"", userID, 0, t, ois⟩ ois r2
      rw [hco]
      refine ⟨_, _, _, rfl, rfl, g2.trans f2, ?_, Or.inl rfl, fun h => absurd rfl h⟩
      intro hnn k p hk
      simp only [g3] at hk
      exact hn hnn k p hk

/-- One request for a single unit of a stored product. -/
theorem Create_single_unit (userID pid : String) (r : MemoryRepository) (u : User) (p : Product)
    (hmu : r.mu = false) (huid : userID ≠ "") (hpid : pid ≠ "")
    (hu : mapGet r.users userID = some u) (hwf : r.WellFormed)
    (hp : mapGet r.products pid = some p) :
    (1 ≤ p.Quantity → ∃ o r' p', memoryOrderService.Create userID [⟨pid, 1⟩] r =
        some ((some o, none), r') ∧ r'.mu = false ∧ r'.users = r.users ∧
        r'.products = mapSet r.products pid p' ∧ p'.ID = pid ∧ p'.Quantity = p.Quantity - 1) ∧
    (p.Quantity < 1 → ∃ r', memoryOrderService.Create userID [⟨pid, 1⟩] r =
        some ((none, some (errors.New "insufficient stock")), r') ∧ r'.mu = false ∧
        r'.users = r.users ∧ r'.products = r.products) := by
  have hv : Validated userID [⟨pid, 1⟩] := ⟨huid, by simp, by simp [hpid]⟩
  have hkey : r.KeyedByID := fun k p hk => (hwf k p hk).1
  have hex : ∀ it ∈ [(⟨pid, 1⟩ : OrderItemInput)], mapGet r.products it.ProductID ≠ none := by
    simp [hp]
  have hsnap : mapGet (buildProductMap ((collectIDs [(⟨pid, 1⟩ : OrderItemInput)] [] []).filterMap
      (mapGet r.products)) []) pid = some p := by
    rw [mapGet_snapshot _ r hkey, if_pos ⟨_, List.mem_singleton.mpr rfl, rfl⟩]
    exact hp
  obtain ⟨res, r2, hl, hres⟩ := Create_memory_found userID _ r hmu hv u hu hex
  obtain ⟨hid, hint⟩ := hwf pid p hp
  constructor
  · intro hge
    have hlt : ¬ p.Quantity < 1 := not_lt.mpr hge
    unfold itemLoop at hl
    simp only [hsnap, hlt, if_false] at hl
    obtain ⟨e, r1, hq⟩ := MemoryRepository.UpdateQuantity_total (Tx.memoryTx true) p.ID
      (wrapInt (-1))
      { r with
        mu := true
        calls := r.calls ++ [Invocation.GetByID userID, Invocation.WithTx,
          Invocation.GetByIDsForUpdate (Tx.memoryTx true)
            (collectIDs [(⟨pid, 1⟩ : OrderItemInput)] [] [])] } (Or.inr rfl)
    have hq' : memoryProducts.UpdateQuantity (Tx.memoryTx true) p.ID (wrapInt (-1))
      { r with
        mu := true
        calls := r.calls ++ [Invocation.GetByID userID, Invocation.WithTx,
          Invocation.GetByIDsForUpdate (Tx.memoryTx true)
            (collectIDs [(⟨pid, 1⟩ : OrderItemInput)] [] [])] } = some (e, r1) := hq
    rw [hq'] at hl
    obtain ⟨⟨a1, a2, _⟩, hc⟩ := MemoryRepository.UpdateQuantity_spec _ _ _ _ _ _ hq
    have hw1 : wrapInt (-1) = -1 := by decide
    have hw2 : wrapInt (p.Quantity + -1) = p.Quantity - 1 := by
      rw [wrapInt_of_isInt]
      · ring
      · unfold isInt at hint ⊢
        omega
    rw [hid] at hc
    simp only [hp, hw1] at hc
    rcases hc with ⟨_, h2, _⟩ | ⟨_, ⟨q, hq1, hq2⟩, _⟩ | ⟨he, _, q, hq1, hq2, hq3⟩
    · cases h2
    · simp only [Option.some.injEq] at hq1
      subst hq1
      rw [hw2] at hq2
      omega
    · subst he
      simp only [Option.some.injEq] at hq1
      subst hq1
      simp only [itemLoop, Option.some.injEq, Prod.mk.injEq] at hl
      obtain ⟨hres1, hr2⟩ := hl
      subst hr2
      rcases hres with ⟨err, h1, _⟩ | ⟨_, o, r3, h2, h3⟩
      · rw [← hres1] at h1
        cases h1
      · obtain ⟨o1, e1, r1', hc1, m1, m2, _⟩ := Create_memory_outcome userID _ r hmu hv u hu
        rw [h2] at hc1
        simp only [Option.some.injEq, Prod.mk.injEq] at hc1
        obtain ⟨_, hr⟩ := hc1
        subst hr
        refine ⟨o, r3, { p with Quantity := wrapInt (p.Quantity + -1), UpdatedAt := r.clock r.clockCalls },
          h2, m1, m2, ?_, ?_, ?_⟩
        · rw [h3, hq3]
        · exact hid
        · simp only [hw2]
  · intro hlt
    unfold itemLoop at hl
    simp only [hsnap, hlt, if_true, Option.some.injEq, Prod.mk.injEq] at hl
    obtain ⟨hres1, hr2⟩ := hl
    subst hr2
    rcases hres with ⟨err, h1, h2⟩ | ⟨h1, _⟩
    · rw [← hres1] at h1
      simp only [Option.some.injEq] at h1
      subst h1
      exact ⟨_, h2, rfl, rfl, rfl⟩
    · rw [← hres1] at h1
      cases h1

theorem getLast_cons_map_getD {α β : Type} (f : α → β) (x : α) (t : List α) (d : β) :
    (((x :: t).getLast?).map f).getD d = ((t.getLast?).map f).getD (f x) := by
  cases t with
  | nil => simp
  | cons y t =>
    obtain ⟨z, hz⟩ : ∃ z, (y :: t).getLast? = some z :=
      ⟨_, List.getLast?_eq_getLast _ (by simp)⟩
    simp [List.getLast?_cons_cons, hz]

theorem serial_orders_aux (userID pid : String) (huid : userID ≠ "") (hpid : pid ≠ "")
    (N : Nat) : ∀ (Q : Nat) (r : MemoryRepository) (u : User) (p : Product),
    r.mu = false → mapGet r.users userID = some u → r.WellFormed →
    mapGet r.products pid = some p → p.Quantity = (Q : Int) →
    ∃ trace, createMany memoryOrderService userID [⟨pid, 1⟩] N r = some trace ∧
      trace.map (fun x => x.1.2) = List.replicate (min N Q) none ++
        List.replicate (N - min N Q) (some (errors.New "insufficient stock")) ∧
      trace.map (fun x => x.2.quantity pid) =
        (List.range N).map (fun i => some ((Q : Int) - ((min (i + 1) Q : Nat) : Int))) ∧
      ((trace.getLast?).map (fun x => x.2.quantity pid)).getD (r.quantity pid) =
        some ((Q : Int) - ((min N Q : Nat) : Int)) := by
  induction N with
  | zero =>
    intro Q r u p hmu hu hwf hp hQ
    refine ⟨[], rfl, by simp, by simp, ?_⟩
    simp [MemoryRepository.quantity, hp, hQ]
  | succ n ih =>
    intro Q r u p hmu hu hwf hp hQ
    obtain ⟨hok, hfail⟩ := Create_single_unit userID pid r u p hmu huid hpid hu hwf hp
    have hint := (hwf pid p hp).2
    cases Q with
    | zero =>
      obtain ⟨r1, hc, m1, m2, m3⟩ := hfail (by rw [hQ]; simp)
      obtain ⟨trace, ht, t1, t2, t3⟩ := ih 0 r1 u p m1 (m2 ▸ hu)
        (fun k q hk => hwf k q (m3 ▸ hk)) (m3 ▸ hp) hQ
      refine ⟨((none, some (errors.New "insufficient stock")), r1) :: trace,
        by simp [createMany, hc, ht], ?_, ?_, ?_⟩
      · simp only [List.map_cons, t1]
        simp [List.replicate_succ]
      · simp only [List.map_cons, t2, List.range_succ_eq_map, List.map_map]
        simp [MemoryRepository.quantity, m3, hp, hQ]
        symm
        rw [List.eq_replicate_iff]
        simp
      · rw [getLast_cons_map_getD, t3]
        simp [MemoryRepository.quantity, m3, hp, hQ]
    | succ q =>
      obtain ⟨o, r1, p1, hc, m1, m2, m3, m4, m5⟩ := hok (by rw [hQ]; push_cast; omega)
      have hp1 : mapGet r1.products pid = some p1 := by rw [m3, mapGet_mapSet_self]
      have hQ1 : p1.Quantity = (q : Int) := by rw [m5, hQ]; push_cast; ring
      have hwf1 : r1.WellFormed := by
        intro k x hk
        rw [m3, mapGet_mapSet] at hk
        split_ifs at hk with hki
        · cases hk
          refine ⟨by rw [m4, hki], ?_⟩
          rw [hQ1]
          rw [hQ] at hint
          unfold isInt at hint ⊢
          push_cast at hint
          omega
        · exact hwf k x hk
      obtain ⟨trace, ht, t1, t2, t3⟩ := ih q r1 u p1 m1 (m2 ▸ hu) hwf1 hp1 hQ1
      refine ⟨((some o, none), r1) :: trace, by simp [createMany, hc, ht], ?_, ?_, ?_⟩
      · simp only [List.map_cons, t1]
        have e1 : min (n + 1) (q + 1) = min n q + 1 := by omega
        have e2 : n + 1 - (min n q + 1) = n - min n q := by omega
        rw [e1, e2, List.replicate_succ]
        rfl
      · simp only [List.map_cons, t2, List.range_succ_eq_map, List.map_map]
        refine congrArg₂ _ ?_ ?_
        · simp [MemoryRepository.quantity, hp1, hQ1]
        · apply List.map_congr_left
          intro i _
          simp only [Function.comp]
          have e : min (i + 1 + 1) (q + 1) = min (i + 1) q + 1 := by omega
          rw [e]
          push_cast
          congr 1
          ring
      · rw [getLast_cons_map_getD, t3]
        have e : min (n + 1) (q + 1) = min n q + 1 := by omega
        rw [e]
        push_cast
        congr 1
        ring

/-! ## Invariants of the store -/

theorem ProductService_Create_invariant (input : CreateProductInput) (r : MemoryRepository)
    (hmu : r.mu = false) (hn : r.NonNegStock) :
    ∃ res r', memoryProductService.Create input r = some (res, r') ∧ r'.mu = false ∧
      r'.NonNegStock := by
  unfold ProductService.Create
  split_ifs with h1 h2 h3
  · exact ⟨_, _, rfl, hmu, hn⟩
  · exact ⟨_, _, rfl, hmu, hn⟩
  · exact ⟨_, _, rfl, hmu, hn⟩
  · simp only [memoryProductService, memoryProducts, MemoryRepository.CreateProduct,
      MemoryRepository.lock, MemoryRepository.record, hmu, Bool.false_eq_true, if_false,
      if_true, MemoryRepository.nextID, MemoryRepository.timeNow, MemoryRepository.unlock]
    refine ⟨_, _, rfl, rfl, ?_⟩
    intro k p hk
    simp only [mapGet_mapSet] at hk
    split_ifs at hk with hki
    · cases hk
      exact not_lt.mp h2
    · exact hn k p hk

theorem OrderService_Create_invariant (userID : String) (items : List OrderItemInput)
    (r : MemoryRepository) (hmu : r.mu = false) (hn : r.NonNegStock) :
    ∃ res r', memoryOrderService.Create userID items r = some (res, r') ∧ r'.mu = false ∧
      r'.NonNegStock := by
  by_cases hinv : userID = "" ∨ items = [] ∨ ∃ it ∈ items, it.ProductID = "" ∨ it.Quantity ≤ 0
  · obtain ⟨e1, _, h1⟩ := Create_rejects memoryOrderService userID items r hinv
    exact ⟨_, _, h1, hmu, hn⟩
  · have hv := validated_of_not_invalid hinv
    cases hu : mapGet r.users userID with
    | none => exact ⟨_, _, Create_memory_no_user userID items r hmu hv hu, hmu, hn⟩
    | some u =>
      obtain ⟨o, e, r', hc, h1, _, h3, _⟩ := Create_memory_outcome userID items r hmu hv u hu
      exact ⟨_, _, hc, h1, h3 hn⟩

theorem Op_run_invariant (op : Op) (r : MemoryRepository) (hmu : r.mu = false)
    (hn : r.NonNegStock) : ∃ r', op.run r = some r' ∧ r'.mu = false ∧ r'.NonNegStock := by
  cases op with
  | registerUser user =>
    obtain ⟨res, r', h, h1, h2⟩ := CreateUser_invariant user r hmu
    exact ⟨r', by simp [Op.run, h], h1, fun k p hk => hn k p (h2 ▸ hk)⟩
  | createProduct input =>
    obtain ⟨res, r', h, h1, h2⟩ := ProductService_Create_invariant input r hmu hn
    exact ⟨r', by simp [Op.run, h], h1, h2⟩
  | createOrder userID items =>
    obtain ⟨res, r', h, h1, h2⟩ := OrderService_Create_invariant userID items r hmu hn
    exact ⟨r', by simp [Op.run, h], h1, h2⟩
  | updateQuantity tx id delta =>
    obtain ⟨e, r', h⟩ := MemoryRepository.UpdateQuantity_total tx id delta r (Or.inl hmu)
    obtain ⟨hf, hnn⟩ := MemoryRepository.UpdateQuantity_frame _ _ _ _ _ _ h
    exact ⟨r', by simp [Op.run, h], hf.1.trans hmu, hnn hn⟩

theorem runOps_invariant (ops : List Op) (r : MemoryRepository) (hmu : r.mu = false)
    (hn : r.NonNegStock) : ∃ r', runOps ops r = some r' ∧ r'.mu = false ∧ r'.NonNegStock := by
  induction ops generalizing r with
  | nil => exact ⟨r, rfl, hmu, hn⟩
  | cons op rest ih =>
    obtain ⟨r1, h1, hmu1, hn1⟩ := Op_run_invariant op r hmu hn
    obtain ⟨r2, h2, hmu2, hn2⟩ := ih r1 hmu1 hn1
    exact ⟨r2, by simp [runOps, h1, h2], hmu2, hn2⟩

theorem OrderService_Create_wellFormed (userID : String) (items : List OrderItemInput)
    (r : MemoryRepository) (res : Option Order × Option GoError) (r' : MemoryRepository)
    (h : memoryOrderService.Create userID items r = some (res, r')) (hwf : r.WellFormed) :
    r'.WellFormed := by
  by_cases hinv : userID = "" ∨ items = [] ∨ ∃ it ∈ items, it.ProductID = "" ∨ it.Quantity ≤ 0
  · obtain ⟨e1, _, h1⟩ := Create_rejects memoryOrderService userID items r hinv
    rw [h1] at h
    simp only [Option.some.injEq, Prod.mk.injEq] at h
    obtain ⟨_, h2⟩ := h
    subst h2
    exact hwf
  · have hv := validated_of_not_invalid hinv
    cases hmu : r.mu with
    | true =>
      rw [Create_memory_blocked userID items r hmu hv] at h
      cases h
    | false =>
      cases hu : mapGet r.users userID with
      | none =>
        rw [Create_memory_no_user userID items r hmu hv hu] at h
        simp only [Option.some.injEq, Prod.mk.injEq] at h
        obtain ⟨_, h2⟩ := h
        subst h2
        exact hwf
      | some u =>
        by_cases hex : ∀ it ∈ items, mapGet r.products it.ProductID ≠ none
        · obtain ⟨lres, r2, hl, hres⟩ := Create_memory_found userID items r hmu hv u hu hex
          have hwf2 := itemLoop_wellFormed _ _ _ _ _ _ _ hl hwf
          rcases hres with ⟨err, _, h2⟩ | ⟨_, o1, r3, h2, h3⟩
          · rw [h2] at h
            simp only [Option.some.injEq, Prod.mk.injEq] at h
            obtain ⟨_, h4⟩ := h
            subst h4
            exact hwf2
          · rw [h2] at h
            simp only [Option.some.injEq, Prod.mk.injEq] at h
            obtain ⟨_, h4⟩ := h
            subst h4
            exact fun k q hk => hwf2 k q (h3 ▸ hk)
        · push_neg at hex
          rw [Create_memory_missing userID items r hmu hv u hu hex] at h
          simp only [Option.some.injEq, Prod.mk.injEq] at h
          obtain ⟨_, h2⟩ := h
          subst h2
          exact hwf

theorem ProductService_Create_wellFormed (input : CreateProductInput) (r : MemoryRepository)
    (res : Option Product × Option GoError) (r' : MemoryRepository)
    (h : memoryProductService.Create input r = some (res, r')) (hint : isInt input.Quantity)
    (hwf : r.WellFormed) : r'.WellFormed := by
  unfold ProductService.Create at h
  split_ifs at h with h1 h2 h3
  · cases h; exact hwf
  · cases h; exact hwf
  · cases h; exact hwf
  · cases hmu : r.mu with
    | true =>
      simp [memoryProductService, memoryProducts, MemoryRepository.CreateProduct,
        MemoryRepository.lock, MemoryRepository.record, hmu] at h
    | false =>
      simp only [memoryProductService, memoryProducts, MemoryRepository.CreateProduct,
        MemoryRepository.lock, MemoryRepository.record, hmu, Bool.false_eq_true, if_false,
        if_true, MemoryRepository.nextID, MemoryRepository.timeNow, MemoryRepository.unlock,
        Option.some.injEq, Prod.mk.injEq] at h
      obtain ⟨_, h4⟩ := h
      subst h4
      intro k p hk
      simp only [mapGet_mapSet] at hk
      split_ifs at hk with hki
      · cases hk
        exact ⟨hki.symm, hint⟩
      · exact hwf k p hk

theorem Op_run_wellFormed (op : Op) (r r' : MemoryRepository) (h : op.run r = some r')
    (ht : op.WellTyped) (hwf : r.WellFormed) : r'.WellFormed := by
  cases op with
  | registerUser user =>
    simp only [Op.run, Option.map_eq_some'] at h
    obtain ⟨⟨res, r1⟩, h1, rfl⟩ := h
    cases hmu : r.mu with
    | true =>
      simp [MemoryRepository.CreateUser, MemoryRepository.lock, MemoryRepository.record, hmu] at h1
    | false =>
      obtain ⟨_, _, h2, _, h3⟩ := CreateUser_invariant user r hmu
      rw [h2] at h1
      cases h1
      exact fun k q hk => hwf k q (h3 ▸ hk)
  | createProduct input =>
    simp only [Op.run, Option.map_eq_some'] at h
    obtain ⟨⟨res, r1⟩, h1, rfl⟩ := h
    exact ProductService_Create_wellFormed input r res r1 h1 ht hwf
  | createOrder userID items =>
    simp only [Op.run, Option.map_eq_some'] at h
    obtain ⟨⟨res, r1⟩, h1, rfl⟩ := h
    exact OrderService_Create_wellFormed userID items r res r1 h1 hwf
  | updateQuantity tx id delta =>
    simp only [Op.run, Option.map_eq_some'] at h
    obtain ⟨⟨res, r1⟩, h1, rfl⟩ := h
    exact UpdateQuantity_wellFormed _ _ _ _ _ _ h1 hwf

/-- Every state that well-typed calls reach from the empty store is well formed: the hypothesis
`WellFormed` of the theorems above holds of every store the test suite can build. -/
theorem reachable_wellFormed (ug : Nat → String) (clock : Nat → Time) (ops : List Op)
    (ht : ∀ op ∈ ops, op.WellTyped) (r : MemoryRepository)
    (h : runOps ops (NewMemoryRepository ug clock) = some r) : r.WellFormed := by
  have key : ∀ (ops : List Op) (r0 r : MemoryRepository), (∀ op ∈ ops, op.WellTyped) →
      r0.WellFormed → runOps ops r0 = some r → r.WellFormed := by
    intro ops
    induction ops with
    | nil =>
      intro r0 r _ hwf h
      simp only [runOps, Option.some.injEq] at h
      subst h
      exact hwf
    | cons op rest ih =>
      intro r0 r ht hwf h
      unfold runOps at h
      split at h
      · cases h
      · rename_i r1 h1
        exact ih r1 r (fun x hx => ht x (List.mem_cons_of_mem _ hx))
          (Op_run_wellFormed op r0 r1 h1 (ht op (List.mem_cons_self _ _)) hwf) h
  exact key ops _ r ht (fun k p hk => by simp [NewMemoryRepository, mapGet] at hk) h

/-! ## The sample stores are well formed -/

theorem sampleStore_wellFormed : sampleStore.WellFormed := by
  intro k p h
  simp only [sampleStore, NewMemoryRepository, mapGet] at h
  split_ifs at h with h1 h2
  · cases h
    exact ⟨h1, by decide⟩
  · cases h
    exact ⟨h2, by decide⟩

theorem sampleStore_keyed : sampleStore.KeyedByID :=
  fun k p h => (sampleStore_wellFormed k p h).1

theorem smallStore_wellFormed : smallStore.WellFormed := by
  intro k p h
  simp only [smallStore, NewMemoryRepository, mapGet] at h
  split_ifs at h with h1
  cases h
  exact ⟨h1, by decide⟩

/-! ## Decimals are exact -/

namespace Decimal

theorem toRat_Zero : Zero.toRat = 0 := by
  simp [toRat, Zero]

theorem toRat_NewFromInt (v : Int) : (NewFromInt v).toRat = v := by
  simp [toRat, NewFromInt]

theorem toRat_Mul (a b : Decimal) : (a.Mul b).toRat = a.toRat * b.toRat := by
  simp only [toRat, Mul]
  rw [zpow_add₀ (by norm_num : (10 : ℚ) ≠ 0)]
  push_cast
  ring

theorem toRat_rescale_down (d : Decimal) (e : Int) (h : e ≤ d.exp) :
    (d.rescale e).toRat = d.toRat := by
  unfold rescale
  split_ifs with h1 h2
  · rfl
  · omega
  · simp only [toRat]
    have hn : ((d.exp - e).toNat : Int) = d.exp - e := Int.toNat_of_nonneg (by omega)
    have hd : d.exp = e + ((d.exp - e).toNat : Int) := by omega
    conv_rhs => rw [hd, zpow_add₀ (by norm_num : (10 : ℚ) ≠ 0), zpow_natCast]
    push_cast
    ring

theorem toRat_Add (a b : Decimal) : (a.Add b).toRat = a.toRat + b.toRat := by
  unfold Add RescalePair
  split_ifs with h1 h2
  · have hb := toRat_rescale_down b a.exp (le_of_lt h1)
    have he : (b.rescale a.exp).exp = a.exp := by
      unfold rescale
      split_ifs <;> first | rfl | omega
    simp only [toRat] at hb ⊢
    rw [he] at hb
    push_cast
    rw [add_mul, hb]
  · have ha := toRat_rescale_down a b.exp (le_of_lt h2)
    have he : (a.rescale b.exp).exp = b.exp := by
      unfold rescale
      split_ifs <;> first | rfl | omega
    simp only [toRat] at ha ⊢
    rw [he] at ha ⊢
    push_cast
    rw [add_mul, ha]
  · have he : a.exp = b.exp := by omega
    simp only [toRat]
    push_cast
    rw [add_mul, he]

end Decimal

/-! ## What a successful `Create` builds -/

/-- The item loop, over any product repository: on success the order items are the given ones
followed by one item per line, in the order of the lines, and the total is exact. -/
theorem itemLoop_lines {σ : Type} (products : ProductRepository σ) (tx : Tx)
    (pm : List (String × Product)) (items : List OrderItemInput) (total : Decimal)
    (ois : List OrderItem) (w : σ) (t : Decimal) (o : List OrderItem) (w' : σ)
    (h : itemLoop products tx pm items total ois w = some ((none, t, o), w')) :
    (∀ it ∈ items, mapGet pm it.ProductID ≠ none) ∧
    o = ois ++ items.filterMap (fun it => (mapGet pm it.ProductID).map (lineItem it)) ∧
    t.toRat = total.toRat + (items.map (fun it => (it.Quantity : ℚ) *
      ((mapGet pm it.ProductID).map (fun p => p.Price.toRat)).getD 0)).sum := by
  induction items generalizing total ois w with
  | nil =>
    simp only [itemLoop, Option.some.injEq, Prod.mk.injEq] at h
    obtain ⟨⟨_, h1, h2⟩, _⟩ := h
    subst h1 h2
    simp
  | cons it rest ih =>
    unfold itemLoop at h
    split at h
    · simp at h
    · rename_i product hg
      split_ifs at h with hlt
      · simp at h
      · split at h
        · cases h
        · simp at h
        · rename_i w1 hu
          obtain ⟨c1, c2, c3⟩ := ih _ _ _ h
          refine ⟨?_, ?_, ?_⟩
          · intro x hx
            rcases List.mem_cons.mp hx with rfl | hx
            · simp [hg]
            · exact c1 x hx
          · rw [c2, List.filterMap_cons_some (by rw [hg]; rfl), List.append_assoc]
            rfl
          · rw [c3, Decimal.toRat_Add, Decimal.toRat_Mul, Decimal.toRat_NewFromInt]
            simp only [List.map_cons, List.sum_cons, hg, Option.map_some', Option.getD_some]
            ring

theorem buildProductMap_keyed (ps : List Product) (m : List (String × Product))
    (hm : ∀ k p, mapGet m k = some p → p.ID = k) :
    ∀ k p, mapGet (buildProductMap ps m) k = some p → p.ID = k := by
  induction ps generalizing m with
  | nil => exact hm
  | cons q rest ih =>
    unfold buildProductMap
    apply ih
    intro k p hk
    rw [mapGet_mapSet] at hk
    split_ifs at hk with hki
    · cases hk
      exact hki.symm
    · exact hm k p hk

/-- The items that the loop builds carry the product id and the quantity of their lines. -/
theorem lines_mirror (pm : List (String × Product)) (items : List OrderItemInput)
    (hpm : ∀ k p, mapGet pm k = some p → p.ID = k)
    (hall : ∀ it ∈ items, mapGet pm it.ProductID ≠ none) :
    (items.filterMap (fun it => (mapGet pm it.ProductID).map (lineItem it))).map
        (fun x => (x.ProductID, x.Quantity)) =
      items.map (fun it => (it.ProductID, it.Quantity)) := by
  induction items with
  | nil => rfl
  | cons it rest ih =>
    obtain ⟨p, hp⟩ := Option.ne_none_iff_exists'.mp (hall it (List.mem_cons_self _ _))
    rw [List.filterMap_cons_some (by rw [hp]; rfl), List.map_cons, List.map_cons,
      ih (fun x hx => hall x (List.mem_cons_of_mem _ hx))]
    simp [lineItem, hpm _ _ hp]

/-- The items of the returned order, line by line: each comes from a line of the request and the
product that the snapshot holds for it. -/
theorem returned_item_origin (pm : List (String × Product)) (items : List OrderItemInput)
    (stamped : List OrderItem)
    (hs : stamped.map (fun x => (x.ProductID, x.Quantity, x.Price)) =
      (items.filterMap (fun it => (mapGet pm it.ProductID).map (lineItem it))).map
        (fun x => (x.ProductID, x.Quantity, x.Price)))
    (x : OrderItem) (hx : x ∈ stamped) :
    ∃ it ∈ items, ∃ p, mapGet pm it.ProductID = some p ∧ x.ProductID = p.ID ∧
      x.Quantity = it.Quantity ∧ x.Price = p.Price := by
  have hmem : (x.ProductID, x.Quantity, x.Price) ∈
      stamped.map (fun x => (x.ProductID, x.Quantity, x.Price)) :=
    List.mem_map.mpr ⟨x, hx, rfl⟩
  rw [hs] at hmem
  obtain ⟨y, hy, hxy⟩ := List.mem_map.mp hmem
  obtain ⟨it, hit, hity⟩ := List.mem_filterMap.mp hy
  cases hp : mapGet pm it.ProductID with
  | none => simp [hp] at hity
  | some p =>
    simp only [hp, Option.map_some', Option.some.injEq] at hity
    subst hity
    simp only [lineItem, Prod.mk.injEq] at hxy
    exact ⟨it, hit, p, hp, hxy.1.symm, hxy.2.1.symm, hxy.2.2.symm⟩

namespace MemoryRepository

theorem stampItems_spec (orderID : String) (items : List OrderItem) (r : MemoryRepository) :
    (stampItems orderID items r).2.ug = r.ug ∧
    (stampItems orderID items r).1.map (fun x => (x.ProductID, x.Quantity, x.Price)) =
      items.map (fun x => (x.ProductID, x.Quantity, x.Price)) ∧
    (∀ x ∈ (stampItems orderID items r).1, x.OrderID = orderID) ∧
    ((∀ n, r.ug n ≠ "") → ∀ x ∈ (stampItems orderID items r).1, x.ID ≠ "") := by
  induction items generalizing r with
  | nil => simp [stampItems]
  | cons it rest ih =>
    unfold stampItems
    by_cases h : it.ID = ""
    · simp only [h, if_true]
      obtain ⟨i1, i2, i3, i4⟩ := ih r.nextID.2
      refine ⟨by simpa [nextID] using i1, by simpa using i2, ?_, ?_⟩
      · intro x hx
        rcases List.mem_cons.mp hx with rfl | hx
        · rfl
        · exact i3 x hx
      · intro hug x hx
        rcases List.mem_cons.mp hx with rfl | hx
        · exact hug _
        · exact i4 (by simpa [nextID] using hug) x hx
    · simp only [h, if_false]
      obtain ⟨i1, i2, i3, i4⟩ := ih r
      refine ⟨i1, by simpa using i2, ?_, ?_⟩
      · intro x hx
        rcases List.mem_cons.mp hx with rfl | hx
        · rfl
        · exact i3 x hx
      · intro hug x hx
        rcases List.mem_cons.mp hx with rfl | hx
        · exact h
        · exact i4 hug x hx

/-- `CreateOrder` inside a transaction, for an order without id and timestamp. -/
theorem CreateOrder_new (userID : String) (t : Decimal) (ois items : List OrderItem)
    (r : MemoryRepository) :
    ∃ ord r3, CreateOrder (Tx.memoryTx true) ⟨"", userID, 0, t, ois⟩ items r =
        some ((some ord, none), r3) ∧
      ord.ID = r.ug r.ugCalls ∧ ord.UserID = userID ∧ ord.TotalPrice = t ∧
      ord.Items.map (fun x => (x.ProductID, x.Quantity, x.Price)) =
        items.map (fun x => (x.ProductID, x.Quantity, x.Price)) ∧
      (∀ x ∈ ord.Items, x.OrderID = ord.ID) ∧
      ((∀ n, r.ug n ≠ "") → ∀ x ∈ ord.Items, x.ID ≠ "") ∧
      r3.orders = mapSet r.orders ord.ID ord ∧ r3.products = r.products ∧
      r3.users = r.users ∧ r3.mu = r.mu := by
  obtain ⟨s1, s2, s3, s4⟩ := stampItems_spec (r.ug r.ugCalls) items
    ({ r with
      calls := r.calls ++ [Invocation.CreateOrder (Tx.memoryTx true) ⟨"", userID, 0, t, ois⟩ items]
      ugCalls := r.ugCalls + 1
      clockCalls := r.clockCalls + 1 } : MemoryRepository)
  obtain ⟨f1, f2, f3, f4, f5⟩ := stampItems_frame (r.ug r.ugCalls) items
    ({ r with
      calls := r.calls ++ [Invocation.CreateOrder (Tx.memoryTx true) ⟨"", userID, 0, t, ois⟩ items]
      ugCalls := r.ugCalls + 1
      clockCalls := r.clockCalls + 1 } : MemoryRepository)
  refine ⟨_, _, rfl, rfl, rfl, rfl, s2, s3, ?_, ?_, f3, f2, f1⟩
  · intro hug
    exact s4 hug
  · exact congrArg (fun m => mapSet m _ _) f4

end MemoryRepository

/-- A call of `Create` that returns a nil error: what was checked on the way, the run of the item
loop, and the order that `CreateOrder` built and stored. -/
theorem Create_memory_success (userID : String) (items : List OrderItemInput)
    (r : MemoryRepository) (o : Option Order) (r' : MemoryRepository)
    (h : memoryOrderService.Create userID items r = some ((o, none), r')) :
    Validated userID items ∧ r.mu = false ∧ (∃ u, mapGet r.users userID = some u) ∧
    (∀ it ∈ items, mapGet r.products it.ProductID ≠ none) ∧
    ∃ t ois r2 ord,
      itemLoop memoryProducts (Tx.memoryTx true)
          (buildProductMap ((collectIDs items [] []).filterMap (mapGet r.products)) []) items
          Decimal.Zero []
          { r with
            mu := true
            calls := r.calls ++ [Invocation.GetByID userID, Invocation.WithTx,
              Invocation.GetByIDsForUpdate (Tx.memoryTx true) (collectIDs items [] [])] }
        = some ((none, t, ois), r2) ∧
      o = some ord ∧ ord.ID = r.ug r.ugCalls ∧ ord.UserID = userID ∧ ord.TotalPrice = t ∧
      ord.Items.map (fun x => (x.ProductID, x.Quantity, x.Price)) =
        ois.map (fun x => (x.ProductID, x.Quantity, x.Price)) ∧
      (∀ x ∈ ord.Items, x.OrderID = ord.ID) ∧
      ((∀ n, r.ug n ≠ "") → ∀ x ∈ ord.Items, x.ID ≠ "") ∧
      r'.orders = mapSet r.orders ord.ID ord ∧ r'.products = r2.products ∧
      r'.users = r.users := by
  by_cases hinv : userID = "" ∨ items = [] ∨ ∃ it ∈ items, it.ProductID = "" ∨ it.Quantity ≤ 0
  · obtain ⟨e1, _, h1⟩ := Create_rejects memoryOrderService userID items r hinv
    rw [h1] at h
    simp at h
  · have hv := validated_of_not_invalid hinv
    cases hmu : r.mu with
    | true =>
      rw [Create_memory_blocked userID items r hmu hv] at h
      cases h
    | false =>
      cases hu : mapGet r.users userID with
      | none =>
        rw [Create_memory_no_user userID items r hmu hv hu] at h
        simp at h
      | some u =>
        by_cases hex : ∀ it ∈ items, mapGet r.products it.ProductID ≠ none
        · refine ⟨hv, rfl, ⟨u, rfl⟩, hex, ?_⟩
          obtain ⟨res, r2, hl, _⟩ := Create_memory_found userID items r hmu hv u hu hex
          obtain ⟨⟨f1, f2, f3, f4, f5, f6, _, _⟩, _, _⟩ := itemLoop_frame _ _ _ _ _ _ _ hl
          rw [Create_memory userID items r hmu hv u hu] at h
          have hc : ¬ ((collectIDs items [] []).filterMap (mapGet r.products)).length
              ≠ (collectIDs items [] []).length := by
            rw [filterMap_length_ne_iff, collectIDs_exists_missing]
            rintro ⟨it, hit, hg⟩
            exact hex it hit hg
          rw [if_neg hc, hl] at h
          obtain ⟨e, t, ois⟩ := res
          cases e with
          | some err => simp at h
          | none =>
            simp only at h
            obtain ⟨ord, r3, hco, c1, c2, c3, c4, c5, c6, c7, c8, c9, c10⟩ :=
              MemoryRepository.CreateOrder_new userID t ois ois r2
            rw [hco] at h
            simp only [Option.some.injEq, Prod.mk.injEq] at h
            obtain ⟨⟨ho, _⟩, hr⟩ := h
            subst ho hr
            refine ⟨t, ois, r2, ord, hl, rfl, ?_, c2, c3, c4, c5, ?_, ?_, c8, ?_⟩
            · rw [c1, f4, f5]
            · intro hug
              exact c6 (by rw [f4]; exact hug)
            · show r3.orders = _
              rw [c7, f3]
            · show r3.users = _
              rw [c9, f2]
        · push_neg at hex
          rw [Create_memory_missing userID items r hmu hv u hu hex] at h
          simp at h

/-- The snapshot agrees with the store on the products of the request. -/
theorem snapshot_of_line (items : List OrderItemInput) (r : MemoryRepository)
    (hkey : r.KeyedByID) (it : OrderItemInput) (hit : it ∈ items) :
    mapGet (buildProductMap ((collectIDs items [] []).filterMap (mapGet r.products)) [])
      it.ProductID = mapGet r.products it.ProductID := by
  rw [mapGet_snapshot items r hkey, if_pos ⟨it, hit, rfl⟩]

theorem testStore_keyed : testStore.KeyedByID := by
  intro k p h
  simp only [testStore, NewMemoryRepository, mapGet] at h
  split_ifs at h with h1
  cases h
  exact h1

/-! ## The order map -/

theorem mapSet_absent {V : Type} (m : List (String × V)) (k : String) (v : V)
    (h : mapGet m k = none) : mapSet m k v = m ++ [(k, v)] := by
  induction m with
  | nil => rfl
  | cons e t ih =>
    obtain ⟨k', v'⟩ := e
    unfold mapGet at h
    split_ifs at h with hk
    unfold mapSet
    rw [if_neg hk, ih h]
    rfl

theorem CreateUser_orders (user : User) (r : MemoryRepository)
    (res : Option User × Option GoError) (r' : MemoryRepository)
    (h : MemoryRepository.CreateUser user r = some (res, r')) : r'.orders = r.orders := by
  cases hmu : r.mu with
  | true =>
    simp [MemoryRepository.CreateUser, MemoryRepository.lock, MemoryRepository.record, hmu] at h
  | false =>
    simp only [MemoryRepository.CreateUser, MemoryRepository.lock, MemoryRepository.record,
      hmu, Bool.false_eq_true, if_false] at h
    split_ifs at h <;> cases h <;> rfl

theorem CreateProduct_orders (product : Product) (r : MemoryRepository)
    (res : Option Product × Option GoError) (r' : MemoryRepository)
    (h : MemoryRepository.CreateProduct product r = some (res, r')) : r'.orders = r.orders := by
  cases hmu : r.mu with
  | true =>
    simp [MemoryRepository.CreateProduct, MemoryRepository.lock, MemoryRepository.record,
      hmu] at h
  | false =>
    simp only [MemoryRepository.CreateProduct, MemoryRepository.lock, MemoryRepository.record,
      hmu, Bool.false_eq_true, if_false] at h
    split_ifs at h <;> cases h <;> rfl

theorem Create_memory_failure_orders (userID : String) (items : List OrderItemInput)
    (r : MemoryRepository) (o : Option Order) (e : GoError) (r' : MemoryRepository)
    (h : memoryOrderService.Create userID items r = some ((o, some e), r')) :
    r'.orders = r.orders := by
  by_cases hinv : userID = "" ∨ items = [] ∨ ∃ it ∈ items, it.ProductID = "" ∨ it.Quantity ≤ 0
  · obtain ⟨e1, _, h1⟩ := Create_rejects memoryOrderService userID items r hinv
    rw [h1] at h
    simp only [Option.some.injEq, Prod.mk.injEq] at h
    rw [← h.2]
  · have hv := validated_of_not_invalid hinv
    cases hmu : r.mu with
    | true =>
      rw [Create_memory_blocked userID items r hmu hv] at h
      cases h
    | false =>
      cases hu : mapGet r.users userID with
      | none =>
        rw [Create_memory_no_user userID items r hmu hv hu] at h
        simp only [Option.some.injEq, Prod.mk.injEq] at h
        rw [← h.2]
        rfl
      | some u =>
        obtain ⟨o1, e1, r1, h1, _, _, _, _, herr⟩ :=
          Create_memory_outcome userID items r hmu hv u hu
        rw [h1] at h
        simp only [Option.some.injEq, Prod.mk.injEq] at h
        obtain ⟨⟨_, he⟩, hr⟩ := h
        subst hr
        exact (herr (by rw [he]; simp)).2.1

/-! ## Locked reads and the PostgreSQL repository -/

theorem MemoryRepository.lock_returns (r : MemoryRepository) (tx : Tx)
    (h : r.mu = false ∨ tx = Tx.memoryTx true) :
    (tx = Tx.memoryTx true ∧ r.lock tx = some (false, r)) ∨
    (r.mu = false ∧ r.lock tx = some (true, { r with mu := true })) := by
  by_cases htx : tx = Tx.memoryTx true
  · subst htx
    exact Or.inl ⟨rfl, rfl⟩
  · rcases h with h | h
    · refine Or.inr ⟨h, ?_⟩
      unfold MemoryRepository.lock
      split
      · exact absurd rfl htx
      · simp [h]
    · exact absurd h htx

theorem filterMap_length_eq_iff {ids : List String} {g : String → Option Product} :
    (ids.filterMap g).length = ids.length ↔ ∀ id ∈ ids, g id ≠ none := by
  have := @filterMap_length_ne_iff ids g
  constructor
  · intro h id hid hg
    exact (this.mpr ⟨id, hid, hg⟩) h
  · intro h
    by_contra hne
    obtain ⟨id, hid, hg⟩ := this.mp hne
    exact h id hid hg

theorem postgres_UpdateQuantity_no_row (rows : List Product) (now : Time) (id : String)
    (delta : Int) (h : ∀ row ∈ rows, ¬ (row.ID = id ∧ row.Quantity + delta ≥ 0)) :
    postgres.UpdateQuantity postgres.productsTable now id delta rows =
      some (some (errors.New "insufficient stock"), rows) := by
  have hf : rows.filter (fun row => decide (row.ID = id ∧ row.Quantity + delta ≥ 0)) = [] := by
    rw [List.filter_eq_nil_iff]
    intro row hrow
    simpa using h row hrow
  have hm : rows.map (fun row =>
      if row.ID = id ∧ row.Quantity + delta ≥ 0 then
        ({ row with Quantity := row.Quantity + delta, UpdatedAt := now } : Product)
      else row) = rows := by
    conv_rhs => rw [← List.map_id rows]
    apply List.map_congr_left
    intro row hrow
    rw [if_neg (h row hrow)]
    rfl
  simp only [postgres.UpdateQuantity, query.Exec, postgres.productsTable, hf, hm,
    List.length_nil, if_true]
  rfl

/-! ## Users and emails -/

theorem map_eq_map_iff_forall₂ {α β : Type} (f : α → β) (l1 l2 : List α) :
    l1.map f = l2.map f ↔ List.Forall₂ (fun a b => f a = f b) l1 l2 := by
  induction l1 generalizing l2 with
  | nil =>
    cases l2 with
    | nil => simp
    | cons b t => simp
  | cons a t ih =>
    cases l2 with
    | nil => simp
    | cons b t2 => simp [ih]

theorem EqualFold_iff (s t : String) : EqualFold s t = true ↔ EqualIgnoringCase s t := by
  simp only [EqualFold, decide_eq_true_eq, EqualIgnoringCase, sameLetter]
  exact map_eq_map_iff_forall₂ _ _ _

theorem EqualFold_eq_false_iff (s t : String) :
    EqualFold s t = false ↔ ¬ EqualIgnoringCase s t := by
  rw [← EqualFold_iff, Bool.not_eq_true]

theorem errors_Is_ErrNotFound (e : GoError) (msg : String) :
    errors.Is errors.ErrNotFound errors.Var.ErrNotFound = true ∧
    errors.Is (errors.New "not found") errors.Var.ErrNotFound = false ∧
    (errors.Wrap (some errors.ErrNotFound) msg).map
      (fun x => errors.Is x errors.Var.ErrNotFound) = some true ∧
    (errors.Wrap (some e) msg).map (fun x => errors.Is x errors.Var.ErrNotFound) =
      some (errors.Is e errors.Var.ErrNotFound) :=
  ⟨rfl, rfl, rfl, rfl⟩

theorem EqualFold_symm (s t : String) : EqualFold s t = EqualFold t s := by
  simp only [EqualFold]
  exact decide_eq_decide.mpr eq_comm

theorem EqualFold_trans {s t u : String} (h1 : EqualFold s t = true) (h2 : EqualFold t u = true) :
    EqualFold s u = true := by
  simp only [EqualFold, decide_eq_true_eq] at h1 h2 ⊢
  exact h1.trans h2

theorem mem_of_mapGet {V : Type} (m : List (String × V)) (k : String) (v : V)
    (h : mapGet m k = some v) : (k, v) ∈ m := by
  induction m with
  | nil => simp [mapGet] at h
  | cons x t ih =>
    obtain ⟨k', v'⟩ := x
    simp only [mapGet] at h
    split_ifs at h with hk
    · cases h
      subst hk
      exact List.mem_cons_self _ _
    · exact List.mem_cons_of_mem _ (ih h)

theorem mem_mapSet {V : Type} (m : List (String × V)) (k : String) (v : V) (x : String × V)
    (h : x ∈ mapSet m k v) : x = (k, v) ∨ x ∈ m := by
  induction m with
  | nil =>
    simp only [mapSet, List.mem_singleton] at h
    exact Or.inl h
  | cons y t ih =>
    obtain ⟨k', v'⟩ := y
    simp only [mapSet] at h
    split_ifs at h with hk
    · rcases List.mem_cons.mp h with h | h
      · exact Or.inl h
      · exact Or.inr (List.mem_cons_of_mem _ h)
    · rcases List.mem_cons.mp h with h | h
      · exact Or.inr (h ▸ List.mem_cons_self _ _)
      · rcases ih h with h | h
        · exact Or.inl h
        · exact Or.inr (List.mem_cons_of_mem _ h)

theorem mem_mapSet_self {V : Type} (m : List (String × V)) (k : String) (v : V) :
    (k, v) ∈ mapSet m k v := by
  induction m with
  | nil => simp [mapSet]
  | cons y t ih =>
    obtain ⟨k', v'⟩ := y
    simp only [mapSet]
    split_ifs with hk
    · exact List.mem_cons_self _ _
    · exact List.mem_cons_of_mem _ ih

theorem keys_mapSet_nodup {V : Type} (m : List (String × V)) (k : String) (v : V)
    (h : (m.map Prod.fst).Nodup) : ((mapSet m k v).map Prod.fst).Nodup := by
  induction m with
  | nil => simp [mapSet]
  | cons y t ih =>
    obtain ⟨k', v'⟩ := y
    simp only [List.map_cons, List.nodup_cons] at h
    simp only [mapSet]
    split_ifs with hk
    · subst hk
      simpa using h
    · simp only [List.map_cons, List.nodup_cons]
      refine ⟨?_, ih h.2⟩
      intro hm
      obtain ⟨x, hx, hxk⟩ := List.mem_map.mp hm
      rcases mem_mapSet t k v x hx with rfl | hx
      · exact hk hxk.symm
      · exact h.1 (List.mem_map.mpr ⟨x, hx, hxk⟩)

theorem pairwise_mapSet {V : Type} (R : String × V → String × V → Prop)
    (m : List (String × V)) (k : String) (v : V) (h : m.Pairwise R)
    (hn : ∀ a ∈ m, R a (k, v) ∧ R (k, v) a) : (mapSet m k v).Pairwise R := by
  induction m with
  | nil => simp [mapSet]
  | cons y t ih =>
    obtain ⟨k', v'⟩ := y
    rw [List.pairwise_cons] at h
    simp only [mapSet]
    split_ifs with hk
    · rw [List.pairwise_cons]
      exact ⟨fun a ha => (hn a (List.mem_cons_of_mem _ ha)).2, h.2⟩
    · rw [List.pairwise_cons]
      refine ⟨?_, ih h.2 (fun a ha => hn a (List.mem_cons_of_mem _ ha))⟩
      intro a ha
      rcases mem_mapSet t k v a ha with rfl | ha
      · exact (hn _ (List.mem_cons_self _ _)).1
      · exact h.1 a ha

namespace MemoryRepository

theorem CreateUser_memory (user : User) (r : MemoryRepository) (hmu : r.mu = false) :
    CreateUser user r =
      if r.users.any (fun e => EqualFold e.2.Email user.Email) then
        some ((none, some (errors.New "user already exists")),
          r.record (Invocation.CreateUser user))
      else
        some ((some { user with
              ID := if user.ID = "" then r.ug r.ugCalls else user.ID
              CreatedAt := if user.CreatedAt = 0 then r.clock r.clockCalls else user.CreatedAt },
            none),
          { r with
            users := mapSet r.users (if user.ID = "" then r.ug r.ugCalls else user.ID)
              { user with
                ID := if user.ID = "" then r.ug r.ugCalls else user.ID
                CreatedAt :=
                  if user.CreatedAt = 0 then r.clock r.clockCalls else user.CreatedAt }
            ugCalls := if user.ID = "" then r.ugCalls + 1 else r.ugCalls
            clockCalls := if user.CreatedAt = 0 then r.clockCalls + 1 else r.clockCalls
            calls := r.calls ++ [Invocation.CreateUser user] }) := by
  obtain ⟨mu, users, products, orders, ug, ugCalls, clock, clockCalls, calls⟩ := r
  simp only at hmu
  subst hmu
  simp only [CreateUser, lock, record, Bool.false_eq_true, if_false, unlock, if_true, nextID,
    timeNow]
  split_ifs <;> rfl

theorem GetByEmail_memory (email : String) (r : MemoryRepository) (hmu : r.mu = false) :
    GetByEmail email r =
      some (((r.users.find? (fun e => EqualFold e.2.Email email)).map Prod.snd, none),
        r.record (Invocation.GetByEmail email)) := by
  obtain ⟨mu, users, products, orders, ug, ugCalls, clock, clockCalls, calls⟩ := r
  simp only at hmu
  subst hmu
  simp only [GetByEmail, lock, record, Bool.false_eq_true, if_false, unlock, if_true]

theorem CreateUser_unique (user : User) (r : MemoryRepository) (hmu : r.mu = false)
    (hinv : r.EmailsUnique) :
    ∃ res r', CreateUser user r = some (res, r') ∧ r'.mu = false ∧ r'.EmailsUnique := by
  rw [CreateUser_memory user r hmu]
  by_cases hany : r.users.any (fun e => EqualFold e.2.Email user.Email) = true
  · rw [if_pos hany]
    exact ⟨_, _, rfl, hmu, hinv⟩
  · rw [if_neg hany]
    refine ⟨_, _, rfl, hmu, keys_mapSet_nodup _ _ _ hinv.1, pairwise_mapSet _ _ _ _ hinv.2 ?_⟩
    intro a ha
    have hne : EqualFold a.2.Email user.Email = false := by
      cases hc : EqualFold a.2.Email user.Email with
      | false => rfl
      | true => exact absurd (List.any_eq_true.mpr ⟨a, ha, hc⟩) hany
    exact ⟨(EqualFold_eq_false_iff _ _).mp hne,
      (EqualFold_eq_false_iff _ _).mp (by rw [EqualFold_symm]; exact hne)⟩

end MemoryRepository

theorem registerUsers_unique (us : List User) (r : MemoryRepository) (hmu : r.mu = false)
    (hinv : r.EmailsUnique) :
    ∃ r', runOps (us.map Op.registerUser) r = some r' ∧ r'.mu = false ∧ r'.EmailsUnique := by
  induction us generalizing r with
  | nil => exact ⟨r, rfl, hmu, hinv⟩
  | cons u us ih =>
    obtain ⟨res, r1, h1, hmu1, hinv1⟩ := MemoryRepository.CreateUser_unique u r hmu hinv
    obtain ⟨r', h2, hmu2, hinv2⟩ := ih r1 hmu1 hinv1
    refine ⟨r', ?_, hmu2, hinv2⟩
    simp only [List.map_cons, runOps, Op.run, h1, Option.map_some']
    exact h2

/-! ## Storage errors and the product service -/

theorem itemLoop_append {σ : Type} (products : ProductRepository σ) (tx : Tx)
    (pm : List (String × Product)) (pre rest : List OrderItemInput) (total : Decimal)
    (ois : List OrderItem) (w : σ) (t1 : Decimal) (o1 : List OrderItem) (w1 : σ)
    (h : itemLoop products tx pm pre total ois w = some ((none, t1, o1), w1)) :
    itemLoop products tx pm (pre ++ rest) total ois w = itemLoop products tx pm rest t1 o1 w1 := by
  induction pre generalizing total ois w with
  | nil =>
    simp only [itemLoop, Option.some.injEq, Prod.mk.injEq, true_and] at h
    obtain ⟨⟨rfl, rfl⟩, rfl⟩ := h
    rfl
  | cons x pre ih =>
    simp only [List.cons_append, itemLoop] at h ⊢
    cases hg : mapGet pm x.ProductID with
    | none => simp [hg] at h
    | some p =>
      simp only [hg] at h ⊢
      by_cases hq : p.Quantity < x.Quantity
      · simp [hq] at h
      · simp only [hq, if_false] at h ⊢
        cases hu : products.UpdateQuantity tx p.ID (wrapInt (-x.Quantity)) w with
        | none => simp [hu] at h
        | some res =>
          obtain ⟨err, w2⟩ := res
          cases err with
          | some e => simp [hu] at h
          | none =>
            simp only [hu] at h ⊢
            exact ih _ _ _ h

namespace Decimal

theorem LessThanOrEqual_Zero (d : Decimal) : d.LessThanOrEqual Zero = true ↔ d.value ≤ 0 := by
  simp only [LessThanOrEqual, RescalePair, Zero, decide_eq_true_eq]
  by_cases h1 : d.exp < 1
  · simp [h1, rescale]
    split_ifs <;> simp
  · by_cases h2 : d.exp > 1
    · have h3 : ¬ d.exp = 1 := by omega
      simp only [h1, h2, if_false, if_true, rescale, h3]
      have hp : (0 : Int) < 10 ^ (d.exp - 1).toNat := by positivity
      constructor
      · intro h
        by_contra hc
        have := mul_pos (not_le.mp hc) hp
        omega
      · intro h
        exact mul_nonpos_of_nonpos_of_nonneg h hp.le
    · simp [h1, h2]

theorem toRat_pos_iff (d : Decimal) : 0 < d.toRat ↔ 0 < d.value := by
  have hp : (0 : ℚ) < (10 : ℚ) ^ d.exp := by positivity
  simp only [toRat]
  constructor
  · intro h
    have := (mul_pos_iff_of_pos_right hp).mp h
    exact_mod_cast this
  · intro h
    exact mul_pos (by exact_mod_cast h) hp

end Decimal

/-! ## Validation order -/

theorem validateItems_first (pre : List OrderItemInput) (it : OrderItemInput)
    (post : List OrderItemInput) (hpre : ∀ x ∈ pre, x.ProductID ≠ "" ∧ 0 < x.Quantity)
    (hit : it.ProductID = "" ∨ it.Quantity ≤ 0) :
    validateItems (pre ++ it :: post) =
      some (if it.ProductID = "" then errors.New "product id is required"
        else errors.New "quantity must be positive") := by
  induction pre with
  | nil =>
    simp only [List.nil_append, validateItems]
    by_cases h : it.ProductID = ""
    · simp [h]
    · have hq : it.Quantity ≤ 0 := hit.resolve_left h
      simp [h, hq]
  | cons x pre ih =>
    have hx := hpre x (List.mem_cons_self _ _)
    have hq : ¬ x.Quantity ≤ 0 := not_le.mpr hx.2
    simp only [List.cons_append, validateItems, hx.1, hq, if_false]
    exact ih (fun y hy => hpre y (List.mem_cons_of_mem _ hy))

/-! ## The errors of `OrderService.Create` -/

theorem Create_memory_errors (userID : String) (items : List OrderItemInput)
    (r : MemoryRepository) (o : Option Order) (e : GoError) (r' : MemoryRepository)
    (h : memoryOrderService.Create userID items r = some ((o, some e), r')) :
    e ∈ validationErrors ∨ e = errors.New "user not found" ∨
      e = errors.New "product not found" ∨ e = errors.New "insufficient stock" := by
  by_cases hinv : userID = "" ∨ items = [] ∨ ∃ it ∈ items, it.ProductID = "" ∨ it.Quantity ≤ 0
  · obtain ⟨e1, he1, h1⟩ := Create_rejects memoryOrderService userID items r hinv
    rw [h1] at h
    simp only [Option.some.injEq, Prod.mk.injEq] at h
    obtain ⟨⟨_, rfl⟩, _⟩ := h
    exact Or.inl he1
  · have hv := validated_of_not_invalid hinv
    cases hm : r.mu with
    | true =>
      rw [Create_memory_blocked userID items r hm hv] at h
      cases h
    | false =>
      cases hu : mapGet r.users userID with
      | none =>
        rw [Create_memory_no_user userID items r hm hv hu] at h
        simp only [Option.some.injEq, Prod.mk.injEq] at h
        obtain ⟨⟨_, rfl⟩, _⟩ := h
        exact Or.inr (Or.inl rfl)
      | some u =>
        obtain ⟨o1, e1, r1, h1, _, _, _, he, _⟩ := Create_memory_outcome userID items r hm hv u hu
        rw [h1] at h
        simp only [Option.some.injEq, Prod.mk.injEq] at h
        obtain ⟨⟨_, rfl⟩, _⟩ := h
        rcases he with he | he | he
        · cases he
        · exact Or.inr (Or.inr (Or.inl (Option.some.inj he)))
        · exact Or.inr (Or.inr (Or.inr (Option.some.inj he)))

/-! ## The lock set -/

theorem mem_firstOccurrences (l : List String) (x : String) :
    x ∈ firstOccurrences l ↔ x ∈ l := by
  induction l with
  | nil => simp [firstOccurrences]
  | cons a t ih =>
    simp only [firstOccurrences, List.mem_cons, List.mem_filter, ih, decide_eq_true_eq]
    by_cases h : x = a
    · simp [h]
    · simp [h]

theorem firstOccurrences_nodup (l : List String) : (firstOccurrences l).Nodup := by
  induction l with
  | nil => simp [firstOccurrences]
  | cons a t ih =>
    simp only [firstOccurrences, List.nodup_cons]
    exact ⟨by simp [List.mem_filter], ih.filter _⟩

theorem collectIDs_eq (items : List OrderItemInput) (unique : List (String × Unit))
    (ids : List String) (hinv : ∀ x, mapGet unique x ≠ none ↔ x ∈ ids) :
    collectIDs items unique ids =
      ids ++ (firstOccurrences (items.map (fun it => it.ProductID))).filter
        (fun y => decide (y ∉ ids)) := by
  induction items generalizing unique ids with
  | nil => simp [collectIDs, firstOccurrences]
  | cons it rest ih =>
    unfold collectIDs
    split
    · rename_i u hu
      have hmem : it.ProductID ∈ ids := (hinv _).mp (by simp [hu])
      rw [ih unique ids hinv]
      congr 1
      simp only [List.map_cons, firstOccurrences, List.filter_cons, hmem, not_true_eq_false,
        decide_False, Bool.false_eq_true, if_false, List.filter_filter]
      apply List.filter_congr
      intro y _
      by_cases hy : y ∈ ids
      · simp [hy]
      · have : y ≠ it.ProductID := fun e => hy (e ▸ hmem)
        simp [hy, this]
    · rename_i hu
      have hnm : it.ProductID ∉ ids := fun hm => (hinv _).mpr hm hu
      rw [ih (mapSet unique it.ProductID ()) (ids ++ [it.ProductID])]
      · simp only [List.map_cons, firstOccurrences, List.filter_cons, hnm, not_false_eq_true,
          decide_True, if_true, List.filter_filter, List.append_assoc, List.singleton_append]
        congr 2
        apply List.filter_congr
        intro y _
        by_cases hy : y = it.ProductID
        · simp [hy]
        · simp [hy]
      · intro y
        rw [mapGet_mapSet]
        by_cases hy : y = it.ProductID
        · simp [hy]
        · simp [hy, hinv y]

theorem collectIDs_firstOccurrences (items : List OrderItemInput) :
    collectIDs items [] [] = firstOccurrences (items.map (fun it => it.ProductID)) := by
  rw [collectIDs_eq items [] [] (by simp [mapGet])]
  simp

theorem Create_memory_log (userID : String) (items : List OrderItemInput) (r : MemoryRepository)
    (hmu : r.mu = false) (hv : Validated userID items) (u : User)
    (hu : mapGet r.users userID = some u) :
    ∃ res r' tail, memoryOrderService.Create userID items r = some (res, r') ∧
      r'.calls = r.calls ++ [Invocation.GetByID userID, Invocation.WithTx,
        Invocation.GetByIDsForUpdate (Tx.memoryTx true) (collectIDs items [] [])] ++ tail ∧
      ∀ c ∈ tail, c.isGetByIDsForUpdate = false := by
  rw [Create_memory userID items r hmu hv u hu]
  split_ifs with hc
  · exact ⟨_, _, [], rfl, by simp, by simp⟩
  · obtain ⟨res, r2, hl⟩ := itemLoop_total
      (buildProductMap ((collectIDs items [] []).filterMap (mapGet r.products)) []) items
      Decimal.Zero []
      { r with
        mu := true
        calls := r.calls ++ [Invocation.GetByID userID, Invocation.WithTx,
          Invocation.GetByIDsForUpdate (Tx.memoryTx true) (collectIDs items [] [])] }
    obtain ⟨⟨f1, f2, f3, f4, f5, f6, ⟨new, f7, f8⟩, f9⟩, hn, he⟩ := itemLoop_frame _ _ _ _ _ _ _ hl
    rw [hl]
    obtain ⟨e, t, ois⟩ := res
    have hnew : ∀ c ∈ new, c.isGetByIDsForUpdate = false := by
      intro c hc
      have := f8 c hc
      cases c <;> simp_all [Invocation.isUpdateQuantity, Invocation.isGetByIDsForUpdate]
    cases e with
    | some err => exact ⟨_, _, new, rfl, f7, hnew⟩
    | none =>
      simp only
      obtain ⟨o, r3, hco, g1, g2, g3, g4⟩ := MemoryRepository.CreateOrder_tx
        ⟨"", userID, 0, t, ois⟩ ois r2
      rw [hco]
      refine ⟨_, _, new ++ [Invocation.CreateOrder (Tx.memoryTx true) ⟨"", userID, 0, t, ois⟩ ois],
        rfl, ?_, ?_⟩
      · simp only [g4, f7, List.append_assoc]
      · intro c hc
        rcases List.mem_append.mp hc with hc | hc
        · exact hnew c hc
        · rw [List.mem_singleton.mp hc]
          rfl

/-! ## Registration -/

theorem Register_short_password {σ : Type} (s : UserService σ)
    (hash : String → String × Option GoError) (input : RegisterInput) (w : σ)
    (hage : 18 ≤ input.Age) (hlen : input.Password.utf8ByteSize < 8) :
    s.Register hash input w =
      some ((none, some (errors.New "password must be at least 8 characters")), w) := by
  simp [UserService.Register, not_lt.mpr hage, hlen]

theorem Register_weak_password :
    (UserService.mk memoryUsers).Register sampleHash weakPasswordInput emptyStore =
      some ((none, some (errors.New "password must be at least 8 characters")), emptyStore) :=
  Register_short_password _ _ _ _ (by decide) (by decide)

/-! ## The result of `Create` after the transaction -/

theorem Create_after_WithTx {σ : Type} (s : OrderService σ) (userID : String)
    (items : List OrderItemInput) (w w1 w2 : σ) (u : User) (err : Option GoError)
    (created : Option Order) (hv : Validated userID items)
    (hu : s.users.GetByID userID w = some ((some u, none), w1))
    (ht : s.tx.WithTx (s.createTx userID items) none w1 = some ((err, created), w2)) :
    s.Create userID items w = some ((created, err), w2) := by
  obtain ⟨h1, h2, h3⟩ := hv
  have hl : ¬ items.length = 0 := fun h => h2 (List.length_eq_zero.mp h)
  simp only [OrderService.Create, h1, hl, if_false, validateItems_eq_none h3, hu, ht]

/-! ## Decimal strings -/

namespace Decimal

theorem digitChar_spec (k : Nat) (h : k < 10) :
    (Nat.digitChar k).isDigit = true ∧ (Nat.digitChar k).toNat - 48 = k := by
  interval_cases k <;> exact ⟨by decide, by decide⟩

theorem parseDigits_append (xs ys : List Char) (a : Nat) :
    parseDigits (xs ++ ys) a = (parseDigits xs a).bind (parseDigits ys) := by
  induction xs generalizing a with
  | nil => simp [parseDigits]
  | cons c cs ih =>
    simp only [List.cons_append, parseDigits]
    split_ifs
    · exact ih _
    · rfl

theorem toDigitsCore_spec (fuel n : Nat) (ds : List Char) (h : n < fuel) :
    ∃ L, Nat.toDigitsCore 10 fuel n ds = L ++ ds ∧ L ≠ [] ∧ (∀ c ∈ L, c.isDigit = true) ∧
      ∀ a, parseDigits L a = some (a * 10 ^ L.length + n) := by
  induction fuel generalizing n ds with
  | zero => omega
  | succ fuel ih =>
    have hd := digitChar_spec (n % 10) (Nat.mod_lt _ (by decide))
    simp only [Nat.toDigitsCore]
    by_cases h0 : n / 10 = 0
    · simp only [h0, if_true]
      refine ⟨[Nat.digitChar (n % 10)], rfl, by simp, ?_, ?_⟩
      · intro c hc
        rw [List.mem_singleton.mp hc]
        exact hd.1
      · intro a
        simp only [parseDigits, hd.1, if_true, hd.2, List.length_singleton, pow_one]
        congr 1
        omega
    · simp only [h0, if_false]
      obtain ⟨L, hL, hne, hdig, hparse⟩ := ih (n / 10) (Nat.digitChar (n % 10) :: ds) (by omega)
      refine ⟨L ++ [Nat.digitChar (n % 10)], by rw [hL]; simp, by simp, ?_, ?_⟩
      · intro c hc
        rcases List.mem_append.mp hc with hc | hc
        · exact hdig c hc
        · rw [List.mem_singleton.mp hc]
          exact hd.1
      · intro a
        rw [parseDigits_append, hparse]
        simp only [Option.some_bind, parseDigits, hd.1, if_true, hd.2, List.length_append,
          List.length_singleton, pow_succ]
        congr 1
        have := Nat.div_add_mod n 10
        nlinarith [this]

theorem toString_spec (n : Nat) :
    (toString n).data ≠ [] ∧ (∀ c ∈ (toString n).data, c.isDigit = true) ∧
      parseDigits (toString n).data 0 = some n := by
  obtain ⟨L, hL, hne, hdig, hparse⟩ := toDigitsCore_spec (n + 1) n [] (by omega)
  have e : (toString n).data = L := by
    show Nat.toDigitsCore 10 (n + 1) n [] = L
    rw [hL, List.append_nil]
  rw [e]
  exact ⟨hne, hdig, by rw [hparse]; simp⟩

theorem parseDigits_zeros (k : Nat) (xs : List Char) :
    parseDigits (List.replicate k '0' ++ xs) 0 = parseDigits xs 0 := by
  induction k with
  | zero => rfl
  | succ k ih =>
    simp only [List.replicate_succ, List.cons_append, parseDigits]
    exact ih

theorem splitPoint_append (a b : List Char) (h : '.' ∉ a) :
    splitPoint (a ++ '.' :: b) = (a, some b) := by
  induction a with
  | nil => simp [splitPoint]
  | cons c cs ih =>
    have hc : c ≠ '.' := fun e => h (e ▸ List.mem_cons_self _ _)
    have := ih (fun hm => h (List.mem_cons_of_mem _ hm))
    simp [splitPoint, hc, this]

theorem isDigit_ne {c : Char} (h : c.isDigit = true) :
    c ≠ '.' ∧ c ≠ '-' ∧ c ≠ '+' ∧ c ≠ 'e' ∧ c ≠ 'E' := by
  refine ⟨?_, ?_, ?_, ?_, ?_⟩ <;> (rintro rfl; exact absurd h (by decide))

end Decimal

namespace Decimal

theorem string_hundredths (v : Int) :
    ∃ ip fr : List Char, ip ≠ [] ∧ (∀ c ∈ ip, c.isDigit = true) ∧ (∀ c ∈ fr, c.isDigit = true) ∧
      fr.length = 2 ∧ parseDigits (ip ++ fr) 0 = some v.natAbs ∧
      string ⟨v, -2⟩ = String.mk (if v < 0 then '-' :: (ip ++ '.' :: fr) else ip ++ '.' :: fr) := by
  obtain ⟨hne, hdig, hparse⟩ := toString_spec v.natAbs
  have hlen : 0 < (toString v.natAbs).data.length := List.length_pos.mpr hne
  by_cases hl : (toString v.natAbs).data.length > 2
  · refine ⟨(toString v.natAbs).data.take ((toString v.natAbs).data.length - 2),
      (toString v.natAbs).data.drop ((toString v.natAbs).data.length - 2), ?_, ?_, ?_, ?_, ?_, ?_⟩
    · intro h
      have := congrArg List.length h
      rw [List.length_take, List.length_nil] at this
      omega
    · intro c hc
      exact hdig c (List.mem_of_mem_take hc)
    · intro c hc
      exact hdig c (List.mem_of_mem_drop hc)
    · rw [List.length_drop]
      omega
    · rw [List.take_append_drop]
      exact hparse
    · have h2 : ((toString v.natAbs).data.drop ((toString v.natAbs).data.length - 2)).length > 0 := by
        rw [List.length_drop]
        omega
      simp only [string, show ¬ (0 : Int) ≤ -2 by decide, if_false,
        show (-(-2 : Int)).toNat = 2 by decide, hl, if_true, h2]
  · refine ⟨['0'], List.replicate (2 - (toString v.natAbs).data.length) '0' ++
      (toString v.natAbs).data, by simp, ?_, ?_, ?_, ?_, ?_⟩
    · intro c hc
      rw [List.mem_singleton.mp hc]
      decide
    · intro c hc
      rcases List.mem_append.mp hc with hc | hc
      · rw [(List.mem_replicate.mp hc).2]
        decide
      · exact hdig c hc
    · rw [List.length_append, List.length_replicate]
      omega
    · show parseDigits (List.replicate 1 '0' ++ _) 0 = _
      rw [parseDigits_zeros, parseDigits_zeros]
      exact hparse
    · have h2 : (List.replicate (2 - (toString v.natAbs).data.length) '0' ++
          (toString v.natAbs).data).length > 0 := by
        rw [List.length_append, List.length_replicate]
        omega
      simp only [string, show ¬ (0 : Int) ≤ -2 by decide, if_false,
        show (-(-2 : Int)).toNat = 2 by decide, hl, h2, if_true]

theorem splitExponent_none (cs : List Char) (h : ∀ c ∈ cs, c ≠ 'e' ∧ c ≠ 'E') :
    splitExponent cs = (cs, none) := by
  induction cs with
  | nil => rfl
  | cons c cs ih =>
    have hc := h c (List.mem_cons_self _ _)
    have := ih (fun x hx => h x (List.mem_cons_of_mem _ hx))
    simp [splitExponent, hc.1, hc.2, this]

theorem NewFromString_string (v : Int) : NewFromString (string ⟨v, -2⟩) = some ⟨v, -2⟩ := by
  obtain ⟨ip, fr, hne, hip, hfr, hlen, hparse, hs⟩ := string_hundredths v
  have hfrp : '.' ∉ fr := fun h => (isDigit_ne (hfr _ h)).1 rfl
  have hipp : '.' ∉ ip := fun h => (isDigit_ne (hip _ h)).1 rfl
  have hcat : ip ++ fr ≠ [] := by simp [hne]
  have hexp : ¬ ((0 : Int) - (2 : Nat) < -2147483648 ∨ (0 : Int) - (2 : Nat) > 2147483647) := by
    decide
  rw [hs]
  by_cases hv : v < 0
  · have hany : splitExponent ('-' :: (ip ++ '.' :: fr)) = ('-' :: (ip ++ '.' :: fr), none) := by
      apply splitExponent_none
      intro c hc
      simp only [List.mem_cons, List.mem_append] at hc
      rcases hc with rfl | hc | rfl | hc
      · decide
      · exact ⟨(isDigit_ne (hip c hc)).2.2.2.1, (isDigit_ne (hip c hc)).2.2.2.2⟩
      · decide
      · exact ⟨(isDigit_ne (hfr c hc)).2.2.2.1, (isDigit_ne (hfr c hc)).2.2.2.2⟩
    have hsp : splitPoint ('-' :: (ip ++ '.' :: fr)) = ('-' :: ip, some fr) := by
      have := splitPoint_append ('-' :: ip) fr (by
        intro h
        rcases List.mem_cons.mp h with h | h
        · exact absurd h (by decide)
        · exact hipp h)
      simpa using this
    simp only [NewFromString, hv, if_true, hany, hsp, hfrp, if_false, fromParts,
      List.cons_append, parseInt, hcat, hparse, Option.map_some', hlen, hexp]
    rw [Int.ofNat_natAbs_of_nonpos hv.le, neg_neg]
    rfl
  · obtain ⟨c, rest, hip2⟩ := List.exists_cons_of_ne_nil hne
    have hc := isDigit_ne (hip c (hip2 ▸ List.mem_cons_self _ _))
    have hany : splitExponent (ip ++ '.' :: fr) = (ip ++ '.' :: fr, none) := by
      apply splitExponent_none
      intro c hc
      simp only [List.mem_cons, List.mem_append] at hc
      rcases hc with hc | rfl | hc
      · exact ⟨(isDigit_ne (hip c hc)).2.2.2.1, (isDigit_ne (hip c hc)).2.2.2.2⟩
      · decide
      · exact ⟨(isDigit_ne (hfr c hc)).2.2.2.1, (isDigit_ne (hfr c hc)).2.2.2.2⟩
    have hsp := splitPoint_append ip fr hipp
    have hpi : parseInt (ip ++ fr) = some (v.natAbs : Int) := by
      rw [hip2] at hparse ⊢
      simp only [List.cons_append, parseInt, hc.2.1, hc.2.2.1, if_false] at hparse ⊢
      rw [hparse]
      rfl
    simp only [NewFromString, hv, if_false, hany, hsp, hfrp, fromParts, hpi, hlen, hexp]
    rw [Int.natAbs_of_nonneg (not_lt.mp hv)]
    rfl

theorem Round_exp (d : Decimal) (places : Int) : (d.Round places).exp = -places := by
  unfold Round
  split_ifs with h
  · exact h
  · simp only [rescale]
    split_ifs <;> simp_all

theorem NewFromString_StringFixed (d : Decimal) : NewFromString (d.StringFixed 2) = some (d.Round 2) := by
  have h := Round_exp d 2
  have e : d.Round 2 = ⟨(d.Round 2).value, -2⟩ := by
    cases hr : d.Round 2 with
    | mk v x =>
      rw [hr] at h
      simp only at h
      rw [h]
  unfold StringFixed
  rw [e]
  exact NewFromString_string _

end Decimal

namespace Decimal

theorem rescale_exp (d : Decimal) (e : Int) : (d.rescale e).exp = e := by
  simp only [rescale]
  split_ifs <;> simp_all

theorem Round_of_tenfold (d : Decimal) (k : Int) (hne : d.exp ≠ -2)
    (h : (d.rescale (-3)).value = 10 * k) : d.Round 2 = ⟨k, -2⟩ := by
  have hx : (d.rescale (-2 - 1)).exp + 1 = -2 := by
    rw [rescale_exp]
    rfl
  have hv : (d.rescale (-2 - 1)).value = 10 * k := h
  simp only [Round, hne, if_false, hx, hv]
  congr 1
  have e1 : ∀ x : Int, Int.ediv x 10 = x / 10 := fun _ => rfl
  have e2 : ∀ x : Int, Int.emod x 10 = x % 10 := fun _ => rfl
  simp only [e1, e2]
  by_cases hk : 10 * k < 0
  · simp only [hk, if_true]
    have h1 : (10 * k - 5) / 10 = k - 1 := by omega
    have h2 : (10 * k - 5) % 10 = 5 := by omega
    rw [h1, h2]
    have h3 : k - 1 < 0 := by omega
    simp [h3]
  · simp only [hk, if_false]
    have h1 : (10 * k + 5) / 10 = k := by omega
    rw [h1]
    have h3 : ¬ k < 0 := by omega
    simp [h3]

theorem toRat_hundredths (v : Int) : (Decimal.mk v (-2)).toRat = (v : ℚ) / 100 := by
  simp only [toRat]
  norm_num
  ring

theorem Round_exact_iff (d : Decimal) :
    (d.Round 2).toRat = d.toRat ↔ ∃ k : Int, d.toRat = (k : ℚ) / 100 := by
  constructor
  · intro h
    refine ⟨(d.Round 2).value, ?_⟩
    rw [← h]
    have he := Round_exp d 2
    cases hr : d.Round 2 with
    | mk v x =>
      rw [hr] at he
      simp only at he
      rw [he]
      exact toRat_hundredths v
  · rintro ⟨k, hk⟩
    by_cases h2 : d.exp = -2
    · simp [Round, h2]
    by_cases hgt : -2 < d.exp
    · have hr : d.Round 2 = d.rescale (-2) := by
        have hval : (d.rescale (-3)).value = 10 * (d.value * 10 ^ (d.exp + 2).toNat) := by
          have h3 : ¬ d.exp = -3 := by omega
          have h4 : ¬ -3 > d.exp := by omega
          simp only [rescale, h3, h4, if_false]
          have : (d.exp - -3).toNat = (d.exp + 2).toNat + 1 := by omega
          rw [this, pow_succ]
          ring
        rw [Round_of_tenfold d _ h2 hval]
        have h4 : ¬ -2 > d.exp := by omega
        simp only [rescale, h2, h4, if_false]
        congr 2
      rw [hr]
      exact toRat_rescale_down d (-2) hgt.le
    · have hle : d.exp ≤ -3 := by omega
      obtain ⟨m, hm⟩ : ∃ m : Nat, d.exp = -((3 + m : Nat) : Int) :=
        ⟨(-3 - d.exp).toNat, by omega⟩
      have hq : (d.value : ℚ) * 100 = (k : ℚ) * 10 ^ (3 + m) := by
        have := hk
        simp only [toRat, hm, zpow_neg, zpow_natCast] at this
        field_simp at this
        linarith
      have hz : d.value = 10 * k * 10 ^ m := by
        have h1 : d.value * 100 = k * 10 ^ (3 + m) := by exact_mod_cast hq
        have h2 : d.value * 100 = (10 * k * 10 ^ m) * 100 := by
          rw [h1, pow_add]
          ring
        exact mul_right_cancel₀ (by norm_num) h2
      have hval : (d.rescale (-3)).value = 10 * k := by
        simp only [rescale]
        split_ifs with h3 h4
        · have : m = 0 := by omega
          rw [hz, this]
          simp
        · have : (-3 - d.exp).toNat = m := by omega
          rw [this, hz]
          exact Int.mul_tdiv_cancel _ (by positivity)
        · omega
      rw [Round_of_tenfold d k h2 hval, toRat_hundredths]
      exact hk.symm

end Decimal

theorem denotes_StringFixed (d : Decimal) : denotes (d.StringFixed 2) = some (d.Round 2).toRat := by
  simp only [denotes, Decimal.NewFromString_StringFixed, Option.map_some']

theorem ProductService_Create_memory (input : CreateProductInput) (r : MemoryRepository)
    (hmu : r.mu = false) (h1 : input.Description ≠ "") (h2 : 0 ≤ input.Quantity)
    (h3 : 0 < input.Price.toRat) :
    ∃ p r', memoryProductService.Create input r = some ((some p, none), r') ∧
      p.Description = input.Description ∧ p.Quantity = input.Quantity ∧
      p.Price = input.Price ∧ mapGet r'.products p.ID = some p := by
  have h4 : ¬ input.Price.LessThanOrEqual Decimal.Zero = true := by
    rw [Decimal.LessThanOrEqual_Zero]
    exact not_le.mpr ((Decimal.toRat_pos_iff _).mp h3)
  simp only [ProductService.Create, h1, not_lt.mpr h2, h4, if_false, memoryProductService,
    memoryProducts, MemoryRepository.CreateProduct, MemoryRepository.lock,
    MemoryRepository.record, hmu, Bool.false_eq_true, if_true, MemoryRepository.nextID,
    MemoryRepository.timeNow, MemoryRepository.unlock]
  refine ⟨_, _, rfl, rfl, rfl, rfl, ?_⟩
  simp [mapGet_mapSet_self]

theorem Handler_CreateProduct_created (req : CreateProductRequest) (r : MemoryRepository)
    (d : Decimal) (hmu : r.mu = false) (hp : Decimal.NewFromString req.Price = some d)
    (hpos : 0 < d.toRat) (hd : strings.TrimSpace req.Description ≠ "")
    (hq : 0 ≤ req.Quantity) :
    ∃ p r', memoryHandler.CreateProduct req r =
        some ((201, Sum.inr (toProductResponse p)), r') ∧
      p.Price = d ∧ mapGet r'.products p.ID = some p := by
  obtain ⟨p, r', hc, _, _, hprice, hget⟩ := ProductService_Create_memory
    ⟨strings.TrimSpace req.Description, req.Tags, req.Quantity, d⟩ r hmu hd hq hpos
  refine ⟨p, r', ?_, hprice, hget⟩
  simp only [Handler.CreateProduct, hp, memoryHandler, hc]

/-! ## Concurrent calls of `Create` -/

theorem Create_eq_sections {σ : Type} (s : OrderService σ) (userID : String)
    (items : List OrderItemInput) (w : σ) :
    s.Create userID items w = (Goroutine.entry userID items).runAlone s w := by
  unfold OrderService.Create Goroutine.runAlone
  simp only [Goroutine.step]
  split_ifs with h1 h2
  · rfl
  · rfl
  · cases hv : validateItems items with
    | some err => rfl
    | none =>
      simp only
      cases hg : s.users.GetByID userID w with
      | none => rfl
      | some x =>
        obtain ⟨⟨u, e⟩, w1⟩ := x
        cases u with
        | none => cases e <;> rfl
        | some usr =>
          cases e with
          | some err => rfl
          | none =>
            simp only [Goroutine.step]
            cases ht : s.tx.WithTx (s.createTx userID items) none w1 with
            | none => rfl
            | some y =>
              obtain ⟨⟨err, created⟩, w2⟩ := y
              rfl

theorem entry_step_memory (userID : String) (items : List OrderItemInput)
    (r : MemoryRepository) (hmu : r.mu = false) (hv : Validated userID items) (u : User)
    (hu : mapGet r.users userID = some u) :
    (Goroutine.entry userID items).step memoryOrderService r =
      some (Goroutine.beforeTx userID items, r.record (Invocation.GetByID userID)) := by
  obtain ⟨h1, h2, h3⟩ := hv
  have hval := validateItems_eq_none h3
  obtain ⟨mu, users, products, orders, ug, ugCalls, clock, clockCalls, calls⟩ := r
  simp only at hmu hu
  subst hmu
  simp [Goroutine.step, h1, h2, hval, memoryOrderService, memoryUsers,
    MemoryRepository.GetByID, MemoryRepository.lock, MemoryRepository.unlock,
    MemoryRepository.record, hu]

theorem tx_step_single (userID pid : String) (r : MemoryRepository) (p : Product)
    (hmu : r.mu = false) (hwf : r.WellFormed) (hp : mapGet r.products pid = some p) :
    (1 ≤ p.Quantity → ∃ o r' p',
      (Goroutine.beforeTx userID [⟨pid, 1⟩]).step memoryOrderService r =
        some (Goroutine.returned (some o) none, r') ∧
      o.ID = r.ug r.ugCalls ∧ r'.mu = false ∧ r'.users = r.users ∧ r'.ug = r.ug ∧
      r.ugCalls < r'.ugCalls ∧ r'.products = mapSet r.products pid p' ∧ p'.ID = pid ∧
      p'.Quantity = p.Quantity - 1) ∧
    (p.Quantity < 1 → ∃ r',
      (Goroutine.beforeTx userID [⟨pid, 1⟩]).step memoryOrderService r =
        some (Goroutine.returned none (some (errors.New "insufficient stock")), r') ∧
      r'.mu = false ∧ r'.users = r.users ∧ r'.ug = r.ug ∧ r'.ugCalls = r.ugCalls ∧
      r'.products = r.products) := by
  obtain ⟨hid, hint⟩ := hwf pid p hp
  obtain ⟨mu, users, products, orders, ug, ugCalls, clock, clockCalls, calls⟩ := r
  simp only at hmu hp
  subst hmu
  have hw1 : wrapInt (-1) = -1 := by decide
  constructor
  · intro hge
    have hlt : ¬ p.Quantity < 1 := not_lt.mpr hge
    have hw2 : wrapInt (p.Quantity + -1) = p.Quantity - 1 := by
      rw [wrapInt_of_isInt]
      · ring
      · unfold isInt at hint ⊢
        omega
    have hw3 : ¬ p.Quantity - 1 < 0 := by omega
    simp [Goroutine.step, memoryOrderService, memoryTxManager, memoryProducts, memoryOrders,
      MemoryRepository.WithTx, OrderService.createTx, collectIDs, mapGet, mapSet,
      MemoryRepository.GetByIDsForUpdate, MemoryRepository.lock, MemoryRepository.unlock,
      MemoryRepository.record, hp, buildProductMap, itemLoop, hid, hlt,
      MemoryRepository.UpdateQuantity, hw1, hw2, hw3, MemoryRepository.timeNow,
      MemoryRepository.CreateOrder, MemoryRepository.nextID, MemoryRepository.stampItems]
    exact ⟨_, _, ⟨rfl, rfl⟩, rfl, rfl, rfl, rfl, by show ugCalls < ugCalls + 1 + 1; omega,
      _, rfl, rfl, rfl⟩
  · intro hlt
    simp [Goroutine.step, memoryOrderService, memoryTxManager, memoryProducts, memoryOrders,
      MemoryRepository.WithTx, OrderService.createTx, collectIDs, mapGet, mapSet,
      MemoryRepository.GetByIDsForUpdate, MemoryRepository.lock, MemoryRepository.unlock,
      MemoryRepository.record, hp, buildProductMap, itemLoop, hid, hlt]

theorem getElem?_set_split {α : Type} (l : List α) (i : Nat) (a b : α) (h : l[i]? = some a) :
    ∃ l1 l2, l = l1 ++ a :: l2 ∧ l.set i b = l1 ++ b :: l2 ∧ l1.length = i := by
  induction l generalizing i with
  | nil => simp at h
  | cons x t ih =>
    cases i with
    | zero =>
      simp only [List.getElem?_cons_zero, Option.some.injEq] at h
      subst h
      exact ⟨[], t, rfl, rfl, rfl⟩
    | succ j =>
      simp only [List.getElem?_cons_succ] at h
      obtain ⟨l1, l2, h1, h2, h3⟩ := ih j h
      refine ⟨x :: l1, l2, by rw [h1]; rfl, by rw [List.set_cons_succ, h2]; rfl, by simp [h3]⟩

theorem race_step (userID pid : String) (ug : Nat → String) (u : User) (Q : Nat)
    (l1 l2 : List Goroutine) (g : Goroutine) (r : MemoryRepository)
    (huid : userID ≠ "") (hpid : pid ≠ "") (hug : Function.Injective ug)
    (hinv : RaceInvariant userID pid ug u Q (l1 ++ g :: l2) r) :
    ∃ g1 r1, g.step memoryOrderService r = some (g1, r1) ∧
      RaceInvariant userID pid ug u Q (l1 ++ g1 :: l2) r1 ∧
      g1.remaining = g.remaining - 1 := by
  obtain ⟨hmu, hwf, hu, hugr, hgs, hnd, p, hp, hp0, hsum, hconf⟩ := hinv
  have hv : Validated userID [⟨pid, 1⟩] := ⟨huid, by simp, by simp [hpid]⟩
  have hg := hgs g (by simp)
  have hl1 : ∀ x ∈ l1, x ∈ l1 ++ g :: l2 := fun x hx => by simp [hx]
  have hl2 : ∀ x ∈ l2, x ∈ l1 ++ g :: l2 := fun x hx => by simp [hx]
  rcases hg with rfl | rfl | ⟨o, k, rfl, hok, hk⟩ | rfl
  · -- at the entry: the call of `GetByID`
    refine ⟨_, _, entry_step_memory userID _ r hmu hv u hu, ?_, rfl⟩
    refine ⟨hmu, hwf, hu, hugr, ?_, ?_, p, hp, hp0, ?_, ?_⟩
    · intro x hx
      rcases List.mem_append.mp hx with hx | hx
      · exact hgs x (hl1 x hx)
      · rcases List.mem_cons.mp hx with rfl | hx
        · exact Or.inr (Or.inl rfl)
        · exact hgs x (hl2 x hx)
    · simpa [List.filterMap_append, List.filterMap_cons, Goroutine.orderID] using hnd
    · simpa [List.filterMap_append, List.filterMap_cons, Goroutine.orderID] using hsum
    · rintro ⟨x, hx, hxc⟩
      apply hconf
      rcases List.mem_append.mp hx with hx | hx
      · exact ⟨x, hl1 x hx, hxc⟩
      · rcases List.mem_cons.mp hx with rfl | hx
        · simp [Goroutine.isConflict] at hxc
        · exact ⟨x, hl2 x hx, hxc⟩
  · -- before the transaction: the call of `WithTx`
    obtain ⟨hok, hfail⟩ := tx_step_single userID pid r p hmu hwf hp
    by_cases hq : 1 ≤ p.Quantity
    · obtain ⟨o, r', p', hs, hid, m1, m2, m3, m4, m5, m6, m7⟩ := hok hq
      refine ⟨_, _, hs, ?_, rfl⟩
      have hnoconf : ¬ ∃ x ∈ l1 ++ Goroutine.beforeTx userID [⟨pid, 1⟩] :: l2,
          x.isConflict = true := by
        intro hc
        have := hconf hc
        omega
      have hids : ∀ x ∈ l1 ++ l2, ∀ i, x.orderID = some i → i ≠ o.ID := by
        intro x hx i hi
        have hx' : x ∈ l1 ++ Goroutine.beforeTx userID [⟨pid, 1⟩] :: l2 := by
          rcases List.mem_append.mp hx with hx | hx
          · exact hl1 x hx
          · exact hl2 x hx
        rcases hgs x hx' with rfl | rfl | ⟨o', k, rfl, hok', hk⟩ | rfl
        · simp [Goroutine.orderID] at hi
        · simp [Goroutine.orderID] at hi
        · simp only [Goroutine.orderID, Option.some.injEq] at hi
          rw [← hi, hok', hid, hugr]
          intro hc
          have := hug hc
          omega
        · simp [Goroutine.orderID] at hi
      refine ⟨m1, ?_, m2 ▸ hu, m3.trans hugr, ?_, ?_, p', ?_, ?_, ?_, ?_⟩
      · intro k x hk
        rw [m5, mapGet_mapSet] at hk
        split_ifs at hk with hki
        · cases hk
          refine ⟨by rw [m6, hki], ?_⟩
          have := (hwf pid p hp).2
          unfold isInt at this ⊢
          omega
        · exact hwf k x hk
      · intro x hx
        rcases List.mem_append.mp hx with hx | hx
        · rcases hgs x (hl1 x hx) with h | h | ⟨o', k, h, h1, h2⟩ | h
          · exact Or.inl h
          · exact Or.inr (Or.inl h)
          · exact Or.inr (Or.inr (Or.inl ⟨o', k, h, h1, by omega⟩))
          · exact Or.inr (Or.inr (Or.inr h))
        · rcases List.mem_cons.mp hx with rfl | hx
          · exact Or.inr (Or.inr (Or.inl ⟨o, r.ugCalls, rfl, by rw [hid, hugr], m4⟩))
          · rcases hgs x (hl2 x hx) with h | h | ⟨o', k, h, h1, h2⟩ | h
            · exact Or.inl h
            · exact Or.inr (Or.inl h)
            · exact Or.inr (Or.inr (Or.inl ⟨o', k, h, h1, by omega⟩))
            · exact Or.inr (Or.inr (Or.inr h))
      · simp only [List.filterMap_append, List.filterMap_cons, Goroutine.orderID] at hnd ⊢
        rw [List.nodup_append] at hnd ⊢
        refine ⟨hnd.1, ?_, ?_⟩
        · rw [List.nodup_cons]
          refine ⟨?_, hnd.2.1⟩
          intro hm
          obtain ⟨x, hx, hxi⟩ := List.mem_filterMap.mp hm
          exact hids x (List.mem_append_right _ hx) _ hxi rfl
        · intro i hi1 hi2
          rcases List.mem_cons.mp hi2 with rfl | hi2
          · obtain ⟨x, hx, hxi⟩ := List.mem_filterMap.mp hi1
            exact hids x (List.mem_append_left _ hx) _ hxi rfl
          · exact hnd.2.2 hi1 hi2
      · rw [m5, mapGet_mapSet_self]
      · omega
      · simp only [List.filterMap_append, List.filterMap_cons, Goroutine.orderID,
          List.length_append, List.length_cons] at hsum ⊢
        rw [m7]
        push_cast at hsum ⊢
        omega
      · rintro ⟨x, hx, hxc⟩
        exfalso
        apply hnoconf
        rcases List.mem_append.mp hx with hx | hx
        · exact ⟨x, hl1 x hx, hxc⟩
        · rcases List.mem_cons.mp hx with rfl | hx
          · simp [Goroutine.isConflict] at hxc
          · exact ⟨x, hl2 x hx, hxc⟩
    · obtain ⟨r', hs, m1, m2, m3, m4, m5⟩ := hfail (not_le.mp hq)
      refine ⟨_, _, hs, ?_, rfl⟩
      refine ⟨m1, fun k x hk => hwf k x (m5 ▸ hk), m2 ▸ hu, m3.trans hugr, ?_, ?_, p,
        m5 ▸ hp, hp0, ?_, fun _ => by omega⟩
      · intro x hx
        rcases List.mem_append.mp hx with hx | hx
        · rcases hgs x (hl1 x hx) with h | h | ⟨o', k, h, h1, h2⟩ | h
          · exact Or.inl h
          · exact Or.inr (Or.inl h)
          · exact Or.inr (Or.inr (Or.inl ⟨o', k, h, h1, by omega⟩))
          · exact Or.inr (Or.inr (Or.inr h))
        · rcases List.mem_cons.mp hx with rfl | hx
          · exact Or.inr (Or.inr (Or.inr rfl))
          · rcases hgs x (hl2 x hx) with h | h | ⟨o', k, h, h1, h2⟩ | h
            · exact Or.inl h
            · exact Or.inr (Or.inl h)
            · exact Or.inr (Or.inr (Or.inl ⟨o', k, h, h1, by omega⟩))
            · exact Or.inr (Or.inr (Or.inr h))
      · simpa [List.filterMap_append, List.filterMap_cons, Goroutine.orderID] using hnd
      · simpa [List.filterMap_append, List.filterMap_cons, Goroutine.orderID] using hsum
  · exact ⟨_, _, rfl, ⟨hmu, hwf, hu, hugr, hgs, hnd, p, hp, hp0, hsum, hconf⟩, rfl⟩
  · exact ⟨_, _, rfl, ⟨hmu, hwf, hu, hugr, hgs, hnd, p, hp, hp0, hsum, hconf⟩, rfl⟩

theorem race_schedule (userID pid : String) (ug : Nat → String) (u : User) (Q : Nat)
    (huid : userID ≠ "") (hpid : pid ≠ "") (hug : Function.Injective ug) (sched : List Nat) :
    ∀ (gs : List Goroutine) (r : MemoryRepository), RaceInvariant userID pid ug u Q gs r →
    ∃ gs' r', runSchedule memoryOrderService sched gs r = some (gs', r') ∧
      gs'.length = gs.length ∧ RaceInvariant userID pid ug u Q gs' r' ∧
      ((∀ i g, gs[i]? = some g → g.remaining ≤ sched.count i) →
        ∀ g ∈ gs', g.remaining = 0) := by
  induction sched with
  | nil =>
    intro gs r hinv
    refine ⟨gs, r, rfl, rfl, hinv, ?_⟩
    intro h g hg
    obtain ⟨i, hi⟩ := List.mem_iff_getElem?.mp hg
    have := h i g hi
    simpa using this
  | cons i rest ih =>
    intro gs r hinv
    cases hgi : gs[i]? with
    | none =>
      obtain ⟨gs', r', h1, h2, h3, h4⟩ := ih gs r hinv
      refine ⟨gs', r', by simp only [runSchedule, hgi]; exact h1, h2, h3, ?_⟩
      intro h
      apply h4
      intro j g hj
      have hne : i ≠ j := by
        rintro rfl
        rw [hgi] at hj
        cases hj
      have := h j g hj
      rwa [List.count_cons_of_ne (Ne.symm hne)] at this
    | some g =>
      obtain ⟨l1, l2, e1, e2, e3⟩ := getElem?_set_split gs i g g hgi
      have hinv' := hinv
      rw [e1] at hinv'
      obtain ⟨g1, r1, hs, hinv1, hrem⟩ := race_step userID pid ug u Q l1 l2 g r huid hpid hug hinv'
      obtain ⟨l1', l2', f1, f2, f3⟩ := getElem?_set_split gs i g g1 hgi
      have hl : l1' = l1 ∧ l2' = l2 := by
        have := f1.symm.trans e1
        have hh := List.append_inj this (f3.trans e3.symm)
        exact ⟨hh.1, (List.cons.inj hh.2).2⟩
      rw [hl.1, hl.2] at f2
      rw [← f2] at hinv1
      obtain ⟨gs', r', h1, h2, h3, h4⟩ := ih (gs.set i g1) r1 hinv1
      refine ⟨gs', r', by simp only [runSchedule, hgi, hs]; exact h1,
        by rw [h2, List.length_set], h3, ?_⟩
      intro h
      apply h4
      intro j g' hj
      by_cases hij : i = j
      · subst hij
        have hlt : i < gs.length := by
          rcases Nat.lt_or_ge i gs.length with hlt | hge
          · exact hlt
          · rw [List.getElem?_eq_none hge] at hgi
            cases hgi
        rw [List.getElem?_set_self hlt] at hj
        cases hj
        have := h i g hgi
        rw [List.count_cons_self] at this
        omega
      · rw [List.getElem?_set_ne hij] at hj
        have := h j g' hj
        rwa [List.count_cons_of_ne (Ne.symm hij)] at this

theorem count_outcomes (gs : List Goroutine)
    (h : ∀ g ∈ gs, g.orderID ≠ none ∨ g.isConflict = true) :
    gs.length = (gs.filterMap Goroutine.orderID).length + gs.countP Goroutine.isConflict := by
  induction gs with
  | nil => rfl
  | cons g t ih =>
    have := ih (fun x hx => h x (List.mem_cons_of_mem _ hx))
    by_cases hc : g.isConflict = true
    · have hg : g = Goroutine.returned none (some (errors.New "insufficient stock")) := by
        simpa [Goroutine.isConflict] using hc
      have ho : g.orderID = none := by rw [hg]; rfl
      rw [List.filterMap_cons_none ho, List.countP_cons_of_pos _ _ hc, List.length_cons]
      omega
    · rcases h g (List.mem_cons_self _ _) with ho | ho
      · obtain ⟨i, hi⟩ := Option.ne_none_iff_exists'.mp ho
        rw [List.filterMap_cons_some hi, List.countP_cons_of_neg _ _ hc, List.length_cons,
          List.length_cons]
        omega
      · exact absurd ho hc

theorem sampleIDs_injective : Function.Injective (fun n : Nat => "id-" ++ toString n) := by
  intro a b h
  have h1 := congrArg String.data h
  simp only [String.data_append] at h1
  have h2 := List.append_cancel_left h1
  have ha := (Decimal.toString_spec a).2.2
  have hb := (Decimal.toString_spec b).2.2
  rw [h2, hb] at ha
  exact (Option.some.inj ha).symm

theorem remaining_eq_zero_iff (g : Goroutine) : g.remaining = 0 ↔ g.isReturned = true := by
  cases g <;> simp [Goroutine.remaining, Goroutine.isReturned]

theorem filterMap_orderID_replicate (n : Nat) (userID : String) (items : List OrderItemInput) :
    (List.replicate n (Goroutine.entry userID items)).filterMap Goroutine.orderID = [] := by
  induction n with
  | zero => rfl
  | succ n ih => simp [List.replicate_succ, List.filterMap_cons, Goroutine.orderID, ih]

/-! ## The claims -/

/-- C1 fails on the code.  Over `MemoryRepository`, `WithTx` runs the closure under the mutex
and returns its error without restoring anything.  In `sampleStore` (`p1`: 5, `p2`: 1) the order
`[(p1, 2), (p2, 3)]` fails with 'insufficient stock' at its second line, yet the quantity of `p1`
after the call is 3, not 5.  In `smallStore` (`p1`: 3) the order `[(p1, 2), (p1, 2)]` fails with
'insufficient stock' and leaves `p1` at 1. -/
theorem failed_order_keeps_earlier_decrements :
    (sampleStore.quantity "p1" = some 5 ∧
      (memoryOrderService.Create "u1" [⟨"p1", 2⟩, ⟨"p2", 3⟩] sampleStore).map
          (fun x => (x.1, x.2.quantity "p1", x.2.quantity "p2")) =
        some ((none, some (errors.New "insufficient stock")), some 3, some 1)) ∧
    (smallStore.quantity "p1" = some 3 ∧
      (memoryOrderService.Create "u1" [⟨"p1", 2⟩, ⟨"p1", 2⟩] smallStore).map
          (fun x => (x.1, x.2.quantity "p1")) =
        some ((none, some (errors.New "insufficient stock")), some 1)) :=
  ⟨⟨rfl, rfl⟩, ⟨rfl, rfl⟩⟩

/-- C2. Stock decrement on success.  For every call of `Create` over a well-formed
`MemoryRepository` (products stored under their own ids, quantities and requested quantities
Go `int` values) that returns a nil error: the quantity of every stored product after the call
is its quantity before the call minus the sum of the quantities of the line items that name it,
no product appears or disappears, and a product named by no line item keeps its quantity. -/
theorem create_success_decrements_stock (userID : String) (items : List OrderItemInput)
    (r : MemoryRepository) (o : Option Order) (r' : MemoryRepository)
    (hwf : r.WellFormed) (hint : ∀ it ∈ items, isInt it.Quantity)
    (h : memoryOrderService.Create userID items r = some ((o, none), r')) :
    (∀ k, r'.quantity k = (r.quantity k).map (fun q => q - demand items k)) ∧
    (∀ k, (∀ it ∈ items, it.ProductID ≠ k) → r'.quantity k = r.quantity k) := by
  have hmain : ∀ k, r'.quantity k = (r.quantity k).map (fun q => q - demand items k) := by
    by_cases hinv : userID = "" ∨ items = [] ∨ ∃ it ∈ items, it.ProductID = "" ∨ it.Quantity ≤ 0
    · obtain ⟨e1, _, h1⟩ := Create_rejects memoryOrderService userID items r hinv
      rw [h1] at h
      simp at h
    · have hv := validated_of_not_invalid hinv
      cases hmu : r.mu with
      | true =>
        rw [Create_memory_blocked userID items r hmu hv] at h
        cases h
      | false =>
        cases hu : mapGet r.users userID with
        | none =>
          rw [Create_memory_no_user userID items r hmu hv hu] at h
          simp at h
        | some u =>
          have hkey : r.KeyedByID := fun k p hk => (hwf k p hk).1
          by_cases hex : ∀ it ∈ items, mapGet r.products it.ProductID ≠ none
          · obtain ⟨res, r2, hl, hres⟩ := Create_memory_found userID items r hmu hv u hu hex
            rcases hres with ⟨err, h1, h2⟩ | ⟨h1, o1, r3, h2, h3⟩
            · rw [h2] at h
              simp at h
            · rw [h2] at h
              simp only [Option.some.injEq, Prod.mk.injEq] at h
              obtain ⟨_, hr⟩ := h
              subst hr
              obtain ⟨e, t, ois⟩ := res
              simp only at h1
              subst h1
              obtain ⟨c1, _, _⟩ := itemLoop_success _ _ _ _ _ _ _ _ (fun k p hk => by
                  rw [mapGet_snapshot items r hkey] at hk
                  split_ifs at hk
                  exact hkey k p hk)
                (fun it hit => ⟨(hv.2.2 it hit).2, hint it hit⟩)
                (fun k p p' hk hk' => by
                  rw [mapGet_snapshot items r hkey] at hk
                  split_ifs at hk
                  simp only at hk'
                  rw [hk] at hk'
                  cases hk'
                  exact ⟨(hwf k p hk).2, Or.inr rfl⟩) hl
              intro k
              have := c1 k
              unfold MemoryRepository.quantity at this ⊢
              rw [h3]
              exact this
          · push_neg at hex
            rw [Create_memory_missing userID items r hmu hv u hu hex] at h
            simp at h
  refine ⟨hmain, fun k hk => ?_⟩
  rw [hmain k]
  have hd : demand items k = 0 := by
    unfold demand
    rw [List.filter_eq_nil_iff.mpr (fun it hit => by simpa using hk it hit)]
    rfl
  rw [hd]
  cases r.quantity k <;> simp

theorem create_success_decrements_stock_witness :
    ∃ o r', memoryOrderService.Create "u1" [⟨"p1", 2⟩, ⟨"p1", 2⟩, ⟨"p2", 1⟩] sampleStore =
        some ((o, none), r') ∧
      r'.quantity "p1" = (sampleStore.quantity "p1").map
        (fun q => q - demand [⟨"p1", 2⟩, ⟨"p1", 2⟩, ⟨"p2", 1⟩] "p1") ∧
      r'.quantity "p1" = some 1 ∧ r'.quantity "p2" = some 0 := by
  refine ⟨_, _, rfl, ?_, rfl, rfl⟩
  exact (create_success_decrements_stock "u1" [⟨"p1", 2⟩, ⟨"p1", 2⟩, ⟨"p2", 1⟩] sampleStore _ _
    sampleStore_wellFormed (by simp [isInt]) rfl).1 "p1"

/-- C3. Non-negative stock invariant.  Start from the empty store, with any id generator and any
clock, and make any sequence of calls of `ProductService.Create`, `OrderService.Create` and
`MemoryRepository.UpdateQuantity` (and of `CreateUser`, without which no order can succeed), with
any arguments, one after another.  Every call returns, whether it succeeds or fails, and in the
state reached every stored product has `Quantity >= 0`. -/
theorem stock_never_negative (ug : Nat → String) (clock : Nat → Time) (ops : List Op) :
    ∃ r, runOps ops (NewMemoryRepository ug clock) = some r ∧
      ∀ k p, mapGet r.products k = some p → 0 ≤ p.Quantity := by
  obtain ⟨r, h, _, hn⟩ := runOps_invariant ops (NewMemoryRepository ug clock) rfl
    (fun k p hk => by simp [NewMemoryRepository, mapGet] at hk)
  exact ⟨r, h, hn⟩

/-- C4. Insufficient stock voids the whole order.  For every validated request by an existing
user, over a `MemoryRepository` that keeps each product under its own id (mutex free at the
call), in which every referenced product is stored and at least one line item asks for more than
the current quantity of its product: `Create` returns a nil order and the error
'insufficient stock', the order map is unchanged, and `CreateOrder` is not among the methods
invoked. -/
theorem create_insufficient_stock (userID : String) (items : List OrderItemInput)
    (r : MemoryRepository) (u : User) (hmu : r.mu = false) (hv : Validated userID items)
    (hu : mapGet r.users userID = some u) (hkey : r.KeyedByID)
    (hex : ∀ it ∈ items, mapGet r.products it.ProductID ≠ none)
    (hshort : ∃ it ∈ items, ∃ p, mapGet r.products it.ProductID = some p ∧
      p.Quantity < it.Quantity) :
    ∃ r', memoryOrderService.Create userID items r =
        some ((none, some (errors.New "insufficient stock")), r') ∧
      r'.orders = r.orders ∧
      ∃ new, r'.calls = r.calls ++ new ∧ ∀ c ∈ new, c.isCreateOrder = false := by
  obtain ⟨o, e, r', hc, _, _, _, hcases, herr⟩ := Create_memory_outcome userID items r hmu hv u hu
  obtain ⟨res, r2, hl, hres⟩ := Create_memory_found userID items r hmu hv u hu hex
  have hfound := itemLoop_found _ _ _ _ _ _ _ (fun it hit => by
      rw [mapGet_snapshot items r hkey, if_pos ⟨it, hit, rfl⟩]
      exact Option.ne_none_iff_exists'.mp (hex it hit)) (fun k p hk => by
      rw [mapGet_snapshot items r hkey] at hk
      split_ifs at hk with hki
      have := hkey k p hk
      simp only [this]
      rw [hk]
      simp) hl
  have hsh := itemLoop_shortfall _ _ _ _ _ _ _ (by
      obtain ⟨it, hit, p, hp, hlt⟩ := hshort
      refine ⟨it, hit, p, ?_, hlt⟩
      rw [mapGet_snapshot items r hkey, if_pos ⟨it, hit, rfl⟩]
      exact hp) hl
  rcases hres with ⟨err, h1, h2⟩ | ⟨h1, _⟩
  · rw [h2] at hc
    simp only [Option.some.injEq, Prod.mk.injEq] at hc
    obtain ⟨⟨ho, he⟩, hr⟩ := hc
    subst ho he hr
    have herr' := herr (by simp)
    rw [h1] at hfound
    rcases hcases with h | h | h
    · cases h
    · exact absurd h hfound
    · simp only [Option.some.injEq] at h
      subst h
      exact ⟨_, h2, herr'.2.1, herr'.2.2⟩
  · exact absurd h1 hsh

theorem create_insufficient_stock_witness :
    ∃ r', memoryOrderService.Create "u1" [⟨"p1", 2⟩, ⟨"p2", 3⟩] sampleStore =
        some ((none, some (errors.New "insufficient stock")), r') ∧
      r'.orders = sampleStore.orders ∧
      ∃ new, r'.calls = sampleStore.calls ++ new ∧ ∀ c ∈ new, c.isCreateOrder = false :=
  create_insufficient_stock "u1" [⟨"p1", 2⟩, ⟨"p2", 3⟩] sampleStore sampleUser rfl
    ⟨by decide, by simp, by simp⟩ rfl sampleStore_keyed
    (by simp [sampleStore, NewMemoryRepository, mapGet, sampleProduct])
    ⟨⟨"p2", 3⟩, by simp, sampleProduct "p2" 1, rfl, by decide⟩

/-- C5, as amended.  Combined quantity check for duplicate product lines.  For every validated
request by an existing user over a well-formed `MemoryRepository` (mutex free at the call) in
which every referenced product is stored: when a product is named by one or more line items and
the sum of the quantities of those lines exceeds its current quantity, `Create` returns a nil
order and the error 'insufficient stock', even when no single line exceeds the quantity. -/
theorem create_combined_quantity_check (userID : String) (items : List OrderItemInput)
    (r : MemoryRepository) (u : User) (k : String) (p : Product)
    (hmu : r.mu = false) (hv : Validated userID items) (hu : mapGet r.users userID = some u)
    (hwf : r.WellFormed) (hint : ∀ it ∈ items, isInt it.Quantity)
    (hex : ∀ it ∈ items, mapGet r.products it.ProductID ≠ none)
    (hk : mapGet r.products k = some p) (href : ∃ it ∈ items, it.ProductID = k)
    (hsum : p.Quantity < demand items k) :
    ∃ r', memoryOrderService.Create userID items r =
      some ((none, some (errors.New "insufficient stock")), r') := by
  have hkey : r.KeyedByID := fun k p hk => (hwf k p hk).1
  obtain ⟨res, r2, hl, hres⟩ := Create_memory_found userID items r hmu hv u hu hex
  rcases hres with ⟨err, h1, h2⟩ | ⟨h1, _⟩
  · have hfound := itemLoop_found _ _ _ _ _ _ _ (fun it hit => by
        rw [mapGet_snapshot items r hkey, if_pos ⟨it, hit, rfl⟩]
        exact Option.ne_none_iff_exists'.mp (hex it hit)) (fun k p hk => by
        rw [mapGet_snapshot items r hkey] at hk
        split_ifs at hk with hki
        have := hkey k p hk
        simp only [this]
        rw [hk]
        simp) hl
    obtain ⟨_, _, hcases⟩ := itemLoop_frame _ _ _ _ _ _ _ hl
    rw [h1] at hfound hcases
    rcases hcases with h | h | h
    · cases h
    · exact absurd h hfound
    · simp only [Option.some.injEq] at h
      subst h
      exact ⟨_, h2⟩
  · exfalso
    obtain ⟨e, t, ois⟩ := res
    simp only at h1
    subst h1
    have hsnap : mapGet (buildProductMap ((collectIDs items [] []).filterMap
        (mapGet r.products)) []) k = some p := by
      rw [mapGet_snapshot items r hkey, if_pos href]
      exact hk
    obtain ⟨c1, c2, c3⟩ := itemLoop_success _ _ _ _ _ _ _ _ (fun k p hk => by
        rw [mapGet_snapshot items r hkey] at hk
        split_ifs at hk
        exact hkey k p hk)
      (fun it hit => ⟨(hv.2.2 it hit).2, hint it hit⟩)
      (fun k p p' hk hk' => by
        rw [mapGet_snapshot items r hkey] at hk
        split_ifs at hk
        simp only at hk'
        rw [hk] at hk'
        cases hk'
        exact ⟨(hwf k p hk).2, Or.inr rfl⟩) hl
    have hq := c1 k
    unfold MemoryRepository.quantity at hq
    simp only [hk, Option.map_some'] at hq
    cases hp' : mapGet r2.products k with
    | none => simp [hp'] at hq
    | some p' =>
      simp only [hp', Option.map_some', Option.some.injEq] at hq
      obtain ⟨_, hnn⟩ := c2 k p p' hsnap hp'
      obtain ⟨it, hit, hitk⟩ := href
      obtain ⟨q, hq1, hq2⟩ := c3 it hit
      rw [hitk, hsnap] at hq1
      cases hq1
      have hpos := (hv.2.2 it hit).2
      rcases hnn with h | h <;> omega

theorem create_combined_quantity_check_witness :
    ∃ r', memoryOrderService.Create "u1" [⟨"p1", 2⟩, ⟨"p1", 2⟩] smallStore =
      some ((none, some (errors.New "insufficient stock")), r') :=
  create_combined_quantity_check "u1" [⟨"p1", 2⟩, ⟨"p1", 2⟩] smallStore sampleUser "p1"
    (sampleProduct "p1" 3) rfl ⟨by decide, by simp, by simp⟩ rfl smallStore_wellFormed
    (by simp [isInt])
    (by simp [smallStore, NewMemoryRepository, mapGet, sampleProduct])
    rfl ⟨⟨"p1", 2⟩, by simp, rfl⟩ (by decide)

/-- C5, as stated, fails.  The request below is validated, its user exists, and the stored
product `p1` (quantity 3) is named by two lines of quantity 2 each, so the two lines together
exceed its quantity; but the request has a third line for a product that is not stored, and
`Create` returns 'product not found', not 'insufficient stock'. -/
theorem duplicate_lines_with_unknown_product :
    Validated "u1" [⟨"p1", 2⟩, ⟨"p1", 2⟩, ⟨"ghost", 1⟩] ∧
    mapGet smallStore.users "u1" = some sampleUser ∧
    smallStore.quantity "p1" = some 3 ∧
    demand [⟨"p1", 2⟩, ⟨"p1", 2⟩, ⟨"ghost", 1⟩] "p1" = 4 ∧
    (memoryOrderService.Create "u1" [⟨"p1", 2⟩, ⟨"p1", 2⟩, ⟨"ghost", 1⟩] smallStore).map
        (fun x => x.1) = some (none, some (errors.New "product not found")) ∧
    errors.New "product not found" ≠ errors.New "insufficient stock" :=
  ⟨⟨by decide, by simp, by simp⟩, rfl, rfl, rfl, rfl, by decide⟩

/-- C6. No overselling under serialised execution.  Let product `pid` be stored with quantity
`Q >= 0` in a well-formed `MemoryRepository` (mutex free), and let `userID` be an existing user
(ids non-empty, as the validation requires).  When `Create(userID, [(pid, 1)])` is called `N`
times, one call after another: every call returns; the first `min(N, Q)` calls succeed and the
remaining `N - min(N, Q)` fail with 'insufficient stock'; after the `i`-th call (counting from 1)
the quantity of `pid` is `Q - min(i, Q)`, so a failing call leaves it unchanged; and the final
quantity is `Q - min(N, Q)`. -/
theorem serial_orders_never_oversell (userID pid : String) (r : MemoryRepository) (u : User)
    (p : Product) (Q N : Nat) (hmu : r.mu = false) (huid : userID ≠ "") (hpid : pid ≠ "")
    (hu : mapGet r.users userID = some u) (hwf : r.WellFormed)
    (hp : mapGet r.products pid = some p) (hQ : p.Quantity = (Q : Int)) :
    ∃ trace, createMany memoryOrderService userID [⟨pid, 1⟩] N r = some trace ∧
      trace.map (fun x => x.1.2) = List.replicate (min N Q) none ++
        List.replicate (N - min N Q) (some (errors.New "insufficient stock")) ∧
      trace.map (fun x => x.2.quantity pid) =
        (List.range N).map (fun i => some ((Q : Int) - ((min (i + 1) Q : Nat) : Int))) ∧
      ((trace.getLast?).map (fun x => x.2.quantity pid)).getD (r.quantity pid) =
        some ((Q : Int) - ((min N Q : Nat) : Int)) :=
  serial_orders_aux userID pid huid hpid N Q r u p hmu hu hwf hp hQ

theorem serial_orders_never_oversell_witness :
    ∃ trace, createMany memoryOrderService "u1" [⟨"p1", 1⟩] 5 smallStore = some trace ∧
      trace.map (fun x => x.1.2) = [none, none, none,
        some (errors.New "insufficient stock"), some (errors.New "insufficient stock")] ∧
      trace.map (fun x => x.2.quantity "p1") = [some 2, some 1, some 0, some 0, some 0] ∧
      ((trace.getLast?).map (fun x => x.2.quantity "p1")).getD (smallStore.quantity "p1") =
        some 0 :=
  serial_orders_never_oversell "u1" "p1" smallStore sampleUser (sampleProduct "p1" 3) 3 5 rfl
    (by decide) (by decide) rfl smallStore_wellFormed rfl rfl

/-- C7. Race safety.  A goroutine that calls `Create` runs it in two stretches, each with one
call on the repository (`GetByID`, then `WithTx` with the closure), and run alone the two
stretches are `Create`.  Over `MemoryRepository` every access to the store lies inside such a
call under the mutex, so a run of concurrent calls is an interleaving of stretches, given by a
schedule.  Let `N` goroutines each call `Create(userID, [(pid, 1)])` on a well-formed store
(mutex free, user stored, ids non-empty) whose product `pid` has the quantity `Q`, with an id
generator that never repeats an id.  Then every schedule runs without blocking; a schedule that
names every goroutine at least twice lets all of them return; and once all have returned,
exactly `min(N, Q)` have received an order, with pairwise different order ids, exactly
`N - min(N, Q)` have failed with 'insufficient stock', and the quantity of `pid` is
`Q - min(N, Q)`: for `Q = 3` and `N = 5`, three orders, two failures and the quantity 0. -/
theorem concurrent_orders_never_oversell (userID pid : String) (r : MemoryRepository) (u : User)
    (p : Product) (Q N : Nat) (hmu : r.mu = false) (huid : userID ≠ "") (hpid : pid ≠ "")
    (hu : mapGet r.users userID = some u) (hwf : r.WellFormed)
    (hp : mapGet r.products pid = some p) (hQ : p.Quantity = (Q : Int))
    (hug : Function.Injective r.ug) :
    (∀ w, (Goroutine.entry userID [⟨pid, 1⟩]).runAlone memoryOrderService w =
      memoryOrderService.Create userID [⟨pid, 1⟩] w) ∧
    ∀ sched : List Nat, ∃ gs r',
      runSchedule memoryOrderService sched
        (List.replicate N (Goroutine.entry userID [⟨pid, 1⟩])) r = some (gs, r') ∧
      gs.length = N ∧
      ((∀ i < N, 2 ≤ sched.count i) → ∀ g ∈ gs, g.isReturned = true) ∧
      ((∀ g ∈ gs, g.isReturned = true) →
        (gs.filterMap Goroutine.orderID).length = min N Q ∧
        (gs.filterMap Goroutine.orderID).Nodup ∧
        gs.countP Goroutine.isConflict = N - min N Q ∧
        r'.quantity pid = some ((Q : Int) - ((min N Q : Nat) : Int))) := by
  refine ⟨fun w => (Create_eq_sections _ _ _ w).symm, fun sched => ?_⟩
  have hinit : RaceInvariant userID pid r.ug u Q
      (List.replicate N (Goroutine.entry userID [⟨pid, 1⟩])) r := by
    refine ⟨hmu, hwf, hu, rfl, ?_, ?_, p, hp, by omega, ?_, ?_⟩
    · intro g hg
      exact Or.inl (List.eq_of_mem_replicate hg)
    · rw [filterMap_orderID_replicate]
      exact List.nodup_nil
    · rw [filterMap_orderID_replicate, hQ]
      simp
    · rintro ⟨g, hg, hc⟩
      rw [List.eq_of_mem_replicate hg] at hc
      simp [Goroutine.isConflict] at hc
  obtain ⟨gs, r', h1, h2, h3, h4⟩ :=
    race_schedule userID pid r.ug u Q huid hpid hug sched _ r hinit
  rw [List.length_replicate] at h2
  refine ⟨gs, r', h1, h2, ?_, ?_⟩
  · intro hc g hg
    rw [← remaining_eq_zero_iff]
    apply h4 _ g hg
    intro i g' hi
    have hlt : i < N := by
      rcases Nat.lt_or_ge i N with hlt | hge
      · exact hlt
      · rw [List.getElem?_eq_none (by rw [List.length_replicate]; exact hge)] at hi
        cases hi
    have hg' : g' = Goroutine.entry userID [⟨pid, 1⟩] :=
      List.eq_of_mem_replicate (List.mem_iff_getElem?.mpr ⟨i, hi⟩)
    rw [hg']
    exact hc i hlt
  · intro hall
    obtain ⟨_, _, _, _, hgs, hnd, p', hp', hp0, hsum, hconf⟩ := h3
    have hout : ∀ g ∈ gs, g.orderID ≠ none ∨ g.isConflict = true := by
      intro g hg
      have hr := hall g hg
      rcases hgs g hg with rfl | rfl | ⟨o, k, rfl, _, _⟩ | rfl
      · simp [Goroutine.isReturned] at hr
      · simp [Goroutine.isReturned] at hr
      · exact Or.inl (by simp [Goroutine.orderID])
      · exact Or.inr (by simp [Goroutine.isConflict])
    have hcount := count_outcomes gs hout
    rw [h2] at hcount
    have hF : 0 < gs.countP Goroutine.isConflict → p'.Quantity = 0 := by
      intro hpos
      obtain ⟨g, hg, hc⟩ := List.countP_pos_iff.mp hpos
      exact hconf ⟨g, hg, hc⟩
    have hS : (gs.filterMap Goroutine.orderID).length = min N Q := by
      rcases Nat.eq_zero_or_pos (gs.countP Goroutine.isConflict) with h0 | hpos
      · omega
      · have := hF hpos
        omega
    refine ⟨hS, hnd, by omega, ?_⟩
    simp only [MemoryRepository.quantity, hp', Option.map_some', Option.some.injEq]
    rw [← hS]
    omega

theorem concurrent_orders_never_oversell_witness :
    ∃ gs r',
      runSchedule memoryOrderService [0, 1, 2, 3, 4, 4, 3, 2, 1, 0]
        (List.replicate 5 (Goroutine.entry "u1" [⟨"p1", 1⟩])) smallStore = some (gs, r') ∧
      gs.length = 5 ∧ (∀ g ∈ gs, g.isReturned = true) ∧
      (gs.filterMap Goroutine.orderID).length = 3 ∧
      (gs.filterMap Goroutine.orderID).Nodup ∧
      gs.countP Goroutine.isConflict = 2 ∧ r'.quantity "p1" = some 0 := by
  obtain ⟨gs, r', h1, h2, h3, h4⟩ :=
    (concurrent_orders_never_oversell "u1" "p1" smallStore sampleUser (sampleProduct "p1" 3) 3 5
      rfl (by decide) (by decide) rfl smallStore_wellFormed rfl rfl sampleIDs_injective).2
      [0, 1, 2, 3, 4, 4, 3, 2, 1, 0]
  have hall := h3 (by decide)
  obtain ⟨h5, h6, h7, h8⟩ := h4 hall
  exact ⟨gs, r', h1, h2, hall, h5, h6, h7, h8⟩

/-- C8. Validation fails fast with no store access.  For every implementation of the four
repository interfaces and every world `w`: when `userID` is empty, or `items` is empty, or some
item has an empty `ProductID` or a `Quantity <= 0`, `Create` returns a nil order and one of the
four validation errors and leaves the world exactly `w` (so no repository method ran; over
`MemoryRepository` the invocation log is part of `w`).  Conversely, when none of these
conditions holds, no error that `Create` returns over `MemoryRepository` is one of the four
validation errors. -/
theorem create_validation_fails_fast (userID : String) (items : List OrderItemInput) :
    ((userID = "" ∨ items = [] ∨ ∃ it ∈ items, it.ProductID = "" ∨ it.Quantity ≤ 0) →
      ∀ (σ : Type) (s : OrderService σ) (w : σ),
        ∃ e, e ∈ validationErrors ∧ s.Create userID items w = some ((none, some e), w)) ∧
    (¬ (userID = "" ∨ items = [] ∨ ∃ it ∈ items, it.ProductID = "" ∨ it.Quantity ≤ 0) →
      ∀ (r : MemoryRepository) (o : Option Order) (e : GoError) (r' : MemoryRepository),
        memoryOrderService.Create userID items r = some ((o, some e), r') →
          e ∉ validationErrors) := by
  refine ⟨fun h σ s w => Create_rejects s userID items w h, fun h r o e r' hc => ?_⟩
  have hv := validated_of_not_invalid h
  cases hmu : r.mu with
  | true =>
    rw [Create_memory_blocked userID items r hmu hv] at hc
    cases hc
  | false =>
    cases hu : mapGet r.users userID with
    | none =>
      rw [Create_memory_no_user userID items r hmu hv hu] at hc
      simp only [Option.some.injEq, Prod.mk.injEq] at hc
      obtain ⟨⟨_, he⟩, _⟩ := hc
      subst he
      decide
    | some u =>
      obtain ⟨o1, e1, r1, h1, _, _, _, hcases, _⟩ := Create_memory_outcome userID items r hmu hv u hu
      rw [h1] at hc
      simp only [Option.some.injEq, Prod.mk.injEq] at hc
      obtain ⟨⟨_, he⟩, _⟩ := hc
      subst he
      rcases hcases with h2 | h2 | h2
      · cases h2
      · cases h2
        decide
      · cases h2
        decide

theorem create_validation_fails_fast_witness :
    (∃ e, e ∈ validationErrors ∧
      memoryOrderService.Create "u1" [⟨"p1", 0⟩] sampleStore = some ((none, some e), sampleStore)) ∧
    errors.New "user not found" ∉ validationErrors :=
  ⟨(create_validation_fails_fast "u1" [⟨"p1", 0⟩]).1
      (Or.inr (Or.inr ⟨⟨"p1", 0⟩, by simp, Or.inr (le_refl 0)⟩)) MemoryRepository
      memoryOrderService sampleStore,
    (create_validation_fails_fast "nobody" [⟨"p1", 1⟩]).2 (by decide) sampleStore none
      (errors.New "user not found")
      (sampleStore.record (Invocation.GetByID "nobody")) rfl⟩

/-- C9. Unknown user.  For every validated request whose `userID` is not the key of any stored
user, `Create` over `MemoryRepository` (its mutex free at the call) returns a nil order and the
error 'user not found'; the product map and the order map are unchanged, and the only method
invoked is `GetByID`: `WithTx` is never invoked. -/
theorem create_unknown_user (userID : String) (items : List OrderItemInput)
    (r : MemoryRepository) (hmu : r.mu = false) (hv : Validated userID items)
    (hu : mapGet r.users userID = none) :
    ∃ r', memoryOrderService.Create userID items r =
        some ((none, some (errors.New "user not found")), r') ∧
      r'.products = r.products ∧ r'.orders = r.orders ∧ r'.users = r.users ∧
      r'.calls = r.calls ++ [Invocation.GetByID userID] :=
  ⟨_, Create_memory_no_user userID items r hmu hv hu, rfl, rfl, rfl, rfl⟩

theorem create_unknown_user_witness :
    ∃ r', memoryOrderService.Create "missing-user" [⟨"p1", 1⟩] sampleStore =
        some ((none, some (errors.New "user not found")), r') ∧
      r'.products = sampleStore.products ∧ r'.orders = sampleStore.orders ∧
      r'.users = sampleStore.users ∧
      r'.calls = sampleStore.calls ++ [Invocation.GetByID "missing-user"] :=
  create_unknown_user "missing-user" [⟨"p1", 1⟩] sampleStore rfl
    ⟨by decide, by simp, by simp⟩ rfl

/-- C10. Unknown product.  Part 1: for every validated request by an existing user in which some
line item names a product id that is not stored, `Create` over `MemoryRepository` (its mutex free
at the call) returns a nil order and 'product not found', the product map and the order map are
unchanged, and the methods invoked are exactly `GetByID`, `WithTx` and `GetByIDsForUpdate`:
neither `UpdateQuantity` nor `CreateOrder` is invoked.  Part 2: when the store keeps every
product under its own id and every product id of the request is stored, `Create` never returns
'product not found', whether or not an id occurs in several lines. -/
theorem create_unknown_product (userID : String) (items : List OrderItemInput)
    (r : MemoryRepository) :
    (r.mu = false → Validated userID items → (∃ u, mapGet r.users userID = some u) →
      (∃ it ∈ items, mapGet r.products it.ProductID = none) →
      ∃ r', memoryOrderService.Create userID items r =
          some ((none, some (errors.New "product not found")), r') ∧
        r'.products = r.products ∧ r'.orders = r.orders ∧
        r'.calls = r.calls ++ [Invocation.GetByID userID, Invocation.WithTx,
          Invocation.GetByIDsForUpdate (Tx.memoryTx true) (collectIDs items [] [])]) ∧
    (r.KeyedByID → (∀ it ∈ items, mapGet r.products it.ProductID ≠ none) →
      ∀ (o : Option Order) (e : Option GoError) (r' : MemoryRepository),
        memoryOrderService.Create userID items r = some ((o, e), r') →
          e ≠ some (errors.New "product not found")) := by
  constructor
  · rintro hmu hv ⟨u, hu⟩ hmiss
    rw [Create_memory userID items r hmu hv u hu]
    have hc : ((collectIDs items [] []).filterMap (mapGet r.products)).length
        ≠ (collectIDs items [] []).length := by
      rw [filterMap_length_ne_iff, collectIDs_exists_missing]
      exact hmiss
    rw [if_pos hc]
    exact ⟨_, rfl, rfl, rfl, rfl⟩
  · intro hkey hex o e r' hc
    by_cases hinv : userID = "" ∨ items = [] ∨ ∃ it ∈ items, it.ProductID = "" ∨ it.Quantity ≤ 0
    · obtain ⟨e1, he1, h1⟩ := Create_rejects memoryOrderService userID items r hinv
      rw [h1] at hc
      simp only [Option.some.injEq, Prod.mk.injEq] at hc
      obtain ⟨⟨_, he⟩, _⟩ := hc
      subst he
      intro h
      cases h
      revert he1
      decide
    · have hv := validated_of_not_invalid hinv
      cases hmu : r.mu with
      | true =>
        rw [Create_memory_blocked userID items r hmu hv] at hc
        cases hc
      | false =>
        cases hu : mapGet r.users userID with
        | none =>
          rw [Create_memory_no_user userID items r hmu hv hu] at hc
          simp only [Option.some.injEq, Prod.mk.injEq] at hc
          obtain ⟨⟨_, he⟩, _⟩ := hc
          subst he
          decide
        | some u =>
          obtain ⟨res, r2, hl, hres⟩ := Create_memory_found userID items r hmu hv u hu hex
          have hfound := itemLoop_found _ _ _ _ _ _ _ (fun it hit => by
              rw [mapGet_snapshot items r hkey, if_pos ⟨it, hit, rfl⟩]
              exact Option.ne_none_iff_exists'.mp (hex it hit)) (fun k p hk => by
              rw [mapGet_snapshot items r hkey] at hk
              split_ifs at hk with hki
              have := hkey k p hk
              simp only [this]
              rw [hk]
              simp) hl
          rcases hres with ⟨err, h1, h2⟩ | ⟨_, o1, r3, h2, _⟩
          · rw [h2] at hc
            simp only [Option.some.injEq, Prod.mk.injEq] at hc
            obtain ⟨⟨_, he⟩, _⟩ := hc
            subst he
            rw [← h1]
            exact hfound
          · rw [h2] at hc
            simp only [Option.some.injEq, Prod.mk.injEq] at hc
            obtain ⟨⟨_, he⟩, _⟩ := hc
            subst he
            simp

theorem create_unknown_product_witness :
    (∃ r', memoryOrderService.Create "u1" [⟨"p1", 1⟩, ⟨"ghost", 1⟩] sampleStore =
          some ((none, some (errors.New "product not found")), r') ∧
        r'.products = sampleStore.products ∧ r'.orders = sampleStore.orders ∧
        r'.calls = sampleStore.calls ++ [Invocation.GetByID "u1", Invocation.WithTx,
          Invocation.GetByIDsForUpdate (Tx.memoryTx true)
            (collectIDs [⟨"p1", 1⟩, ⟨"ghost", 1⟩] [] [])]) ∧
    (some (errors.New "insufficient stock") : Option GoError) ≠
      some (errors.New "product not found") :=
  ⟨(create_unknown_product "u1" [⟨"p1", 1⟩, ⟨"ghost", 1⟩] sampleStore).1 rfl
      ⟨by decide, by simp, by simp⟩ ⟨sampleUser, rfl⟩ ⟨⟨"ghost", 1⟩, by simp, rfl⟩,
    (create_unknown_product "u1" [⟨"p1", 3⟩, ⟨"p1", 3⟩] sampleStore).2 sampleStore_keyed
      (by simp [sampleStore, NewMemoryRepository, mapGet, sampleProduct]) none
      (some (errors.New "insufficient stock"))
      ((memoryOrderService.Create "u1" [⟨"p1", 3⟩, ⟨"p1", 3⟩] sampleStore).get (by rfl)).2
      (by rfl)⟩

/-- C11. Exact total.  For every call of `Create` over a `MemoryRepository` that keeps each
product under its own id, when the call returns a nil error it returns an order whose
`TotalPrice`, as an exact rational number, is the sum over the line items of the line quantity
times the unit price that the product of the line has in the store at the call, which is the
price read under the lock.  Nothing is rounded: `Mul` and `Add` of decimals are exact. -/
theorem create_total_is_exact (userID : String) (items : List OrderItemInput)
    (r : MemoryRepository) (o : Option Order) (r' : MemoryRepository) (hkey : r.KeyedByID)
    (h : memoryOrderService.Create userID items r = some ((o, none), r')) :
    ∃ ord, o = some ord ∧ ord.TotalPrice.toRat = r.lineTotal items := by
  obtain ⟨_, _, _, _, t, ois, r2, ord, hl, ho, _, _, ht, _⟩ :=
    Create_memory_success userID items r o r' h
  obtain ⟨_, _, c3⟩ := itemLoop_lines _ _ _ _ _ _ _ _ _ _ hl
  refine ⟨ord, ho, ?_⟩
  rw [ht, c3, Decimal.toRat_Zero, zero_add]
  unfold MemoryRepository.lineTotal MemoryRepository.unitPrice
  congr 1
  apply List.map_congr_left
  intro it hit
  rw [snapshot_of_line items r hkey it hit]

theorem create_total_is_exact_witness :
    (∃ ord r', memoryOrderService.Create "u1" [⟨"p1", 2⟩] sampleStore =
        some ((some ord, none), r') ∧
      ord.TotalPrice = ⟨2500, -2⟩ ∧ ord.TotalPrice.toRat = sampleStore.lineTotal [⟨"p1", 2⟩] ∧
      sampleStore.lineTotal [⟨"p1", 2⟩] = 25) ∧
    (∃ ord r', memoryOrderService.Create "u1" [⟨"p1", 2⟩] testStore =
        some ((some ord, none), r') ∧
      ord.TotalPrice = Decimal.NewFromInt 30 ∧
      ord.TotalPrice.toRat = testStore.lineTotal [⟨"p1", 2⟩] ∧
      testStore.lineTotal [⟨"p1", 2⟩] = 30) := by
  refine ⟨⟨_, _, rfl, rfl, ?_, ?_⟩, ⟨_, _, rfl, rfl, ?_, ?_⟩⟩
  · obtain ⟨ord, h1, h2⟩ := create_total_is_exact "u1" [⟨"p1", 2⟩] sampleStore _ _
      sampleStore_keyed rfl
    cases h1
    exact h2
  · simp [MemoryRepository.lineTotal, MemoryRepository.unitPrice, sampleStore,
      NewMemoryRepository, mapGet, sampleProduct, Decimal.toRat]
    norm_num
  · obtain ⟨ord, h1, h2⟩ := create_total_is_exact "u1" [⟨"p1", 2⟩] testStore _ _
      testStore_keyed rfl
    cases h1
    exact h2
  · simp [MemoryRepository.lineTotal, MemoryRepository.unitPrice, testStore,
      NewMemoryRepository, mapGet, Decimal.toRat, Decimal.NewFromInt]
    norm_num

/-- C12. Price capture.  For every call of `Create` over a `MemoryRepository` that keeps each
product under its own id, when the call returns a nil error: every item of the returned order
names a product that was stored at the call and carries the `Price` which that product had in
the store at the call; and the returned order is the order persisted under its id. -/
theorem create_captures_prices (userID : String) (items : List OrderItemInput)
    (r : MemoryRepository) (o : Option Order) (r' : MemoryRepository) (hkey : r.KeyedByID)
    (h : memoryOrderService.Create userID items r = some ((o, none), r')) :
    ∃ ord, o = some ord ∧
      (∀ x ∈ ord.Items, ∃ p, mapGet r.products x.ProductID = some p ∧ x.Price = p.Price) ∧
      mapGet r'.orders ord.ID = some ord := by
  obtain ⟨_, _, _, _, t, ois, r2, ord, hl, ho, _, _, _, hitems, _, _, hord, _⟩ :=
    Create_memory_success userID items r o r' h
  obtain ⟨_, c2, _⟩ := itemLoop_lines _ _ _ _ _ _ _ _ _ _ hl
  refine ⟨ord, ho, fun x hx => ?_, by rw [hord, mapGet_mapSet_self]⟩
  rw [c2, List.nil_append] at hitems
  obtain ⟨it, hit, p, hp, h1, _, h3⟩ := returned_item_origin _ items ord.Items hitems x hx
  rw [snapshot_of_line items r hkey it hit] at hp
  have hid := hkey _ _ hp
  exact ⟨p, by rw [h1, hid]; exact hp, h3⟩

theorem create_captures_prices_witness :
    ∃ ord r', memoryOrderService.Create "u1" [⟨"p1", 2⟩, ⟨"p2", 1⟩] sampleStore =
        some ((some ord, none), r') ∧
      (∀ x ∈ ord.Items, ∃ p, mapGet sampleStore.products x.ProductID = some p ∧
        x.Price = p.Price) ∧
      mapGet r'.orders ord.ID = some ord := by
  have hc : ∃ o r', memoryOrderService.Create "u1" [⟨"p1", 2⟩, ⟨"p2", 1⟩] sampleStore =
      some ((o, none), r') := ⟨_, _, rfl⟩
  obtain ⟨o, r', hc⟩ := hc
  obtain ⟨ord, h1, h2, h3⟩ := create_captures_prices "u1" [⟨"p1", 2⟩, ⟨"p2", 1⟩] sampleStore
    o r' sampleStore_keyed hc
  subst h1
  exact ⟨ord, r', hc, h2, h3⟩

/-- C13. Returned order mirrors the request.  For every call of `Create` over `MemoryRepository`
that returns a nil error, the returned order has `UserID = userID` and exactly `len(items)`
items, and item by item, in the order of the request, the product ids and quantities of its
items are those of the input lines: lines that name the same product stay separate items. -/
theorem create_order_mirrors_request (userID : String) (items : List OrderItemInput)
    (r : MemoryRepository) (o : Option Order) (r' : MemoryRepository)
    (h : memoryOrderService.Create userID items r = some ((o, none), r')) :
    ∃ ord, o = some ord ∧ ord.UserID = userID ∧ ord.Items.length = items.length ∧
      ord.Items.map (fun x => (x.ProductID, x.Quantity)) =
        items.map (fun it => (it.ProductID, it.Quantity)) ∧
      ∀ i : Nat, (ord.Items[i]?).map (fun (x : OrderItem) => (x.ProductID, x.Quantity)) =
        (items[i]?).map (fun (it : OrderItemInput) => (it.ProductID, it.Quantity)) := by
  obtain ⟨_, _, _, _, t, ois, r2, ord, hl, ho, _, huser, _, hitems, _⟩ :=
    Create_memory_success userID items r o r' h
  obtain ⟨c1, c2, _⟩ := itemLoop_lines _ _ _ _ _ _ _ _ _ _ hl
  rw [c2, List.nil_append] at hitems
  have hpm := buildProductMap_keyed ((collectIDs items [] []).filterMap (mapGet r.products)) []
    (fun k p hk => by simp [mapGet] at hk)
  have hmirror : ord.Items.map (fun x => (x.ProductID, x.Quantity)) =
      items.map (fun it => (it.ProductID, it.Quantity)) := by
    have e1 : ∀ l : List OrderItem, l.map (fun x => (x.ProductID, x.Quantity)) =
        (l.map (fun x => (x.ProductID, x.Quantity, x.Price))).map
          (fun (y : String × Int × Decimal) => (y.1, y.2.1)) := by
      intro l
      rw [List.map_map]
      rfl
    rw [e1, hitems, ← e1, lines_mirror _ items hpm c1]
  refine ⟨ord, ho, huser, ?_, hmirror, fun i => ?_⟩
  · have := congrArg List.length hmirror
    simpa using this
  · have := congrArg (fun l => l[i]?) hmirror
    simpa [List.getElem?_map] using this

theorem create_order_mirrors_request_witness :
    ∃ ord r', memoryOrderService.Create "u1" [⟨"p1", 2⟩, ⟨"p1", 2⟩, ⟨"p2", 1⟩] sampleStore =
        some ((some ord, none), r') ∧
      ord.UserID = "u1" ∧ ord.Items.length = 3 ∧
      ord.Items.map (fun x => (x.ProductID, x.Quantity)) = [("p1", 2), ("p1", 2), ("p2", 1)] := by
  have hc : ∃ o r', memoryOrderService.Create "u1" [⟨"p1", 2⟩, ⟨"p1", 2⟩, ⟨"p2", 1⟩]
      sampleStore = some ((o, none), r') := ⟨_, _, rfl⟩
  obtain ⟨o, r', hc⟩ := hc
  obtain ⟨ord, h1, h2, h3, h4, _⟩ := create_order_mirrors_request "u1"
    [⟨"p1", 2⟩, ⟨"p1", 2⟩, ⟨"p2", 1⟩] sampleStore o r' hc
  subst h1
  exact ⟨ord, r', hc, h2, h3, h4⟩

/-- C14. Server-assigned ids and back-reference.  For every call of `Create` over a
`MemoryRepository` whose id generator never returns the empty string, when the call returns a
nil error: the returned order has a non-empty `ID`, every item of it has a non-empty `ID`, and
the `OrderID` of every item is the `ID` of the order. -/
theorem create_assigns_ids (userID : String) (items : List OrderItemInput)
    (r : MemoryRepository) (o : Option Order) (r' : MemoryRepository)
    (hug : ∀ n, r.ug n ≠ "")
    (h : memoryOrderService.Create userID items r = some ((o, none), r')) :
    ∃ ord, o = some ord ∧ ord.ID ≠ "" ∧ ∀ x ∈ ord.Items, x.ID ≠ "" ∧ x.OrderID = ord.ID := by
  obtain ⟨_, _, _, _, t, ois, r2, ord, _, ho, hid, _, _, _, hback, hids, _⟩ :=
    Create_memory_success userID items r o r' h
  exact ⟨ord, ho, by rw [hid]; exact hug _, fun x hx => ⟨hids hug x hx, hback x hx⟩⟩

theorem create_assigns_ids_witness :
    ∃ ord r', memoryOrderService.Create "u1" [⟨"p1", 2⟩, ⟨"p2", 1⟩] sampleStore =
        some ((some ord, none), r') ∧
      ord.ID ≠ "" ∧ ∀ x ∈ ord.Items, x.ID ≠ "" ∧ x.OrderID = ord.ID := by
  have hc : ∃ o r', memoryOrderService.Create "u1" [⟨"p1", 2⟩, ⟨"p2", 1⟩] sampleStore =
      some ((o, none), r') := ⟨_, _, rfl⟩
  obtain ⟨o, r', hc⟩ := hc
  obtain ⟨ord, h1, h2, h3⟩ := create_assigns_ids "u1" [⟨"p1", 2⟩, ⟨"p2", 1⟩] sampleStore o r'
    (fun n => by
      show "id-" ++ toString n ≠ ""
      intro h
      have := congrArg String.length h
      simp only [String.length_append] at this
      have h3 : ("id-" : String).length = 3 := by decide
      rw [h3] at this
      simp at this) hc
  subst h1
  exact ⟨ord, r', hc, h2, h3⟩

/-- C15. Orders are created once and never mutated.  Over `MemoryRepository`:
(1) a call of `Create` that returns a nil error, when the id that the generator hands out next is
not yet the key of an order, returns an order and leaves the order map equal to the old one with
exactly one entry appended, the returned order under its `ID`, so every order stored before is
still stored unchanged;
(2) a call of `Create` that returns an error leaves the order map unchanged;
(3) `CreateProduct` (also when it overwrites a stored product, whatever its price), `CreateUser`
and `UpdateQuantity` leave the order map unchanged. -/
theorem orders_are_created_once (r : MemoryRepository) :
    (∀ userID items o r', memoryOrderService.Create userID items r = some ((o, none), r') →
      mapGet r.orders (r.ug r.ugCalls) = none →
      ∃ ord, o = some ord ∧ r'.orders = r.orders ++ [(ord.ID, ord)] ∧
        mapGet r.orders ord.ID = none ∧
        ∀ k old, mapGet r.orders k = some old → mapGet r'.orders k = some old) ∧
    (∀ userID items o e r', memoryOrderService.Create userID items r = some ((o, some e), r') →
      r'.orders = r.orders) ∧
    (∀ product res r', MemoryRepository.CreateProduct product r = some (res, r') →
      r'.orders = r.orders) ∧
    (∀ user res r', MemoryRepository.CreateUser user r = some (res, r') →
      r'.orders = r.orders) ∧
    (∀ tx id delta e r', MemoryRepository.UpdateQuantity tx id delta r = some (e, r') →
      r'.orders = r.orders) := by
  refine ⟨?_, ?_, ?_, ?_, ?_⟩
  · intro userID items o r' h hfresh
    obtain ⟨_, _, _, _, t, ois, r2, ord, _, ho, hid, _, _, _, _, _, hord, _⟩ :=
      Create_memory_success userID items r o r' h
    have hfresh' : mapGet r.orders ord.ID = none := by rw [hid]; exact hfresh
    refine ⟨ord, ho, by rw [hord, mapSet_absent _ _ _ hfresh'], hfresh', fun k old hk => ?_⟩
    rw [hord, mapGet_mapSet]
    split_ifs with hki
    · rw [hki, hfresh'] at hk
      cases hk
    · exact hk
  · intro userID items o e r' h
    exact Create_memory_failure_orders userID items r o e r' h
  · intro product res r' h
    exact CreateProduct_orders product r res r' h
  · intro user res r' h
    exact CreateUser_orders user r res r' h
  · intro tx id delta e r' h
    exact (MemoryRepository.UpdateQuantity_spec _ _ _ _ _ _ h).1.2.2.1

theorem orders_are_created_once_witness :
    (∃ ord, storeAfterOrder.orders = sampleStore.orders ++ [(ord.ID, ord)] ∧
      mapGet sampleStore.orders ord.ID = none) ∧
    (∃ r', memoryOrderService.Create "u1" [⟨"p1", 9⟩] storeAfterOrder =
        some ((none, some (errors.New "insufficient stock")), r') ∧
      r'.orders = storeAfterOrder.orders) ∧
    (∃ res r', MemoryRepository.CreateProduct (sampleProduct "p1" 7) storeAfterOrder =
        some (res, r') ∧ r'.orders = storeAfterOrder.orders) := by
  refine ⟨?_, ?_, ?_⟩
  · obtain ⟨ord, _, h2, h3, _⟩ := (orders_are_created_once sampleStore).1 "u1" [⟨"p1", 2⟩] _
      storeAfterOrder rfl rfl
    exact ⟨ord, h2, h3⟩
  · have hc : ∃ r', memoryOrderService.Create "u1" [⟨"p1", 9⟩] storeAfterOrder =
        some ((none, some (errors.New "insufficient stock")), r') := ⟨_, rfl⟩
    obtain ⟨r', hc⟩ := hc
    exact ⟨r', hc, (orders_are_created_once storeAfterOrder).2.1 _ _ _ _ _ hc⟩
  · have hc : ∃ res r', MemoryRepository.CreateProduct (sampleProduct "p1" 7) storeAfterOrder =
        some (res, r') := ⟨_, _, rfl⟩
    obtain ⟨res, r', hc⟩ := hc
    exact ⟨res, r', hc, (orders_are_created_once storeAfterOrder).2.2.1 _ _ _ hc⟩

/-- C16, as amended.  ApplyDelta contract of the in-memory store.  For every id, every delta and
every transaction handle, when the sum of the stored quantity and `delta` is a Go `int` (the
addition does not overflow), a call of `MemoryRepository.UpdateQuantity` that can take the mutex
returns; users, orders and the mutex are as before; and: if no product is stored under `id` it
returns 'product not found' and the products are unchanged; if the product exists and
`quantity + delta < 0` it returns 'insufficient stock' and the products are unchanged; otherwise
it returns nil, the product under `id` is the old one with `Quantity` set to `quantity + delta`
and `UpdatedAt` set to the current time, and every other product is unchanged. -/
theorem UpdateQuantity_contract (tx : Tx) (id : String) (delta : Int) (r : MemoryRepository)
    (hret : r.mu = false ∨ tx = Tx.memoryTx true)
    (hfit : ∀ p, mapGet r.products id = some p → isInt (p.Quantity + delta)) :
    ∃ e r', MemoryRepository.UpdateQuantity tx id delta r = some (e, r') ∧
      r'.users = r.users ∧ r'.orders = r.orders ∧ r'.mu = r.mu ∧
      (mapGet r.products id = none →
        e = some (errors.New "product not found") ∧ r'.products = r.products) ∧
      (∀ p, mapGet r.products id = some p → p.Quantity + delta < 0 →
        e = some (errors.New "insufficient stock") ∧ r'.products = r.products) ∧
      (∀ p, mapGet r.products id = some p → 0 ≤ p.Quantity + delta →
        e = none ∧
        mapGet r'.products id =
          some { p with Quantity := p.Quantity + delta, UpdatedAt := r.clock r.clockCalls } ∧
        ∀ k, k ≠ id → mapGet r'.products k = mapGet r.products k) := by
  obtain ⟨e, r', h⟩ := MemoryRepository.UpdateQuantity_total tx id delta r hret
  obtain ⟨⟨a1, a2, a3, _⟩, hc⟩ := MemoryRepository.UpdateQuantity_spec _ _ _ _ _ _ h
  refine ⟨e, r', h, a2, a3, a1, ?_, ?_, ?_⟩
  · intro hnone
    rcases hc with ⟨h1, _, h3, _⟩ | ⟨_, ⟨p, hp, _⟩, _⟩ | ⟨_, _, p, hp, _⟩
    · exact ⟨h1, h3⟩
    · rw [hnone] at hp
      cases hp
    · rw [hnone] at hp
      cases hp
  · intro p hp hlt
    have hw := wrapInt_of_isInt (hfit p hp)
    rcases hc with ⟨_, h2, _⟩ | ⟨h1, _, h3, _⟩ | ⟨_, _, q, hq, hq2, _⟩
    · rw [hp] at h2
      cases h2
    · exact ⟨h1, h3⟩
    · rw [hp] at hq
      cases hq
      rw [hw] at hq2
      omega
  · intro p hp hge
    have hw := wrapInt_of_isInt (hfit p hp)
    rcases hc with ⟨_, h2, _⟩ | ⟨_, ⟨q, hq, hq2⟩, _⟩ | ⟨h1, _, q, hq, _, hq3⟩
    · rw [hp] at h2
      cases h2
    · rw [hp] at hq
      cases hq
      rw [hw] at hq2
      omega
    · rw [hp] at hq
      cases hq
      rw [hw] at hq3
      refine ⟨h1, by rw [hq3, mapGet_mapSet_self], fun k hk => ?_⟩
      rw [hq3, mapGet_mapSet_ne _ _ _ _ hk]

theorem UpdateQuantity_contract_witness :
    ∃ e r', MemoryRepository.UpdateQuantity Tx.nil "p1" (-2) sampleStore = some (e, r') ∧
      e = none ∧
      mapGet r'.products "p1" = some { sampleProduct "p1" 5 with Quantity := 3, UpdatedAt := 100 } ∧
      mapGet r'.products "p2" = mapGet sampleStore.products "p2" := by
  obtain ⟨e, r', h, _, _, _, _, _, h3⟩ :=
    UpdateQuantity_contract Tx.nil "p1" (-2) sampleStore (Or.inl rfl)
      (fun p hp => by
        have : p = sampleProduct "p1" 5 := by
          simpa [sampleStore, NewMemoryRepository, mapGet] using hp.symm
        subst this
        decide)
  obtain ⟨h4, h5, h6⟩ := h3 (sampleProduct "p1" 5) rfl (by decide)
  exact ⟨e, r', h, h4, h5, h6 "p2" (by decide)⟩

/-- C16, as stated, fails.  In `fullStore` the product `p1` has the quantity 9223372036854775807,
the largest Go `int`.  With `delta = 1` the product exists and `quantity + delta` is not
negative, yet `UpdateQuantity` returns 'insufficient stock' and leaves the quantity as it was:
the Go sum wraps round to the smallest `int`. -/
theorem UpdateQuantity_overflow_is_rejected :
    fullStore.quantity "p1" = some 9223372036854775807 ∧
    (0 : Int) ≤ 9223372036854775807 + 1 ∧
    (MemoryRepository.UpdateQuantity Tx.nil "p1" 1 fullStore).map
        (fun x => (x.1, x.2.quantity "p1")) =
      some (some (errors.New "insufficient stock"), some 9223372036854775807) :=
  ⟨rfl, by decide, rfl⟩

/-- C17 fails on the code.  `updateQuantityQuery` affects no row both when no row has the id and
when the row has too small a quantity; `query.Exec` returns `ErrNotFound` in both cases and
`UpdateQuantity` turns it into 'insufficient stock'.  On a table whose only row is `p1` with
quantity 3: for the id `ghost`, which matches no row, the call returns 'insufficient stock', not
'product not found', and this is the very error that it returns for `p1` with delta -5. -/
theorem postgres_UpdateQuantity_missing_row :
    postgres.UpdateQuantity postgres.productsTable 7 "ghost" (-1) [sampleProduct "p1" 3] =
      some (some (errors.New "insufficient stock"), [sampleProduct "p1" 3]) ∧
    postgres.UpdateQuantity postgres.productsTable 7 "p1" (-5) [sampleProduct "p1" 3] =
      some (some (errors.New "insufficient stock"), [sampleProduct "p1" 3]) ∧
    postgres.UpdateQuantity postgres.productsTable 7 "p1" (-1) [sampleProduct "p1" 3] =
      some (none, [{ sampleProduct "p1" 3 with Quantity := 2, UpdatedAt := 7 }]) :=
  ⟨rfl, rfl, rfl⟩

/-- C18. LockForUpdate omits unknown ids.  For every list `ids` and every transaction handle,
a call of `MemoryRepository.GetByIDsForUpdate(tx, ids)` that can take the mutex (the mutex is
free, or `tx` is a `*memoryTx` of the repository) returns a nil error and the list obtained from
`ids` by replacing each stored id by its product and dropping each id that is not stored: the
products of the result are exactly the stored products of the ids of `ids`, in the order of
`ids`.  The result has length `len(ids)` if and only if every id of `ids` is stored (for every
`ids`, duplicate-free or not), and users, products, orders and the mutex are as before. -/
theorem GetByIDsForUpdate_omits_unknown (tx : Tx) (ids : List String) (r : MemoryRepository)
    (h : r.mu = false ∨ tx = Tx.memoryTx true) :
    ∃ r', MemoryRepository.GetByIDsForUpdate tx ids r =
        some ((ids.filterMap (mapGet r.products), none), r') ∧
      r'.users = r.users ∧ r'.products = r.products ∧ r'.orders = r.orders ∧ r'.mu = r.mu ∧
      (∀ p, p ∈ ids.filterMap (mapGet r.products) ↔ ∃ id ∈ ids, mapGet r.products id = some p) ∧
      ((ids.filterMap (mapGet r.products)).length = ids.length ↔
        ∀ id ∈ ids, mapGet r.products id ≠ none) ∧
      (r.KeyedByID → (ids.filterMap (mapGet r.products)).map (fun p => p.ID) =
        ids.filter (fun id => (mapGet r.products id).isSome)) := by
  have hrest : (∀ p, p ∈ ids.filterMap (mapGet r.products) ↔
        ∃ id ∈ ids, mapGet r.products id = some p) ∧
      ((ids.filterMap (mapGet r.products)).length = ids.length ↔
        ∀ id ∈ ids, mapGet r.products id ≠ none) ∧
      (r.KeyedByID → (ids.filterMap (mapGet r.products)).map (fun p => p.ID) =
        ids.filter (fun id => (mapGet r.products id).isSome)) := by
    refine ⟨fun p => by simp [List.mem_filterMap], filterMap_length_eq_iff, fun hkey => ?_⟩
    induction ids with
    | nil => rfl
    | cons id rest ih =>
      cases hg : mapGet r.products id with
      | none => simp [List.filterMap_cons, hg, List.filter_cons, ih]
      | some p => simp [List.filterMap_cons, hg, List.filter_cons, ih, hkey id p hg]
  rcases MemoryRepository.lock_returns (r.record (Invocation.GetByIDsForUpdate tx ids)) tx
    (by simpa [MemoryRepository.record] using h) with ⟨_, hl⟩ | ⟨hmu, hl⟩
  · refine ⟨(r.record (Invocation.GetByIDsForUpdate tx ids)).unlock false,
      by simp only [MemoryRepository.GetByIDsForUpdate, hl]; rfl, rfl, rfl, rfl, rfl, hrest⟩
  · refine ⟨({ r.record (Invocation.GetByIDsForUpdate tx ids) with mu := true } :
        MemoryRepository).unlock true,
      by simp only [MemoryRepository.GetByIDsForUpdate, hl]; rfl, rfl, rfl, rfl, ?_, hrest⟩
    simp only [MemoryRepository.record] at hmu
    simp [MemoryRepository.unlock, hmu]

theorem GetByIDsForUpdate_omits_unknown_witness :
    ∃ r', MemoryRepository.GetByIDsForUpdate Tx.nil ["p2", "ghost", "p1"] sampleStore =
        some (([sampleProduct "p2" 1, sampleProduct "p1" 5], none), r') ∧
      r'.users = sampleStore.users ∧ r'.products = sampleStore.products ∧
      r'.orders = sampleStore.orders ∧ r'.mu = sampleStore.mu := by
  obtain ⟨r', h1, h2, h3, h4, h5, _⟩ :=
    GetByIDsForUpdate_omits_unknown Tx.nil ["p2", "ghost", "p1"] sampleStore (Or.inl rfl)
  exact ⟨r', h1, h2, h3, h4, h5⟩

/-- C19. Commit or roll back.  Run the PostgreSQL `WithTx` with the connection, the transaction
and the callback `f` each logging its own call, from a world in which the repository is not
locked.  (1) When `Begin` fails, `WithTx` returns that error wrapped as 'begin tx' and the log
holds `Begin` only: `f` is not invoked.  (2) When `Begin` succeeds with `tx` and `f` returns a
non-nil error, `WithTx` returns that same error and the log is `Begin`, the call of `f` with
`tx`, `Rollback` on `tx`: `f` is invoked once, and `Commit` is not called.  (3) When `f` returns
nil (the repository still not locked), the log is `Begin`, the call of `f` with `tx`, `Commit`
on `tx`: `f` is invoked once, `Rollback` is not called, and `WithTx` returns what `Commit`
returned, wrapped as 'commit tx' when it is an error. -/
theorem WithTx_commit_or_rollback {σ κ : Type} (r : postgresql.Repository σ)
    (f : Tx → κ → Method σ (Option GoError × κ)) (k : κ) (w : σ)
    (log : List postgresql.Event) (hfree : r.isLocked w = false) :
    (∀ tx e w1, r.Conn.Begin w = some ((tx, some e), w1) →
      r.traced.WithTx (postgresql.tracedCallback f) k (w, log) =
        some ((errors.Wrap (some e) "begin tx", k), (w1, log ++ [postgresql.Event.Begin]))) ∧
    (∀ tx w1 e k1 w2 rb w3, r.Conn.Begin w = some ((tx, none), w1) →
      f tx k w1 = some ((some e, k1), w2) → r.Conn.Rollback tx w2 = some (rb, w3) →
      r.traced.WithTx (postgresql.tracedCallback f) k (w, log) =
        some ((some e, k1), (w3, log ++ [postgresql.Event.Begin, postgresql.Event.Callback tx,
          postgresql.Event.Rollback tx]))) ∧
    (∀ tx w1 k1 w2 cm w3, r.Conn.Begin w = some ((tx, none), w1) →
      f tx k w1 = some ((none, k1), w2) → r.isLocked w2 = false →
      r.Conn.Commit tx w2 = some (cm, w3) →
      r.traced.WithTx (postgresql.tracedCallback f) k (w, log) =
        some ((errors.Wrap cm "commit tx", k1), (w3, log ++ [postgresql.Event.Begin,
          postgresql.Event.Callback tx, postgresql.Event.Commit tx]))) := by
  refine ⟨?_, ?_, ?_⟩
  · intro tx e w1 hb
    simp [postgresql.Repository.WithTx, postgresql.Repository.Locked,
      postgresql.Repository.traced, postgresql.Connection.traced, hfree, hb]
  · intro tx w1 e k1 w2 rb w3 hb hf hr
    simp [postgresql.Repository.WithTx, postgresql.Repository.Locked,
      postgresql.Repository.traced, postgresql.Connection.traced, postgresql.tracedCallback,
      hfree, hb, hf, hr]
  · intro tx w1 k1 w2 cm w3 hb hf hfree2 hc
    simp [postgresql.Repository.WithTx, postgresql.Repository.Locked,
      postgresql.Repository.traced, postgresql.Connection.traced, postgresql.tracedCallback,
      hfree, hb, hf, hfree2, hc]

theorem WithTx_commit_or_rollback_witness :
    (sampleRepository downConnection).traced.WithTx
        (postgresql.tracedCallback (fun _ (k : Nat) w => some ((none, k + 1), w))) 0 (0, []) =
      some ((errors.Wrap (some (errors.New "connection refused")) "begin tx", 0),
        (0, [postgresql.Event.Begin])) ∧
    (sampleRepository sampleConnection).traced.WithTx
        (postgresql.tracedCallback
          (fun _ (k : Nat) w => some ((some (errors.New "insufficient stock"), k + 1), w)))
        0 (0, []) =
      some ((some (errors.New "insufficient stock"), 1),
        (1, [postgresql.Event.Begin, postgresql.Event.Callback (Tx.pgx 0),
          postgresql.Event.Rollback (Tx.pgx 0)])) ∧
    (sampleRepository sampleConnection).traced.WithTx
        (postgresql.tracedCallback (fun _ (k : Nat) w => some ((none, k + 1), w))) 0 (0, []) =
      some ((errors.Wrap none "commit tx", 1),
        (1, [postgresql.Event.Begin, postgresql.Event.Callback (Tx.pgx 0),
          postgresql.Event.Commit (Tx.pgx 0)])) :=
  ⟨(WithTx_commit_or_rollback (sampleRepository downConnection) _ 0 0 [] rfl).1 _ _ _ rfl,
    (WithTx_commit_or_rollback (sampleRepository sampleConnection) _ 0 0 [] rfl).2.1
      _ _ _ _ _ _ _ rfl rfl rfl,
    (WithTx_commit_or_rollback (sampleRepository sampleConnection) _ 0 0 [] rfl).2.2
      _ _ _ _ _ _ rfl rfl rfl rfl⟩

/-- C20 fails on the code.  `MemoryRepository.WithTx` takes no transaction handle and calls
`r.mu.Lock()` unconditionally, unlike the method `lock`, which skips the mutex for a `*memoryTx`
of the same repository.  So whatever `f` is, and whatever the outer callback does after the
nested call, an outer `WithTx` whose callback calls `WithTx(f)` never returns: the inner call
blocks on the mutex that the outer call holds. -/
theorem nested_WithTx_blocks {κ κ' : Type}
    (f : Tx → κ' → Method MemoryRepository (Option GoError × κ')) (k' : κ')
    (after : Option GoError × κ' → κ → Method MemoryRepository (Option GoError × κ)) (k : κ)
    (r : MemoryRepository) :
    MemoryRepository.WithTx
      (fun _ k0 w =>
        match MemoryRepository.WithTx f k' w with
        | none => none
        | some (res, w1) => after res k0 w1) k r = none := by
  cases hmu : r.mu <;> simp [MemoryRepository.WithTx, MemoryRepository.record, hmu]

/-- C21. Emails are unique ignoring letter case in the in-memory repository, where two strings
are equal ignoring letter case when they have the same number of runes and at every position
the same rune up to simple Unicode case folding (`ANN@Example.COM` and `ann@example.com`,
`Émile` and `émile`, but not `ann` and `bob`).  Every sequence of `CreateUser` calls on the
empty store runs to a state in which every key holds one user and no two stored users have
emails that are equal ignoring letter case.  On a free mutex, a `CreateUser` call whose email
equals, ignoring letter case, the email of a stored user returns 'user already exists' and
leaves the user map as it was.  After a successful `CreateUser(u)`, `GetByEmail(e)` returns a
user whose email equals `e` ignoring letter case, for every `e` that equals `u.Email` ignoring
letter case; when the emails were unique before the call, it is the created user, whose email
is that of `u`. -/
theorem emails_unique_ignoring_case :
    (∀ (ug : Nat → String) (clock : Nat → Time) (us : List User),
      ∃ r, runOps (us.map Op.registerUser) (NewMemoryRepository ug clock) = some r ∧
        r.EmailsUnique ∧
        ∀ k1 k2 u1 u2, mapGet r.users k1 = some u1 → mapGet r.users k2 = some u2 → k1 ≠ k2 →
          ¬ EqualIgnoringCase u1.Email u2.Email) ∧
    (∀ (r : MemoryRepository) (user : User) (k : String) (u : User), r.mu = false →
      (k, u) ∈ r.users → EqualIgnoringCase u.Email user.Email →
      ∃ r', MemoryRepository.CreateUser user r =
          some ((none, some (errors.New "user already exists")), r') ∧
        r'.users = r.users) ∧
    (∀ (r : MemoryRepository) (user created : User) (r' : MemoryRepository) (e : String),
      MemoryRepository.CreateUser user r = some ((some created, none), r') →
      EqualIgnoringCase e user.Email →
      created.Email = user.Email ∧
      ∃ found r'', MemoryRepository.GetByEmail e r' = some ((some found, none), r'') ∧
        EqualIgnoringCase found.Email e ∧ (r.EmailsUnique → found = created)) ∧
    (EqualIgnoringCase "ANN@Example.COM" "ann@example.com" ∧
      EqualIgnoringCase "Émile@x.com" "émile@x.com" ∧
      EqualIgnoringCase "ΣΊΣΥΦΟΣ" "σίσυφος" ∧
      ¬ EqualIgnoringCase "ann@x.com" "bob@x.com" ∧
      ¬ EqualIgnoringCase "ann@x.com" "ann@x.co" ∧
      ¬ EqualIgnoringCase "Straße" "STRASSE") := by
  have hsym : Symmetric (fun a b : String × User => ¬ EqualIgnoringCase a.2.Email b.2.Email) := by
    intro a b hab hba
    rw [← EqualFold_iff, EqualFold_symm, EqualFold_iff] at hba
    exact hab hba
  refine ⟨?_, ?_, ?_, ?_⟩
  · intro ug clock us
    obtain ⟨r, h, _, hinv⟩ := registerUsers_unique us (NewMemoryRepository ug clock) rfl
      ⟨by simp [NewMemoryRepository], by simp [NewMemoryRepository]⟩
    refine ⟨r, h, hinv, ?_⟩
    intro k1 k2 u1 u2 h1 h2 hk
    exact hinv.2.forall hsym (mem_of_mapGet _ _ _ h1) (mem_of_mapGet _ _ _ h2)
      (fun hc => hk (congrArg Prod.fst hc))
  · intro r user k u hmu hmem heq
    rw [MemoryRepository.CreateUser_memory user r hmu,
      if_pos (List.any_eq_true.mpr ⟨(k, u), hmem, (EqualFold_iff _ _).mpr heq⟩)]
    exact ⟨_, rfl, rfl⟩
  · intro r user created r' e hc he
    have he := (EqualFold_iff _ _).mpr he
    have hmu : r.mu = false := by
      cases hm : r.mu with
      | false => rfl
      | true =>
        simp [MemoryRepository.CreateUser, MemoryRepository.lock, MemoryRepository.record, hm]
          at hc
    have hc0 := hc
    rw [MemoryRepository.CreateUser_memory user r hmu] at hc
    by_cases hany : r.users.any (fun e => EqualFold e.2.Email user.Email) = true
    · rw [if_pos hany] at hc
      simp at hc
    rw [if_neg hany] at hc
    simp only [Option.some.injEq, Prod.mk.injEq, and_true] at hc
    obtain ⟨hcr, hr'⟩ := hc
    have hmu1 : r'.mu = false := by rw [← hr']; exact hmu
    have hce : created.Email = user.Email := by rw [← hcr]
    have hin : (created.ID, created) ∈ r'.users := by
      rw [← hr', ← hcr]
      exact mem_mapSet_self _ _ _
    refine ⟨hce, ?_⟩
    rw [MemoryRepository.GetByEmail_memory e r' hmu1]
    have hp : EqualFold created.Email e = true := by
      rw [hce, EqualFold_symm]
      exact he
    cases hf : r'.users.find? (fun x => EqualFold x.2.Email e) with
    | none =>
      have := List.find?_eq_none.mp hf (created.ID, created) hin
      simp [hp] at this
    | some x =>
      have hx : EqualFold x.2.Email e = true := by simpa using List.find?_some hf
      have hxm : x ∈ r'.users := List.mem_of_find?_eq_some hf
      refine ⟨x.2, r'.record (Invocation.GetByEmail e), rfl, (EqualFold_iff _ _).mp hx, ?_⟩
      intro hinv
      obtain ⟨_, _, h1, _, hinv1⟩ := MemoryRepository.CreateUser_unique user r hmu hinv
      rw [hc0] at h1
      simp only [Option.some.injEq, Prod.mk.injEq] at h1
      obtain ⟨_, rfl⟩ := h1
      have hxe : x = (created.ID, created) := by
        by_contra hne
        have := hinv1.2.forall hsym hxm hin hne
        have ht : EqualFold x.2.Email created.Email = true :=
          EqualFold_trans hx (by rw [EqualFold_symm]; exact hp)
        exact this ((EqualFold_iff _ _).mp ht)
      rw [hxe]
  · refine ⟨(EqualFold_iff _ _).mp rfl, (EqualFold_iff _ _).mp rfl, (EqualFold_iff _ _).mp rfl,
      (EqualFold_eq_false_iff _ _).mp rfl, (EqualFold_eq_false_iff _ _).mp rfl,
      (EqualFold_eq_false_iff _ _).mp rfl⟩

theorem emails_unique_ignoring_case_witness :
    (∃ r', MemoryRepository.CreateUser ⟨"", "ANN@example.COM", "A", "L", 40, true, "h", 0⟩
        sampleStore = some ((none, some (errors.New "user already exists")), r') ∧
      r'.users = sampleStore.users) ∧
    (∃ created r' r'',
      MemoryRepository.CreateUser ⟨"", "Émile@Example.com", "Émile", "Roy", 30, false, "h", 0⟩
        emptyStore = some ((some created, none), r') ∧
      created.Email = "Émile@Example.com" ∧
      MemoryRepository.GetByEmail "émile@example.COM" r' = some ((some created, none), r'') ∧
      ∃ r3, MemoryRepository.CreateUser
          ⟨"", "ÉMILE@EXAMPLE.COM", "É", "R", 31, false, "h", 0⟩ r' =
        some ((none, some (errors.New "user already exists")), r3) ∧ r3.users = r'.users) := by
  refine ⟨emails_unique_ignoring_case.2.1 sampleStore _ "u1" sampleUser rfl
    (by simp [sampleStore]) ((EqualFold_iff _ _).mp rfl), ?_⟩
  have hc : ∃ c r',
      MemoryRepository.CreateUser ⟨"", "Émile@Example.com", "Émile", "Roy", 30, false, "h", 0⟩
        emptyStore = some ((some c, none), r') ∧ (c.ID, c) ∈ r'.users ∧ r'.mu = false ∧
      c.Email = "Émile@Example.com" := ⟨_, _, rfl, by decide, rfl, rfl⟩
  obtain ⟨c, r', hc, hmem, hmu, hce⟩ := hc
  obtain ⟨h1, found, r'', h2, _, h3⟩ :=
    emails_unique_ignoring_case.2.2.1 emptyStore _ c r' "émile@example.COM" hc
      ((EqualFold_iff _ _).mp rfl)
  rw [h3 ⟨List.nodup_nil, List.Pairwise.nil⟩] at h2
  obtain ⟨r3, h4, h5⟩ := emails_unique_ignoring_case.2.1 r'
    ⟨"", "ÉMILE@EXAMPLE.COM", "É", "R", 31, false, "h", 0⟩ c.ID c hmu hmem
    (by rw [hce]; exact (EqualFold_iff _ _).mp rfl)
  exact ⟨c, r', r'', hc, h1, h2, r3, h4, h5⟩

/-- C22. For every error that `OrderService.Create` returns over `MemoryRepository`,
`Handler.writeError` writes the message of the error with a status that is 400 exactly when the
error is one of the four validation errors, 404 exactly when it is 'user not found' or 'product
not found', and 409 exactly when it is 'insufficient stock'; the error is one of these seven, so
the status is never 500. -/
theorem writeError_status_of_Create_error (userID : String) (items : List OrderItemInput)
    (r : MemoryRepository) (o : Option Order) (e : GoError) (r' : MemoryRepository)
    (h : memoryOrderService.Create userID items r = some ((o, some e), r')) :
    ∃ status, Handler.writeError (some e) = some (status, ⟨e.msg⟩) ∧
      (status = 400 ↔ e ∈ validationErrors) ∧
      (status = 404 ↔ e = errors.New "user not found" ∨ e = errors.New "product not found") ∧
      (status = 409 ↔ e = errors.New "insufficient stock") ∧
      (status = 400 ∨ status = 404 ∨ status = 409) ∧ status ≠ 500 := by
  rcases Create_memory_errors userID items r o e r' h with he | rfl | rfl | rfl
  · simp only [validationErrors, List.mem_cons, List.mem_singleton, List.not_mem_nil,
      or_false] at he
    rcases he with rfl | rfl | rfl | rfl <;>
      exact ⟨400, rfl, by decide, by decide, by decide, by decide, by decide⟩
  · exact ⟨404, rfl, by decide, by decide, by decide, by decide, by decide⟩
  · exact ⟨404, rfl, by decide, by decide, by decide, by decide, by decide⟩
  · exact ⟨409, rfl, by decide, by decide, by decide, by decide, by decide⟩

theorem writeError_status_of_Create_error_witness :
    Handler.writeError (some (errors.New "quantity must be positive")) =
      some (400, ⟨"quantity must be positive"⟩) ∧
    Handler.writeError (some (errors.New "user not found")) = some (404, ⟨"user not found"⟩) ∧
    Handler.writeError (some (errors.New "insufficient stock")) =
      some (409, ⟨"insufficient stock"⟩) := by
  have h1 : ∃ r', memoryOrderService.Create "u1" [⟨"p1", 0⟩] sampleStore =
      some ((none, some (errors.New "quantity must be positive")), r') := ⟨_, rfl⟩
  have h2 : ∃ r', memoryOrderService.Create "ghost" [⟨"p1", 1⟩] sampleStore =
      some ((none, some (errors.New "user not found")), r') := ⟨_, rfl⟩
  have h3 : ∃ r', memoryOrderService.Create "u1" [⟨"p1", 9⟩] sampleStore =
      some ((none, some (errors.New "insufficient stock")), r') := ⟨_, rfl⟩
  obtain ⟨r1, h1⟩ := h1
  obtain ⟨r2, h2⟩ := h2
  obtain ⟨r3, h3⟩ := h3
  obtain ⟨s1, w1, a1, _⟩ := writeError_status_of_Create_error _ _ _ _ _ _ h1
  obtain ⟨s2, w2, _, a2, _⟩ := writeError_status_of_Create_error _ _ _ _ _ _ h2
  obtain ⟨s3, w3, _, _, a3, _⟩ := writeError_status_of_Create_error _ _ _ _ _ _ h3
  rw [a1.mpr (by decide)] at w1
  rw [a2.mpr (Or.inl rfl)] at w2
  rw [a3.mpr rfl] at w3
  exact ⟨w1, w2, w3⟩

/-- C23. Storage errors pass through `OrderService.Create` unchanged, whatever the repositories
and the transaction manager.  For a validated request, an error `e` from `GetByID` makes
`Create` return `(nil, e)` in the state that `GetByID` left, so before any call of the
transaction manager.  Inside the closure, an error `e` from `GetByIDsForUpdate`, from the
`UpdateQuantity` call of any line, or from `CreateOrder` makes the closure return exactly `e` in
the state that the failing call left, so before any further repository call. -/
theorem storage_errors_pass_through {σ : Type} (s : OrderService σ) (userID : String)
    (items : List OrderItemInput) (e : GoError) :
    (∀ w u w1, Validated userID items →
      s.users.GetByID userID w = some ((u, some e), w1) →
      s.Create userID items w = some ((none, some e), w1)) ∧
    (∀ tx created w ps w1,
      s.products.GetByIDsForUpdate tx (collectIDs items [] []) w = some ((ps, some e), w1) →
      s.createTx userID items tx created w = some ((some e, created), w1)) ∧
    (∀ tx created w ps w1 pre it post t1 o1 w2 product w3,
      s.products.GetByIDsForUpdate tx (collectIDs items [] []) w = some ((ps, none), w1) →
      ps.length = (collectIDs items [] []).length →
      items = pre ++ it :: post →
      itemLoop s.products tx (buildProductMap ps []) pre Decimal.Zero [] w1 =
        some ((none, t1, o1), w2) →
      mapGet (buildProductMap ps []) it.ProductID = some product →
      ¬ product.Quantity < it.Quantity →
      s.products.UpdateQuantity tx product.ID (wrapInt (-it.Quantity)) w2 = some (some e, w3) →
      s.createTx userID items tx created w = some ((some e, created), w3)) ∧
    (∀ tx created w ps w1 total orderItems w2 order w3,
      s.products.GetByIDsForUpdate tx (collectIDs items [] []) w = some ((ps, none), w1) →
      ps.length = (collectIDs items [] []).length →
      itemLoop s.products tx (buildProductMap ps []) items Decimal.Zero [] w1 =
        some ((none, total, orderItems), w2) →
      s.orders.CreateOrder tx ⟨"", userID, 0, total, orderItems⟩ orderItems w2 =
        some ((order, some e), w3) →
      s.createTx userID items tx created w = some ((some e, order), w3)) := by
  refine ⟨?_, ?_, ?_, ?_⟩
  · intro w u w1 hv hg
    obtain ⟨h1, h2, h3⟩ := hv
    have hl : ¬ items.length = 0 := fun h => h2 (List.length_eq_zero.mp h)
    simp only [OrderService.Create, h1, hl, if_false, validateItems_eq_none h3, hg]
  · intro tx created w ps w1 hg
    simp only [OrderService.createTx, hg]
  · intro tx created w ps w1 pre it post t1 o1 w2 product w3 hg hlen hi hpre hp hq hu
    have hloop : itemLoop s.products tx (buildProductMap ps []) items Decimal.Zero [] w1 =
        some ((some e, t1, o1), w3) := by
      rw [hi, itemLoop_append _ _ _ _ _ _ _ _ _ _ _ hpre]
      simp only [itemLoop, hp, hq, if_false, hu]
    simp only [OrderService.createTx, hg, hlen, ne_eq, not_true_eq_false, if_false, hloop]
  · intro tx created w ps w1 total orderItems w2 order w3 hg hlen hloop hc
    simp only [OrderService.createTx, hg, hlen, ne_eq, not_true_eq_false, if_false, hloop, hc]

theorem storage_errors_pass_through_witness :
    (faultyService 0).Create "u1" [⟨"p1", 1⟩, ⟨"p2", 2⟩] 0 =
      some ((none, some (errors.New "storage down")), 1) ∧
    (faultyService 1).createTx "u1" [⟨"p1", 1⟩, ⟨"p2", 2⟩] Tx.other none 1 =
      some ((some (errors.New "storage down"), none), 2) ∧
    (faultyService 3).createTx "u1" [⟨"p1", 1⟩, ⟨"p2", 2⟩] Tx.other none 1 =
      some ((some (errors.New "storage down"), none), 4) ∧
    (faultyService 4).createTx "u1" [⟨"p1", 1⟩, ⟨"p2", 2⟩] Tx.other none 1 =
      some ((some (errors.New "storage down"), none), 5) :=
  ⟨(storage_errors_pass_through (faultyService 0) "u1" [⟨"p1", 1⟩, ⟨"p2", 2⟩]
      (errors.New "storage down")).1 0 none 1 ⟨by decide, by simp, by simp⟩ rfl,
    (storage_errors_pass_through (faultyService 1) "u1" [⟨"p1", 1⟩, ⟨"p2", 2⟩]
      (errors.New "storage down")).2.1 Tx.other none 1 [] 2 rfl,
    (storage_errors_pass_through (faultyService 3) "u1" [⟨"p1", 1⟩, ⟨"p2", 2⟩]
      (errors.New "storage down")).2.2.1 Tx.other none 1
      [sampleProduct "p1" 5, sampleProduct "p2" 5] 2 [⟨"p1", 1⟩] ⟨"p2", 2⟩ []
      _ _ 3 (sampleProduct "p2" 5) 4 rfl rfl rfl rfl rfl (by decide) rfl,
    (storage_errors_pass_through (faultyService 4) "u1" [⟨"p1", 1⟩, ⟨"p2", 2⟩]
      (errors.New "storage down")).2.2.2 Tx.other none 1
      [sampleProduct "p1" 5, sampleProduct "p2" 5] 2 _ _ 4 none 5 rfl rfl rfl rfl⟩

/-- C24, as amended.  A price string that `toProductResponse` or `toOrderResponse` writes is
`StringFixed(2)` of the stored decimal, and it denotes that decimal rounded to two decimal
places by `Round(2)`: it denotes the stored value exactly if and only if that value is a whole
number of hundredths.  So for every price string accepted by the product-creation handler over
the in-memory repository (it parses to a decimal above zero, with or without an exponent part;
description non-empty after trimming, quantity not negative), the `Price` of the 201 response
denotes the parsed value rounded to two places, and denotes the same value as the request
string exactly when the parsed value is a whole number of hundredths. -/
theorem price_strings_round_to_two_places :
    (∀ d : Decimal, denotes (d.StringFixed 2) = some (d.Round 2).toRat ∧
      (denotes (d.StringFixed 2) = some d.toRat ↔ ∃ k : Int, d.toRat = (k : ℚ) / 100)) ∧
    (∀ p : Product, (toProductResponse p).Price = p.Price.StringFixed 2) ∧
    (∀ o : Order, (toOrderResponse o).TotalPrice = o.TotalPrice.StringFixed 2 ∧
      (toOrderResponse o).Items.map (fun x => x.Price) =
        o.Items.map (fun x => x.Price.StringFixed 2)) ∧
    (∀ (req : CreateProductRequest) (r : MemoryRepository) (d : Decimal), r.mu = false →
      Decimal.NewFromString req.Price = some d → 0 < d.toRat →
      strings.TrimSpace req.Description ≠ "" → 0 ≤ req.Quantity →
      ∃ resp r', memoryHandler.CreateProduct req r = some ((201, Sum.inr resp), r') ∧
        denotes resp.Price = some (d.Round 2).toRat ∧
        (denotes resp.Price = denotes req.Price ↔ ∃ k : Int, d.toRat = (k : ℚ) / 100)) := by
  have hd : ∀ d : Decimal, denotes (d.StringFixed 2) = some (d.Round 2).toRat ∧
      (denotes (d.StringFixed 2) = some d.toRat ↔ ∃ k : Int, d.toRat = (k : ℚ) / 100) := by
    intro d
    refine ⟨denotes_StringFixed d, ?_⟩
    rw [denotes_StringFixed, Option.some.injEq]
    exact Decimal.Round_exact_iff d
  refine ⟨hd, fun _ => rfl, fun o => ⟨rfl, ?_⟩, ?_⟩
  · simp [toOrderResponse, List.map_map, Function.comp_def]
  · intro req r d hmu hp hpos hdesc hq
    obtain ⟨p, r', hc, hprice, _⟩ := Handler_CreateProduct_created req r d hmu hp hpos hdesc hq
    refine ⟨toProductResponse p, r', hc, ?_, ?_⟩
    · show denotes (p.Price.StringFixed 2) = _
      rw [hprice]
      exact (hd d).1
    · show denotes (p.Price.StringFixed 2) = _ ↔ _
      rw [hprice]
      have : denotes req.Price = some d.toRat := by simp only [denotes, hp, Option.map_some']
      rw [this]
      exact (hd d).2

theorem price_strings_round_to_two_places_witness :
    (∃ resp r', memoryHandler.CreateProduct ⟨" widget ", ["tools"], 3, "12.50"⟩ emptyStore =
        some ((201, Sum.inr resp), r') ∧
      denotes resp.Price = some ((⟨1250, -2⟩ : Decimal).Round 2).toRat ∧
      (denotes resp.Price = denotes "12.50" ↔
        ∃ k : Int, (⟨1250, -2⟩ : Decimal).toRat = (k : ℚ) / 100)) ∧
    (∃ resp r', memoryHandler.CreateProduct ⟨"widget", [], 1, "1.5e2"⟩ emptyStore =
        some ((201, Sum.inr resp), r') ∧
      denotes resp.Price = some ((⟨15, 1⟩ : Decimal).Round 2).toRat ∧
      (denotes resp.Price = denotes "1.5e2" ↔
        ∃ k : Int, (⟨15, 1⟩ : Decimal).toRat = (k : ℚ) / 100)) ∧
    (∃ r', memoryHandler.CreateProduct ⟨"widget", [], 1, "1.5e2"⟩ emptyStore =
      some ((201, Sum.inr ⟨"id-0", "widget", [], 1, "150.00", 100, 100⟩), r')) :=
  ⟨price_strings_round_to_two_places.2.2.2 ⟨" widget ", ["tools"], 3, "12.50"⟩ emptyStore
      ⟨1250, -2⟩ rfl rfl ((Decimal.toRat_pos_iff _).mpr (by decide)) (by decide) (by decide),
    price_strings_round_to_two_places.2.2.2 ⟨"widget", [], 1, "1.5e2"⟩ emptyStore
      ⟨15, 1⟩ rfl rfl ((Decimal.toRat_pos_iff _).mpr (by decide)) (by decide) (by decide),
    ⟨_, rfl⟩⟩

/-- C24, as stated, fails.  The price string `0.001` parses to a decimal above zero and the
handler creates the product with that price, but the `Price` of the response is `0.00`, which
denotes zero: the digit is lost to the rounding of `StringFixed(2)`.  In the same way an order
with the item price 0.001 and the total 0.003 is written with the strings `0.00`. -/
theorem price_string_loses_digits :
    Decimal.NewFromString "0.001" = some ⟨1, -3⟩ ∧ 0 < (⟨1, -3⟩ : Decimal).toRat ∧
    (∃ r', memoryHandler.CreateProduct ⟨"widget", [], 3, "0.001"⟩ emptyStore =
        some ((201, Sum.inr ⟨"id-0", "widget", [], 3, "0.00", 100, 100⟩), r') ∧
      mapGet r'.products "id-0" = some ⟨"id-0", "widget", [], 3, ⟨1, -3⟩, 100, 100⟩) ∧
    denotes "0.001" = some (1 / 1000) ∧ denotes "0.00" = some 0 ∧
    denotes "0.00" ≠ denotes "0.001" ∧
    toOrderResponse ⟨"o1", "u1", 1, ⟨3, -3⟩, [⟨"i1", "o1", "id-0", 3, ⟨1, -3⟩⟩]⟩ =
      ⟨"o1", "u1", 1, "0.00", [⟨"i1", "id-0", 3, "0.00"⟩]⟩ := by
  have h1 : denotes "0.001" = some (1 / 1000) := by
    have h : Decimal.NewFromString "0.001" = some ⟨1, -3⟩ := rfl
    simp only [denotes, h, Option.map_some', Decimal.toRat]
    norm_num
  have h2 : denotes "0.00" = some 0 := by
    have h : Decimal.NewFromString "0.00" = some ⟨0, -2⟩ := rfl
    simp only [denotes, h, Option.map_some', Decimal.toRat]
    norm_num
  refine ⟨rfl, (Decimal.toRat_pos_iff _).mpr (by decide), ⟨_, rfl, rfl⟩, h1, h2, ?_, rfl⟩
  rw [h1, h2]
  norm_num

/-- C25. `ProductService.Create` returns 'description is required' for an empty description,
otherwise 'quantity cannot be negative' for a negative quantity, otherwise 'price must be
positive' for a price that is not above zero, each time leaving the world as it was, so without
a call of the repository.  In every other case, and in no other, it calls `CreateProduct` with a
product whose description, tags, quantity and price are those of the input, a quantity that is
not negative and a price above zero, and returns what that call returns.  On the in-memory
repository such a call is logged once and the stored product has these fields. -/
theorem ProductService_Create_contract {σ : Type} (s : ProductService σ)
    (input : CreateProductInput) (w : σ) :
    (input.Description = "" →
      s.Create input w = some ((none, some (errors.New "description is required")), w)) ∧
    (input.Description ≠ "" → input.Quantity < 0 →
      s.Create input w = some ((none, some (errors.New "quantity cannot be negative")), w)) ∧
    (input.Description ≠ "" → 0 ≤ input.Quantity → input.Price.toRat ≤ 0 →
      s.Create input w = some ((none, some (errors.New "price must be positive")), w)) ∧
    (input.Description ≠ "" → 0 ≤ input.Quantity → 0 < input.Price.toRat →
      s.Create input w =
        (match s.products.CreateProduct
            ⟨"", input.Description, input.Tags, input.Quantity, input.Price, 0, 0⟩ w with
          | none => none
          | some ((_, some err), w1) => some ((none, some err), w1)
          | some ((created, none), w1) => some ((created, none), w1))) ∧
    (∀ r : MemoryRepository, r.mu = false →
      ((input.Description = "" ∨ input.Quantity < 0 ∨ input.Price.toRat ≤ 0) →
        ∃ e, memoryProductService.Create input r = some ((none, some e), r)) ∧
      (¬ (input.Description = "" ∨ input.Quantity < 0 ∨ input.Price.toRat ≤ 0) →
        ∃ p r', memoryProductService.Create input r = some ((some p, none), r') ∧
          r'.calls = r.calls ++ [Invocation.CreateProduct
            ⟨"", input.Description, input.Tags, input.Quantity, input.Price, 0, 0⟩] ∧
          mapGet r'.products p.ID = some p ∧
          p.Description = input.Description ∧ p.Tags = input.Tags ∧
          p.Quantity = input.Quantity ∧ p.Price = input.Price ∧
          0 ≤ p.Quantity ∧ 0 < p.Price.toRat)) := by
  have hle : input.Price.toRat ≤ 0 ↔ input.Price.LessThanOrEqual Decimal.Zero = true := by
    rw [Decimal.LessThanOrEqual_Zero, ← not_lt, Decimal.toRat_pos_iff, not_lt]
  refine ⟨fun h => ?_, fun h1 h2 => ?_, fun h1 h2 h3 => ?_, fun h1 h2 h3 => ?_, fun r hmu => ⟨?_, ?_⟩⟩
  · simp [ProductService.Create, h]
  · simp [ProductService.Create, h1, h2]
  · simp [ProductService.Create, h1, not_lt.mpr h2, hle.mp h3]
  · have h4 : ¬ input.Price.LessThanOrEqual Decimal.Zero = true := fun h => absurd (hle.mpr h) (not_le.mpr h3)
    simp only [ProductService.Create, h1, not_lt.mpr h2, h4, if_false]
    rfl
  · intro h
    unfold ProductService.Create
    split_ifs with h1 h2 h3
    · exact ⟨_, rfl⟩
    · exact ⟨_, rfl⟩
    · exact ⟨_, rfl⟩
    · exfalso
      rcases h with h | h | h
      · exact h1 h
      · exact h2 h
      · exact h3 (hle.mp h)
  · intro h
    have h1 : input.Description ≠ "" := fun e => h (Or.inl e)
    have h2 : ¬ input.Quantity < 0 := fun e => h (Or.inr (Or.inl e))
    have h3 : ¬ input.Price.toRat ≤ 0 := fun e => h (Or.inr (Or.inr e))
    have h4 : ¬ input.Price.LessThanOrEqual Decimal.Zero = true := fun e => h3 (hle.mpr e)
    simp only [ProductService.Create, h1, h2, h4, if_false, memoryProductService, memoryProducts,
      MemoryRepository.CreateProduct, MemoryRepository.lock, MemoryRepository.record, hmu,
      Bool.false_eq_true, if_true, MemoryRepository.nextID, MemoryRepository.timeNow,
      MemoryRepository.unlock]
    refine ⟨_, _, rfl, rfl, ?_, rfl, rfl, rfl, rfl, not_lt.mp h2, not_le.mp h3⟩
    simp [mapGet_mapSet_self]

theorem ProductService_Create_contract_witness :
    memoryProductService.Create ⟨"", [], 1, ⟨1250, -2⟩⟩ emptyStore =
      some ((none, some (errors.New "description is required")), emptyStore) ∧
    memoryProductService.Create ⟨"widget", [], -1, ⟨1250, -2⟩⟩ emptyStore =
      some ((none, some (errors.New "quantity cannot be negative")), emptyStore) ∧
    memoryProductService.Create ⟨"widget", [], 1, ⟨0, -2⟩⟩ emptyStore =
      some ((none, some (errors.New "price must be positive")), emptyStore) ∧
    (∃ p r', memoryProductService.Create ⟨"widget", ["tools"], 1, ⟨1250, -2⟩⟩ emptyStore =
        some ((some p, none), r') ∧
      r'.calls = emptyStore.calls ++ [Invocation.CreateProduct
        ⟨"", "widget", ["tools"], 1, ⟨1250, -2⟩, 0, 0⟩] ∧
      mapGet r'.products p.ID = some p ∧
      p.Description = "widget" ∧ p.Tags = ["tools"] ∧ p.Quantity = 1 ∧ p.Price = ⟨1250, -2⟩ ∧
      0 ≤ p.Quantity ∧ 0 < p.Price.toRat) :=
  ⟨(ProductService_Create_contract memoryProductService ⟨"", [], 1, ⟨1250, -2⟩⟩ emptyStore).1 rfl,
    (ProductService_Create_contract memoryProductService ⟨"widget", [], -1, ⟨1250, -2⟩⟩
      emptyStore).2.1 (by decide) (by decide),
    (ProductService_Create_contract memoryProductService ⟨"widget", [], 1, ⟨0, -2⟩⟩
      emptyStore).2.2.1 (by decide) (by decide) (by simp [Decimal.toRat]),
    ((ProductService_Create_contract memoryProductService ⟨"widget", ["tools"], 1, ⟨1250, -2⟩⟩
      emptyStore).2.2.2.2 emptyStore rfl).2
      (by
        rw [not_or, not_or]
        exact ⟨by decide, by decide, not_le.mpr ((Decimal.toRat_pos_iff _).mpr (by decide))⟩)⟩

/-- C26 fails on the code.  `Register` compares `len(input.Password)`, the length in bytes, with
8, while its error message and the claim speak of characters.  The password of
`multibytePasswordInput` has five characters and ten bytes, and the age is 20: whatever the
hash function returns, `Register` does not return 'password must be at least 8 characters' and
calls `GetByEmail`; with a hash function that succeeds it calls `CreateUser` as well and the
user is registered. -/
theorem register_accepts_short_multibyte_password :
    18 ≤ multibytePasswordInput.Age ∧ multibytePasswordInput.Password.length = 5 ∧
    multibytePasswordInput.Password.utf8ByteSize = 10 ∧
    (∀ hash : String → String × Option GoError,
      ∃ res r', (UserService.mk memoryUsers).Register hash multibytePasswordInput emptyStore =
          some (res, r') ∧
        res.2 ≠ some (errors.New "password must be at least 8 characters") ∧
        Invocation.GetByEmail "zoe@example.com" ∈ r'.calls) ∧
    ∃ u r', (UserService.mk memoryUsers).Register sampleHash multibytePasswordInput emptyStore =
        some ((some u, none), r') ∧
      u.Email = "zoe@example.com" ∧
      r'.calls = [Invocation.GetByEmail "zoe@example.com",
        Invocation.CreateUser ⟨"", "zoe@example.com", "Zoe", "Roy", 20, false,
          (sampleHash "ééééé").1, 0⟩] ∧
      mapGet r'.users u.ID = some u := by
  refine ⟨by decide, by decide, by decide, ?_, _, _, rfl, rfl, rfl, rfl⟩
  intro hash
  have h : ∀ x : String × Option GoError, hash multibytePasswordInput.Password = x →
      ∃ res r', (UserService.mk memoryUsers).Register hash multibytePasswordInput emptyStore =
          some (res, r') ∧
        res.2 ≠ some (errors.New "password must be at least 8 characters") ∧
        Invocation.GetByEmail "zoe@example.com" ∈ r'.calls := by
    intro x hx
    obtain ⟨hs, err⟩ := x
    cases err with
    | some e =>
      refine ⟨(none, errors.Wrap (some e) "hash password"),
        emptyStore.record (Invocation.GetByEmail "zoe@example.com"), ?_, ?_, ?_⟩
      · simp only [UserService.Register, hx]
        rfl
      · simp only [errors.Wrap, errors.New, Option.map_some', ne_eq, Option.some.injEq,
          GoError.mk.injEq]
        intro hc
        have h2 := congrArg (fun s : String => s.data.head?) hc.1
        simp only [String.data_append, List.cons_append, List.head?_cons, Option.some.injEq] at h2
        exact absurd h2 (by decide)
      · simp [MemoryRepository.record, emptyStore, NewMemoryRepository]
    | none =>
      have hc : ∃ u r', MemoryRepository.CreateUser
          ⟨"", "zoe@example.com", "Zoe", "Roy", 20, false, hs, 0⟩
          (emptyStore.record (Invocation.GetByEmail "zoe@example.com")) =
            some ((some u, none), r') ∧
          Invocation.GetByEmail "zoe@example.com" ∈ r'.calls := ⟨_, _, rfl, by
            simp [MemoryRepository.record, emptyStore, NewMemoryRepository,
              MemoryRepository.unlock]⟩
      obtain ⟨u, r', hcu, hmem⟩ := hc
      refine ⟨(some u, none), r', ?_, by simp, hmem⟩
      simp only [UserService.Register, hx]
      exact hcu
  exact h _ rfl

/-- C27. `User.FullName` is `FirstName`, a space and `LastName` when both names are non-empty,
and then the space stands between two non-empty strings; it is the non-empty name alone when
exactly one is non-empty, with no space added; and it is the empty string when both are empty. -/
theorem FullName_cases (u : User) :
    (u.FirstName ≠ "" → u.LastName ≠ "" →
      u.FullName = u.FirstName ++ " " ++ u.LastName ∧
      u.FullName.data = u.FirstName.data ++ ' ' :: u.LastName.data ∧
      u.FirstName.data ≠ [] ∧ u.LastName.data ≠ []) ∧
    (u.FirstName ≠ "" → u.LastName = "" → u.FullName = u.FirstName) ∧
    (u.FirstName = "" → u.LastName ≠ "" → u.FullName = u.LastName) ∧
    (u.FirstName = "" → u.LastName = "" → u.FullName = "") := by
  refine ⟨fun h1 h2 => ?_, fun h1 h2 => ?_, fun h1 h2 => ?_, fun h1 h2 => ?_⟩
  · have e : u.FullName = u.FirstName ++ " " ++ u.LastName := by simp [User.FullName, h1, h2]
    refine ⟨e, ?_, ?_, ?_⟩
    · rw [e]; simp [String.data_append]
    · intro h; exact h1 (String.ext h)
    · intro h; exact h2 (String.ext h)
  · simp [User.FullName, h1, h2]
  · simp [User.FullName, h1, h2]
  · simp [User.FullName, h1, h2]

theorem FullName_cases_witness :
    sampleUser.FullName = "Ann Lee" ∧ sampleUser.FullName.data = "Ann".data ++ ' ' :: "Lee".data ∧
    ({ sampleUser with LastName := "" } : User).FullName = "Ann" ∧
    ({ sampleUser with FirstName := "" } : User).FullName = "Lee" ∧
    ({ sampleUser with FirstName := "", LastName := "" } : User).FullName = "" :=
  ⟨((FullName_cases sampleUser).1 (by decide) (by decide)).1,
    ((FullName_cases sampleUser).1 (by decide) (by decide)).2.1,
    (FullName_cases { sampleUser with LastName := "" }).2.1 (by decide) rfl,
    (FullName_cases { sampleUser with FirstName := "" }).2.2.1 rfl (by decide),
    (FullName_cases { sampleUser with FirstName := "", LastName := "" }).2.2.2 rfl rfl⟩

/-- C28. `OrderService.Create` picks its validation error by a fixed precedence, whatever the
repositories: 'user id is required' for an empty user id; otherwise 'order items are required'
for an empty list; otherwise the error of the first item in list order with an empty product id
or a quantity that is not positive, 'product id is required' if its product id is empty and
'quantity must be positive' if not.  The four messages are pairwise distinct. -/
theorem create_validation_precedence {σ : Type} (s : OrderService σ) (userID : String)
    (items : List OrderItemInput) (w : σ) :
    (userID = "" →
      s.Create userID items w = some ((none, some (errors.New "user id is required")), w)) ∧
    (userID ≠ "" → items = [] →
      s.Create userID items w = some ((none, some (errors.New "order items are required")), w)) ∧
    (∀ pre it post, userID ≠ "" → items = pre ++ it :: post →
      (∀ x ∈ pre, x.ProductID ≠ "" ∧ 0 < x.Quantity) →
      (it.ProductID = "" ∨ it.Quantity ≤ 0) →
      s.Create userID items w =
        some ((none, some (if it.ProductID = "" then errors.New "product id is required"
          else errors.New "quantity must be positive")), w)) ∧
    (validationErrors.map GoError.msg).Nodup := by
  refine ⟨fun h => ?_, fun h1 h2 => ?_, fun pre it post h1 h2 hpre hit => ?_, by decide⟩
  · simp [OrderService.Create, h]
  · simp [OrderService.Create, h1, h2]
  · subst h2
    have hv := validateItems_first pre it post hpre hit
    simp only [OrderService.Create, h1, if_false, List.length_append, List.length_cons, hv]
    rw [if_neg (by omega)]

theorem create_validation_precedence_witness :
    memoryOrderService.Create "" [⟨"", 0⟩] sampleStore =
      some ((none, some (errors.New "user id is required")), sampleStore) ∧
    memoryOrderService.Create "u1" [] sampleStore =
      some ((none, some (errors.New "order items are required")), sampleStore) ∧
    memoryOrderService.Create "u1" [⟨"p1", 1⟩, ⟨"", 0⟩, ⟨"p2", 0⟩] sampleStore =
      some ((none, some (errors.New "product id is required")), sampleStore) ∧
    memoryOrderService.Create "u1" [⟨"p1", 1⟩, ⟨"p2", 0⟩, ⟨"", 1⟩] sampleStore =
      some ((none, some (errors.New "quantity must be positive")), sampleStore) :=
  ⟨(create_validation_precedence memoryOrderService "" [⟨"", 0⟩] sampleStore).1 rfl,
    (create_validation_precedence memoryOrderService "u1" [] sampleStore).2.1 (by decide) rfl,
    (create_validation_precedence memoryOrderService "u1" [⟨"p1", 1⟩, ⟨"", 0⟩, ⟨"p2", 0⟩]
      sampleStore).2.2.1 [⟨"p1", 1⟩] ⟨"", 0⟩ [⟨"p2", 0⟩] (by decide) rfl (by decide)
      (by decide),
    (create_validation_precedence memoryOrderService "u1" [⟨"p1", 1⟩, ⟨"p2", 0⟩, ⟨"", 1⟩]
      sampleStore).2.2.1 [⟨"p1", 1⟩] ⟨"p2", 0⟩ [⟨"", 1⟩] (by decide) rfl (by decide)
      (by decide)⟩

/-- C29. Deduplicated lock set.  The id list that `OrderService.Create` builds for
`GetByIDsForUpdate` is the list of the product ids of the items in the order of their first
occurrence: it holds no id twice and holds exactly the product ids that occur in the items.
Over `MemoryRepository`, every `Create` call that reaches the lock step (validated request,
existing user, free mutex) returns and invokes `GetByIDsForUpdate` exactly once, with that
list; a call that returns before that step, because the validation fails or no user is found,
does not invoke it; so no `Create` call that returns invokes it more than once. -/
theorem lock_set_is_deduplicated (userID : String) (items : List OrderItemInput) :
    collectIDs items [] [] = firstOccurrences (items.map (fun it => it.ProductID)) ∧
    (collectIDs items [] []).Nodup ∧
    (∀ x, x ∈ collectIDs items [] [] ↔ ∃ it ∈ items, it.ProductID = x) ∧
    (∀ (r : MemoryRepository) (u : User), r.mu = false → Validated userID items →
      mapGet r.users userID = some u →
      ∃ res r' new, memoryOrderService.Create userID items r = some (res, r') ∧
        r'.calls = r.calls ++ new ∧
        new.filter Invocation.isGetByIDsForUpdate =
          [Invocation.GetByIDsForUpdate (Tx.memoryTx true) (collectIDs items [] [])]) ∧
    (∀ (r : MemoryRepository) res r', memoryOrderService.Create userID items r = some (res, r') →
      ∃ new, r'.calls = r.calls ++ new ∧
        (new.filter Invocation.isGetByIDsForUpdate =
            [Invocation.GetByIDsForUpdate (Tx.memoryTx true) (collectIDs items [] [])] ∧
            Validated userID items ∧ mapGet r.users userID ≠ none ∨
          new.filter Invocation.isGetByIDsForUpdate = [] ∧
            (¬ Validated userID items ∨ mapGet r.users userID = none))) := by
  have hone : ∀ (r : MemoryRepository) (u : User), r.mu = false → Validated userID items →
      mapGet r.users userID = some u →
      ∃ res r' new, memoryOrderService.Create userID items r = some (res, r') ∧
        r'.calls = r.calls ++ new ∧
        new.filter Invocation.isGetByIDsForUpdate =
          [Invocation.GetByIDsForUpdate (Tx.memoryTx true) (collectIDs items [] [])] := by
    intro r u hmu hv hu
    obtain ⟨res, r', tail, h, hcalls, htail⟩ := Create_memory_log userID items r hmu hv u hu
    refine ⟨res, r', _, h, by rw [hcalls, List.append_assoc], ?_⟩
    have : tail.filter Invocation.isGetByIDsForUpdate = [] :=
      List.filter_eq_nil_iff.mpr (fun c hc => by simp [htail c hc])
    simp [List.filter_append, List.filter_cons, Invocation.isGetByIDsForUpdate, this]
  refine ⟨collectIDs_firstOccurrences items, ?_, mem_collectIDs_nil items, hone, ?_⟩
  · rw [collectIDs_firstOccurrences]
    exact firstOccurrences_nodup _
  · intro r res r' h
    by_cases hinv : userID = "" ∨ items = [] ∨ ∃ it ∈ items, it.ProductID = "" ∨ it.Quantity ≤ 0
    · obtain ⟨e1, _, h1⟩ := Create_rejects memoryOrderService userID items r hinv
      rw [h1] at h
      simp only [Option.some.injEq, Prod.mk.injEq] at h
      obtain ⟨_, rfl⟩ := h
      refine ⟨[], by simp, Or.inr ⟨rfl, Or.inl ?_⟩⟩
      rintro ⟨h1, h2, h3⟩
      rcases hinv with hi | hi | ⟨it, hit, hi⟩
      · exact h1 hi
      · exact h2 hi
      · rcases hi with hi | hi
        · exact (h3 it hit).1 hi
        · exact absurd (h3 it hit).2 (not_lt.mpr hi)
    · have hv := validated_of_not_invalid hinv
      cases hm : r.mu with
      | true =>
        rw [Create_memory_blocked userID items r hm hv] at h
        cases h
      | false =>
        cases hu : mapGet r.users userID with
        | none =>
          rw [Create_memory_no_user userID items r hm hv hu] at h
          simp only [Option.some.injEq, Prod.mk.injEq] at h
          obtain ⟨_, rfl⟩ := h
          exact ⟨[Invocation.GetByID userID], rfl, Or.inr ⟨rfl, Or.inr rfl⟩⟩
        | some u =>
          obtain ⟨res1, r1, new, h1, hc, hf⟩ := hone r u hm hv hu
          rw [h1] at h
          simp only [Option.some.injEq, Prod.mk.injEq] at h
          obtain ⟨_, rfl⟩ := h
          exact ⟨new, hc, Or.inl ⟨hf, hv, by simp⟩⟩

theorem lock_set_is_deduplicated_witness :
    collectIDs [⟨"p1", 1⟩, ⟨"p2", 1⟩, ⟨"p1", 2⟩] [] [] = ["p1", "p2"] ∧
    firstOccurrences ["p1", "p2", "p1"] = ["p1", "p2"] ∧
    (∃ res r' new,
      memoryOrderService.Create "u1" [⟨"p1", 1⟩, ⟨"p2", 1⟩, ⟨"p1", 2⟩] sampleStore =
        some (res, r') ∧
      r'.calls = sampleStore.calls ++ new ∧
      new.filter Invocation.isGetByIDsForUpdate =
        [Invocation.GetByIDsForUpdate (Tx.memoryTx true) ["p1", "p2"]]) ∧
    (∃ r' new, memoryOrderService.Create "ghost" [⟨"p1", 1⟩] sampleStore =
        some ((none, some (errors.New "user not found")), r') ∧
      r'.calls = sampleStore.calls ++ new ∧
      new.filter Invocation.isGetByIDsForUpdate = []) := by
  refine ⟨rfl, rfl,
    (lock_set_is_deduplicated "u1" [⟨"p1", 1⟩, ⟨"p2", 1⟩, ⟨"p1", 2⟩]).2.2.2.1 sampleStore
      sampleUser rfl ⟨by decide, by simp, by simp⟩ rfl, ?_⟩
  have hc : ∃ r', memoryOrderService.Create "ghost" [⟨"p1", 1⟩] sampleStore =
      some ((none, some (errors.New "user not found")), r') := ⟨_, rfl⟩
  obtain ⟨r', hc⟩ := hc
  obtain ⟨new, h1, h2⟩ := (lock_set_is_deduplicated "ghost" [⟨"p1", 1⟩]).2.2.2.2 sampleStore _ r' hc
  refine ⟨r', new, hc, h1, ?_⟩
  rcases h2 with ⟨_, _, h3⟩ | ⟨h3, _⟩
  · exact absurd rfl h3
  · exact h3

/-- C30 fails on the code.  `Create` ends with `return created, err`, where `created` was set
by the closure and `err` is what `WithTx` returned.  With the PostgreSQL `Repository.WithTx` as
transaction manager and a connection whose `Commit` fails, the closure succeeds and sets
`created`, `WithTx` returns the wrapped commit error, and `Create` returns the order together
with that error. -/
theorem create_returns_order_with_commit_error :
    ∃ order r', brokenCommitService.Create "u1" [⟨"p1", 2⟩] sampleStore =
        some ((some order, some (errors.New "commit tx: connection reset")), r') ∧
      order.ID = "id-0" ∧ order.UserID = "u1" ∧
      order.Items.map (fun x => (x.ProductID, x.Quantity)) = [("p1", 2)] :=
  ⟨_, _, rfl, rfl, rfl, rfl⟩

end StockPilot
